import Mathlib

/-!
Verification of the rendirt mesh renderer (src/rendirt.hpp, src/rendirt.cpp)
against its natural-language specification.

Shallow embedding conventions:
- glm float scalars are modelled as exact rationals; the arithmetic the
  claims depend on (min, max, comparisons, unions of axis-aligned boxes,
  midpoints) is exact, so no claim settled here depends on rounding.
- For the vertex-deduplication claims, which are about bit-level float
  equality, vertices are modelled as raw 32-bit IEEE-754 bit patterns
  (naturals below 2 to the 32) and the comparison operators used by the
  code (float operator less-than and operator equal) are defined exactly
  on those patterns. The deduplication routine is generic in the vertex
  type and is instantiated both ways.
- Streams are byte lists with explicit eofbit/failbit state mirroring
  std::istream semantics (a sentry fails and sets failbit when eofbit or
  failbit is already set; extraction of a token or number at end of
  stream sets eofbit, and sets failbit when nothing was extracted).
- Recursion that is unbounded in the source (the facet loop, the BVH
  build) is expressed with an explicit fuel argument that is provably
  sufficient, so every definition is executable and kernel-reducible.
-/

namespace rendirt

/-- Component-wise three-vector, generic in the scalar type
(glm::vec3 in src/rendirt.hpp; scalars are rationals for geometry and raw
IEEE-754 bit patterns for the bit-exact deduplication model). -/
structure Vec3 (α : Type) where
  x : α
  y : α
  z : α
deriving DecidableEq, Repr

instance : Inhabited (Vec3 ℚ) := ⟨⟨0, 0, 0⟩⟩

instance : Inhabited (Vec3 ℕ) := ⟨⟨0, 0, 0⟩⟩

/-- Component-wise minimum, glm::min on vec3. -/
def vmin (a b : Vec3 ℚ) : Vec3 ℚ := ⟨min a.x b.x, min a.y b.y, min a.z b.z⟩

/-- Component-wise maximum, glm::max on vec3. -/
def vmax (a b : Vec3 ℚ) : Vec3 ℚ := ⟨max a.x b.x, max a.y b.y, max a.z b.z⟩

/-- Component-wise addition. -/
def vadd (a b : Vec3 ℚ) : Vec3 ℚ := ⟨a.x + b.x, a.y + b.y, a.z + b.z⟩

/-- Component-wise subtraction. -/
def vsub (a b : Vec3 ℚ) : Vec3 ℚ := ⟨a.x - b.x, a.y - b.y, a.z - b.z⟩

/-- Component-wise absolute value, glm::abs. -/
def vabs (a : Vec3 ℚ) : Vec3 ℚ := ⟨|a.x|, |a.y|, |a.z|⟩

/-- Division of every component by two, for midpoints and centroids
(the source writes (a + b) / 2.0f). -/
def vhalf (a : Vec3 ℚ) : Vec3 ℚ := ⟨a.x / 2, a.y / 2, a.z / 2⟩

/-- Indexed component access, vec[dir] in glm (0 is x, 1 is y, else z). -/
def vcomp (v : Vec3 ℚ) (i : ℕ) : ℚ := if i = 0 then v.x else if i = 1 then v.y else v.z

/-- Component-wise order on vectors. -/
def vle (a b : Vec3 ℚ) : Prop := a.x ≤ b.x ∧ a.y ≤ b.y ∧ a.z ≤ b.z

instance (a b : Vec3 ℚ) : Decidable (vle a b) := by unfold vle; infer_instance

/-- Axis-aligned bounding box (struct AABB, src/rendirt.hpp lines 45-48).
The C++ field names are from and to; from is a reserved word in Lean, so
the fields are named lo and hi here. -/
structure AABB where
  lo : Vec3 ℚ
  hi : Vec3 ℚ
deriving DecidableEq, Repr

instance : Inhabited AABB := ⟨⟨default, default⟩⟩

/-- Union of two boxes by component-wise min/max, the accumulateBbox
pattern of src/rendirt.cpp lines 69-71. -/
def aabbUnion (a b : AABB) : AABB := ⟨vmin a.lo b.lo, vmax a.hi b.hi⟩

/-- Box containment: outer contains inner. -/
def aabbContainsBox (outer inner : AABB) : Prop := vle outer.lo inner.lo ∧ vle inner.hi outer.hi

instance (a b : AABB) : Decidable (aabbContainsBox a b) := by unfold aabbContainsBox; infer_instance

/-- Point membership in a box. -/
def aabbContainsPoint (b : AABB) (v : Vec3 ℚ) : Prop := vle b.lo v ∧ vle v b.hi

instance (b : AABB) (v : Vec3 ℚ) : Decidable (aabbContainsPoint b v) := by
  unfold aabbContainsPoint; infer_instance

/-- Triangle record (struct Face, src/rendirt.hpp lines 40-43): three
indices into the vertex array plus a normal. The normal scalar type is a
parameter because normals are carried but never inspected by the
operations verified here. -/
structure Face (ν : Type) where
  i0 : ℕ
  i1 : ℕ
  i2 : ℕ
  normal : ν
deriving DecidableEq, Repr

/-- Value of a face normal as produced by the loaders: either the
file-supplied vector (useNormals true) or the recomputed
glm::triangleNormal of the three vertices (useNormals false). The
recomputed normal involves an irrational normalization (a square root),
so it is kept symbolic; no claim verified here inspects normal values
produced by the loaders. -/
inductive NormalV where
  | fileN (n : Vec3 ℚ)
  | computedN (a b c : Vec3 ℚ)
deriving DecidableEq, Repr

/-- Flat-array BVH node (struct BVHNode, src/rendirt.hpp lines 50-76). -/
structure BVHNode where
  bbox : AABB
  leaf : Bool
  leftOrFirstFace : ℕ
  rightOrLastFace : ℕ
deriving DecidableEq, Repr

/-- BVHNode::left (src/rendirt.hpp lines 57-59). -/
def BVHNode.left (nd : BVHNode) : ℕ := if nd.leaf then 0 else nd.leftOrFirstFace

/-- BVHNode::right (src/rendirt.hpp lines 61-63). -/
def BVHNode.right (nd : BVHNode) : ℕ := if nd.leaf then 0 else nd.rightOrLastFace

/-- BVHNode::firstFace (src/rendirt.hpp lines 65-67). -/
def BVHNode.firstFace (nd : BVHNode) : ℕ := if nd.leaf then nd.leftOrFirstFace else 0

/-- BVHNode::lastFace (src/rendirt.hpp lines 69-71). -/
def BVHNode.lastFace (nd : BVHNode) : ℕ := if nd.leaf then nd.rightOrLastFace else 0

/-- BVHNode::load (src/rendirt.hpp lines 73-75). -/
def BVHNode.load (nd : BVHNode) : ℕ := nd.lastFace - nd.firstFace

/-- Load error taxonomy (Model::Error, src/rendirt.hpp lines 80-88). -/
inductive Error where
  | Ok
  | InvalidToken
  | UnexpectedToken
  | FileTruncated
  | GuessFailed
deriving DecidableEq, Repr

/-- Load mode (Model::Mode, src/rendirt.hpp lines 90-94). -/
inductive Mode where
  | Guess
  | Text
  | Binary
deriving DecidableEq, Repr

/-- The geometry store (class Model, src/rendirt.hpp lines 78-132):
vertices, faces, the cached bounding box (private field boundingBox_) and
the flat BVH array (private field bvh_). -/
structure Model (ν : Type) where
  vertices : List (Vec3 ℚ)
  faces : List (Face ν)
  boundingBox : AABB
  bvh : List BVHNode

/-- Bounding box of one face, exactly as the BVH builder computes it
(src/rendirt.cpp lines 143-146): component-wise min/max of the three
vertices. Out-of-range indices (undefined behaviour in C++) read a
default vertex. -/
def faceBBox (verts : List (Vec3 ℚ)) {ν : Type} (f : Face ν) : AABB :=
  ⟨vmin (verts.getD f.i0 default) (vmin (verts.getD f.i1 default) (verts.getD f.i2 default)),
   vmax (verts.getD f.i0 default) (vmax (verts.getD f.i1 default) (verts.getD f.i2 default))⟩

/-! ### IEEE-754 single-precision comparison model

Vertices parsed from a binary STL are raw 32-bit patterns. The
deduplication code compares them with float operator equal and operator
less-than; both are defined here exactly on bit patterns: NaN compares
false under every comparison, positive and negative zero compare equal,
and all other patterns compare by signed magnitude. -/

/-- Magnitude bits of a pattern: everything below the sign bit. -/
def f32mag (p : ℕ) : ℕ := p % 2 ^ 31

/-- Sign bit of a pattern (patterns are taken modulo 2 to the 32). -/
def f32sign (p : ℕ) : Bool := decide (2 ^ 31 ≤ p % 2 ^ 32)

/-- NaN test: exponent all ones and non-zero mantissa, i.e. magnitude
strictly above the infinity pattern 0x7F800000. -/
def f32isNaN (p : ℕ) : Bool := decide (0x7F800000 < f32mag p)

/-- Order key of a non-NaN pattern: signed magnitude. Both zeros map to
key 0, and distinct non-NaN patterns otherwise have distinct keys, so key
equality is exactly IEEE equality on non-NaN values. -/
def f32key (p : ℕ) : ℤ := if f32sign p then -(f32mag p : ℤ) else (f32mag p : ℤ)

/-- IEEE float less-than on bit patterns. -/
def f32lt (p q : ℕ) : Bool := !f32isNaN p && !f32isNaN q && decide (f32key p < f32key q)

/-- IEEE float equality on bit patterns. -/
def f32eq (p q : ℕ) : Bool := !f32isNaN p && !f32isNaN q && decide (f32key p = f32key q)

/-- The vertex comparator of deduplicateVertices (src/rendirt.cpp lines
199-210), transcribed branch for branch with IEEE float semantics. -/
def vecLtF32 (l r : Vec3 ℕ) : Bool :=
  if f32lt l.x r.x then true
  else if f32eq l.x r.x then
    if f32lt l.y r.y then true
    else if f32eq l.y r.y then f32lt l.z r.z
    else false
  else false

/-- glm vec3 operator equal: all three components compare equal
(used at src/rendirt.cpp line 217). -/
def vecEqF32 (l r : Vec3 ℕ) : Bool := f32eq l.x r.x && f32eq l.y r.y && f32eq l.z r.z

/-- Rational-vertex instantiation of the same comparator, for the text
pipeline where parsed values are exact rationals. -/
def vecLtQ (l r : Vec3 ℚ) : Bool :=
  if l.x < r.x then true
  else if l.x = r.x then
    if l.y < r.y then true
    else if l.y = r.y then decide (l.z < r.z)
    else false
  else false

/-- Rational-vertex equality. -/
def vecEqQ (l r : Vec3 ℚ) : Bool := decide (l = r)

/-! ### Vertex deduplication (src/rendirt.cpp lines 190-245)

The routine is generic in the vertex type and in the two comparison
operators, exactly as the C++ is generic in nothing but could be: it only
ever compares vertices with operator less-than (during the sort) and
operator equal (during run collapsing). -/

/-- Index order realised by std::stable_sort with the strict comparator
vlt on vertex values: the stable sort of the identity index permutation
is precisely the sort by the comparator with ties broken by the original
index, which for a list of distinct indices is the order below. -/
def idxLe (vlt : β → β → Bool) [Inhabited β] (vs : List β) (i j : ℕ) : Prop :=
  vlt (vs.getD i default) (vs.getD j default) = true ∨
    (vlt (vs.getD j default) (vs.getD i default) = false ∧ i ≤ j)

instance (vlt : β → β → Bool) [Inhabited β] (vs : List β) : DecidableRel (idxLe vlt vs) := by
  unfold idxLe; infer_instance

/-- First pass over the sorted index list (src/rendirt.cpp lines 216-221):
walk adjacent entries, point every duplicate at the first index of its
equal run (the run head cur), and advance cur at value changes. -/
def buildRemap (veq : β → β → Bool) [Inhabited β] (vs : List β) :
    List ℕ → ℕ → List ℕ → List ℕ
  | [], _, remap => remap
  | it :: rest, cur, remap =>
      if veq (vs.getD it default) (vs.getD cur default) then
        buildRemap veq vs rest cur (remap.set it cur)
      else
        buildRemap veq vs rest it remap

/-- State of the relocation loop (src/rendirt.cpp lines 223-234). -/
structure RelocSt (β : Type) where
  remap : List ℕ
  verts : List β
  cur : ℕ

/-- One iteration of the relocation loop at position pos. -/
def relocStep [Inhabited β] (st : RelocSt β) (pos : ℕ) : RelocSt β :=
  if st.remap.getD pos 0 = pos then
    let cur' := st.cur + 1
    if cur' ≠ pos then
      ⟨st.remap.set pos cur', st.verts.set cur' (st.verts.getD pos default), cur'⟩
    else
      ⟨st.remap, st.verts, cur'⟩
  else
    ⟨st.remap.set pos (st.remap.getD (st.remap.getD pos 0) 0), st.verts, st.cur⟩

/-- The relocation loop: steps iterations starting at position pos. -/
def relocLoop [Inhabited β] : RelocSt β → ℕ → ℕ → RelocSt β
  | st, _, 0 => st
  | st, pos, steps + 1 => relocLoop (relocStep st pos) (pos + 1) steps

/-- Invariant of the relocation loop (src/rendirt.cpp lines 223-234),
parametrized by the list H of run-head positions already visited, in
ascending order: cur counts the heads, compacted vertex slots hold the
head vertices in order, processed remap entries point at the compacted
slot of their representative, and unprocessed entries are untouched. -/
def RelocInv {β : Type} [Inhabited β] (vs : List β) (remap1 : List ℕ)
    (st : RelocSt β) (pos : ℕ) (H : List ℕ) : Prop :=
  st.remap.length = remap1.length ∧
  st.verts.length = vs.length ∧
  st.cur + 1 = H.length ∧
  st.cur < pos ∧
  (∀ i, pos ≤ i → st.remap.getD i 0 = remap1.getD i 0) ∧
  (∀ i, st.cur < i → st.verts.getD i default = vs.getD i default) ∧
  List.Pairwise (· < ·) H ∧
  (∀ h ∈ H, h < pos ∧ remap1.getD h 0 = h) ∧
  (∀ h, h < pos → remap1.getD h 0 = h → h ∈ H) ∧
  (∀ t, t < H.length → st.verts.getD t default = vs.getD (H.getD t 0) default) ∧
  (∀ i, i < pos → ∃ t, t < H.length ∧ H.getD t 0 = remap1.getD i 0 ∧
    st.remap.getD i 0 = t)

/-- deduplicateVertices (src/rendirt.cpp lines 190-245): sort indices by
vertex value (stable), collapse equal runs onto their first
representative, compact the representatives in place, and remap every
face index through the final mapping. -/
def deduplicateVertices (veq vlt : β → β → Bool) [Inhabited β] {ν : Type}
    (vertices : List β) (faces : List (Face ν)) : List β × List (Face ν) :=
  if vertices.length < 2 then (vertices, faces)
  else
    match List.insertionSort (idxLe vlt vertices) (List.range vertices.length) with
    | [] => (vertices, faces)
    | c0 :: rest =>
      let remap1 := buildRemap veq vertices rest c0 (List.range vertices.length)
      let res := relocLoop (⟨remap1, vertices, 0⟩ : RelocSt β) 1 (vertices.length - 1)
      (res.verts.take (res.cur + 1),
       faces.map (fun f =>
         ⟨res.remap.getD f.i0 0, res.remap.getD f.i1 0, res.remap.getD f.i2 0, f.normal⟩))

/-! ### Input stream model (std::istream over a byte list)

Flags follow the C++ iostreams contract used by the parser: formatted and
unformatted operations first construct a sentry which fails (setting
failbit, performing nothing) when eofbit or failbit is already set;
extraction that consumes up to end of stream sets eofbit; extraction that
consumes nothing sets failbit. Only eofbit and failbit are modelled
(badbit never arises from a byte-list stream). -/

structure IStream where
  data : List ℕ
  eofbit : Bool
  failbit : Bool
deriving DecidableEq, Repr

/-- istream::good: no flag set. -/
def IStream.good (s : IStream) : Bool := !s.eofbit && !s.failbit

/-- Contextual conversion to bool (the negation of fail()): only failbit
counts, eofbit alone leaves the stream truthy. -/
def IStream.okb (s : IStream) : Bool := !s.failbit

/-- Fresh stream over a byte list. -/
def mkStream (l : List ℕ) : IStream := ⟨l, false, false⟩

/-- Byte list of a string literal. -/
def bytes (s : String) : List ℕ := s.data.map Char.toNat

/-- std::isspace for the characters relevant to STL text: space and the
control range tab through carriage return. -/
def isspaceB (b : ℕ) : Bool := b == 32 || (9 ≤ b && b ≤ 13)

/-- ASCII digit test. -/
def isdigitB (b : ℕ) : Bool := 48 ≤ b && b ≤ 57

/-- istream::peek: on a failed sentry sets failbit and yields end of
file; at end of data yields end of file and sets eofbit; otherwise
yields the next byte without consuming it. -/
def IStream.peek (s : IStream) : Option ℕ × IStream :=
  if s.good then
    match s.data with
    | [] => (none, { s with eofbit := true })
    | c :: _ => (some c, s)
  else (none, { s with failbit := true })

/-- istream::ignore() for a single character (used by skipWhitespace
after a successful peek, so the end-of-data branch is defensive). -/
def IStream.ignore1 (s : IStream) : IStream :=
  if s.good then
    match s.data with
    | [] => { s with eofbit := true }
    | _ :: rest => { s with data := rest }
  else { s with failbit := true }

/-- Loop body of skipWhitespace (src/rendirt.cpp lines 248-257). The
C++ condition evaluates isspace(stream.peek()) before testing
count < limit, so the peek side effect happens even on the final test;
the fuel argument equals limit minus count and bounds the recursion. -/
def skipWSGo (limit : ℕ) : ℕ → ℕ → IStream → ℕ × IStream
  | 0, count, s =>
      let p := s.peek
      (count, p.2)
  | fuel + 1, count, s =>
      let p := s.peek
      match p.1 with
      | some c =>
          if isspaceB c then skipWSGo limit fuel (count + 1) p.2.ignore1
          else (count, p.2)
      | none => (count, p.2)

/-- skipWhitespace (src/rendirt.cpp lines 248-257): consume whitespace
while the count stays below the limit; return the count of skipped
bytes. -/
def skipWhitespace (s : IStream) (limit : ℕ) : ℕ × IStream := skipWSGo limit limit 0 s

/-- istream::read of n bytes: short reads (fewer than n available) set
both eofbit and failbit, exactly the condition the loaders test through
gcount. The returned list holds the bytes actually read. -/
def IStream.readN (s : IStream) (n : ℕ) : List ℕ × IStream :=
  if s.good then
    if n ≤ s.data.length then (s.data.take n, { s with data := s.data.drop n })
    else (s.data, ⟨[], true, true⟩)
  else ([], { s with failbit := true })

/-- istream::ignore(n): consume up to n bytes; hitting end of data sets
eofbit only. -/
def IStream.ignoreN (s : IStream) (n : ℕ) : IStream :=
  if s.good then
    if n ≤ s.data.length then { s with data := s.data.drop n }
    else ⟨[], true, s.failbit⟩
  else { s with failbit := true }

/-- istream::ignore(max, newline) as used to skip the solid name line
(src/rendirt.cpp line 284): consume up to and including the first
newline; if none remains, consume everything and set eofbit. -/
def IStream.ignoreLine (s : IStream) : IStream :=
  if s.good then
    let rest := s.data.dropWhile (fun b => !(b == 10))
    match rest with
    | [] => ⟨[], true, s.failbit⟩
    | _ :: tail => { s with data := tail }
  else { s with failbit := true }

/-- Formatted extraction of a whitespace-delimited token
(operator>> into std::string): skip whitespace, then take the maximal
run of non-whitespace bytes. Failure (nothing extracted) sets failbit
and eofbit; success sets eofbit when the token ends at end of data. -/
def IStream.extractToken (s : IStream) : Option (List ℕ) × IStream :=
  if s.good then
    let rest := s.data.dropWhile isspaceB
    match rest with
    | [] => (none, ⟨[], true, true⟩)
    | _ :: _ =>
      let tok := rest.takeWhile (fun b => !isspaceB b)
      let rem := rest.drop tok.length
      (some tok, ⟨rem, rem.isEmpty, false⟩)
  else (none, { s with failbit := true })

/-- Digit-list value in base ten. -/
def digitsVal (l : List ℕ) : ℕ := l.foldl (fun acc d => 10 * acc + (d - 48)) 0

/-- num_get float accumulation and validation on a byte list that
starts at a non-space byte: consume an optional sign, integer digits, an
optional decimal point with fraction digits, and an optional exponent
part (e or E, optional sign, digits); the accumulated field is valid
when the mantissa has at least one digit and an exponent marker, if
present, is followed by at least one digit. Returns the exact rational
value on success together with the number of bytes consumed. -/
def parseFloatBytes (d : List ℕ) : Option ℚ × ℕ :=
  let hasSign := d.head? = some 43 ∨ d.head? = some 45
  let neg := d.head? = some 45
  let d1 := if hasSign then d.tail else d
  let c1 := if hasSign then 1 else 0
  let ip := d1.takeWhile isdigitB
  let d2 := d1.drop ip.length
  let hasDot := d2.head? = some 46
  let d2t := if hasDot then d2.tail else d2
  let fp := if hasDot then d2t.takeWhile isdigitB else []
  let d3 := if hasDot then d2t.drop fp.length else d2
  let c2 := c1 + ip.length + (if hasDot then 1 + fp.length else 0)
  let hasE := d3.head? = some 101 ∨ d3.head? = some 69
  let d4 := if hasE then d3.tail else d3
  let hasESign := hasE ∧ (d4.head? = some 43 ∨ d4.head? = some 45)
  let eNeg := hasE ∧ d4.head? = some 45
  let d5 := if hasESign then d4.tail else d4
  let ep := if hasE then d5.takeWhile isdigitB else []
  let c3 := c2 + (if hasE then 1 + (if hasESign then 1 else 0) + ep.length else 0)
  if (ip ≠ [] ∨ fp ≠ []) ∧ (hasE → ep ≠ []) then
    let mant : ℚ := ((digitsVal ip * 10 ^ fp.length + digitsVal fp : ℕ) : ℚ) / (10 : ℚ) ^ fp.length
    let ex : ℤ := if eNeg then -(digitsVal ep : ℤ) else (digitsVal ep : ℤ)
    (some ((if neg then -1 else 1) * mant * (10 : ℚ) ^ ex), c3)
  else (none, c3)

/-- Formatted extraction of a float (operator>> into float): sentry
skips whitespace (failing at end of data), then the numeric field is
accumulated and validated; an invalid field sets failbit, and a field
that consumes the last byte of data sets eofbit. Values are exact
rationals; the conversion to the nearest float is not modelled, and no
claim verified here depends on parsed numeric values. -/
def IStream.extractFloat (s : IStream) : Option ℚ × IStream :=
  if s.good then
    let rest := s.data.dropWhile isspaceB
    match rest with
    | [] => (none, ⟨[], true, true⟩)
    | _ :: _ =>
      let r := parseFloatBytes rest
      let rem := rest.drop r.2
      match r.1 with
      | some v => (some v, ⟨rem, rem.isEmpty, false⟩)
      | none => (none, ⟨rem, rem.isEmpty, true⟩)
  else (none, { s with failbit := true })

/-! ### Text STL parser (Model::loadTextSTL, src/rendirt.cpp lines 265-389) -/

/-- Keyword byte lists. -/
def kwSolid : List ℕ := bytes "solid"

def kwFacet : List ℕ := bytes "facet"

def kwNormal : List ℕ := bytes "normal"

def kwOuter : List ℕ := bytes "outer"

def kwLoop : List ℕ := bytes "loop"

def kwVertex : List ℕ := bytes "vertex"

def kwEndloop : List ℕ := bytes "endloop"

def kwEndfacet : List ℕ := bytes "endfacet"

def kwEndsolid : List ℕ := bytes "endsolid"

/-- One keyword site of the text parser: extract a token; extraction
failure is FileTruncated, a mismatching token is UnexpectedToken
(the pattern at src/rendirt.cpp lines 296-300, 311-321, 324-328,
339-349). -/
def expectKw (kword : List ℕ) (s : IStream) : Option Error × IStream :=
  match s.extractToken with
  | (none, s1) => (some Error.FileTruncated, s1)
  | (some t, s1) => if t = kword then (none, s1) else (some Error.UnexpectedToken, s1)

/-- Three chained float extractions, as in stream into x into y into z;
later extractions are no-ops once a flag is set. -/
def readVec3 (s : IStream) : Option (Vec3 ℚ) × IStream :=
  let r1 := s.extractFloat
  let r2 := r1.2.extractFloat
  let r3 := r2.2.extractFloat
  match r1.1, r2.1, r3.1 with
  | some a, some b, some c => (some ⟨a, b, c⟩, r3.2)
  | _, _, _ => (none, r3.2)

/-- The number-site classification of the text parser (src/rendirt.cpp
lines 302-308 and 330-336): after the three chained extractions, eofbit
means FileTruncated and a remaining failure means InvalidToken. -/
def classifyVec3 (r : Option (Vec3 ℚ) × IStream) : Except Error (Vec3 ℚ × IStream) :=
  if r.2.eofbit then .error Error.FileTruncated
  else if r.2.failbit then .error Error.InvalidToken
  else
    match r.1 with
    | some v => .ok (v, r.2)
    | none => .error Error.InvalidToken

/-- Body of one facet record (src/rendirt.cpp lines 295-349): the
keyword normal, three floats, outer, loop, three times (vertex and three
floats), endloop, endfacet. Returns the parsed normal and vertices or
the first classification error. -/
def parseFacetBody (s : IStream) :
    Except (Error × IStream) ((Vec3 ℚ × Vec3 ℚ × Vec3 ℚ × Vec3 ℚ) × IStream) :=
  match expectKw kwNormal s with
  | (some e, s1) => .error (e, s1)
  | (none, s1) =>
  match classifyVec3 (readVec3 s1) with
  | .error e => .error (e, (readVec3 s1).2)
  | .ok (nrm, s2) =>
  match expectKw kwOuter s2 with
  | (some e, s3) => .error (e, s3)
  | (none, s3) =>
  match expectKw kwLoop s3 with
  | (some e, s4) => .error (e, s4)
  | (none, s4) =>
  match expectKw kwVertex s4 with
  | (some e, s5) => .error (e, s5)
  | (none, s5) =>
  match classifyVec3 (readVec3 s5) with
  | .error e => .error (e, (readVec3 s5).2)
  | .ok (v0, s6) =>
  match expectKw kwVertex s6 with
  | (some e, s7) => .error (e, s7)
  | (none, s7) =>
  match classifyVec3 (readVec3 s7) with
  | .error e => .error (e, (readVec3 s7).2)
  | .ok (v1, s8) =>
  match expectKw kwVertex s8 with
  | (some e, s9) => .error (e, s9)
  | (none, s9) =>
  match classifyVec3 (readVec3 s9) with
  | .error e => .error (e, (readVec3 s9).2)
  | .ok (v2, s10) =>
  match expectKw kwEndloop s10 with
  | (some e, s11) => .error (e, s11)
  | (none, s11) =>
  match expectKw kwEndfacet s11 with
  | (some e, s12) => .error (e, s12)
  | (none, s12) => .ok ((nrm, v0, v1, v2), s12)

/-- Geometry accumulated by a load in progress. -/
structure LoadSt where
  verts : List (Vec3 ℚ)
  faces : List (Face NormalV)
  bbox : AABB
deriving Repr

/-- Facet acceptance (src/rendirt.cpp lines 351-373): push the three
vertices, append the face record referencing them, and update the
bounding box (reset to the face box on the first accepted facet, then
union). -/
def acceptFacet (st : LoadSt) (first useNormals : Bool)
    (nrm v0 v1 v2 : Vec3 ℚ) : LoadSt :=
  let normal := if useNormals then NormalV.fileN nrm else NormalV.computedN v0 v1 v2
  let verts1 := st.verts ++ [v0, v1, v2]
  let faces1 := st.faces ++
    [⟨verts1.length - 3, verts1.length - 2, verts1.length - 1, normal⟩]
  let fb : AABB := ⟨vmin v0 (vmin v1 v2), vmax v0 (vmax v1 v2)⟩
  let bbox1 := if first then fb else st.bbox
  ⟨verts1, faces1, aabbUnion bbox1 fb⟩

/-- The facet loop (src/rendirt.cpp lines 294-388). Fuel bounds the
recursion (every iteration consumes at least one byte of the stream, so
data length plus one is always sufficient; the fuel-exhausted branch is
unreachable from the entry points below). On loop exit the terminating
token must be endsolid; an empty trailing token is reported as
FileTruncated and any other mismatch as UnexpectedToken; on success the
vertices are deduplicated. -/
def textLoop (useNormals : Bool) :
    ℕ → List ℕ → IStream → Bool → LoadSt → Error × LoadSt × IStream
  | 0, _, s, _, st => (Error.FileTruncated, st, s)
  | fuel + 1, tok, s, first, st =>
    if tok = kwFacet then
      match parseFacetBody s with
      | .error (e, s1) => (e, st, s1)
      | .ok ((nrm, v0, v1, v2), s1) =>
        let st1 := acceptFacet st first useNormals nrm v0 v1 v2
        match s1.extractToken with
        | (none, s2) => (Error.FileTruncated, st1, s2)
        | (some tok1, s2) => textLoop useNormals fuel tok1 s2 false st1
    else if tok = kwEndsolid then
      let r := deduplicateVertices vecEqQ vecLtQ st.verts st.faces
      (Error.Ok, ⟨r.1, r.2, st.bbox⟩, s)
    else if tok = [] then (Error.FileTruncated, st, s)
    else (Error.UnexpectedToken, st, s)

/-- Model::loadTextSTL (src/rendirt.cpp lines 265-389). Clears the
geometry (vertices, faces, BVH) at entry; the cached bounding box is
left as it was until the first facet is accepted. -/
def Model.loadTextSTL (m : Model NormalV) (s : IStream) (useNormals verified : Bool) :
    Error × Model NormalV × IStream :=
  let finish : Error × LoadSt × IStream → Error × Model NormalV × IStream := fun r =>
    (r.1, ⟨r.2.1.verts, r.2.1.faces, r.2.1.bbox, []⟩, r.2.2)
  let st0 : LoadSt := ⟨[], [], m.boundingBox⟩
  if verified then
    let s1 := s.ignoreLine
    if !s1.okb then finish (Error.FileTruncated, st0, s1)
    else
      match s1.extractToken with
      | (none, s2) => finish (Error.FileTruncated, st0, s2)
      | (some tok, s2) => finish (textLoop useNormals (s2.data.length + 1) tok s2 true st0)
  else
    match s.extractToken with
    | (none, s1) => finish (Error.FileTruncated, st0, s1)
    | (some tok, s1) =>
      if tok ≠ kwSolid then finish (Error.UnexpectedToken, st0, s1)
      else
        let s2 := s1.ignoreLine
        if !s2.okb then finish (Error.FileTruncated, st0, s2)
        else
          match s2.extractToken with
          | (none, s3) => finish (Error.FileTruncated, st0, s3)
          | (some tok, s3) => finish (textLoop useNormals (s3.data.length + 1) tok s3 true st0)

/-! ### Binary STL parser (Model::loadBinarySTL, src/rendirt.cpp lines 391-449) -/

/-- Little-endian 32-bit value of four bytes. -/
def leU32 (b0 b1 b2 b3 : ℕ) : ℕ := b0 + 256 * b1 + 65536 * b2 + 16777216 * b3

/-- Exact rational value of a finite float bit pattern. Infinities and
NaN patterns have no rational value and are mapped to zero; no claim
verified here depends on numeric values read by the binary parser. -/
def f32val (p : ℕ) : ℚ :=
  let e : ℕ := f32mag p / 2 ^ 23
  let frac : ℕ := f32mag p % 2 ^ 23
  let sgn : ℚ := if f32sign p then -1 else 1
  if e = 255 then 0
  else if e = 0 then sgn * (frac : ℚ) * (2 : ℚ) ^ (-149 : ℤ)
  else sgn * ((2 ^ 23 + frac : ℕ) : ℚ) * (2 : ℚ) ^ ((e : ℤ) - 150)

/-- Float number i of a 48-byte record, little-endian. -/
def f32at (bs : List ℕ) (i : ℕ) : ℚ :=
  f32val (leU32 (bs.getD (4 * i) 0) (bs.getD (4 * i + 1) 0)
    (bs.getD (4 * i + 2) 0) (bs.getD (4 * i + 3) 0))

/-- One binary record (src/rendirt.cpp lines 412-421): a 48-byte
STLFace (normal then three vertices, twelve floats) followed by a
two-byte attribute trailer that is read and discarded; short reads of
either part fail. -/
def parseBinFace (s : IStream) :
    Option (Vec3 ℚ × Vec3 ℚ × Vec3 ℚ × Vec3 ℚ) × IStream :=
  let r1 := s.readN 48
  if r1.1.length < 48 then (none, r1.2)
  else
    let r2 := r1.2.readN 2
    if r2.1.length < 2 then (none, r2.2)
    else
      let bs := r1.1
      (some (⟨f32at bs 0, f32at bs 1, f32at bs 2⟩,
             ⟨f32at bs 3, f32at bs 4, f32at bs 5⟩,
             ⟨f32at bs 6, f32at bs 7, f32at bs 8⟩,
             ⟨f32at bs 9, f32at bs 10, f32at bs 11⟩), r2.2)

/-- The binary record loop (src/rendirt.cpp lines 412-444), counting
down the declared record count. -/
def binLoop (useNormals : Bool) :
    ℕ → IStream → Bool → LoadSt → Error × LoadSt × IStream
  | 0, s, _, st => (Error.Ok, st, s)
  | count + 1, s, first, st =>
    match parseBinFace s with
    | (none, s1) => (Error.FileTruncated, st, s1)
    | (some (nrm, v0, v1, v2), s1) =>
      binLoop useNormals count s1 false (acceptFacet st first useNormals nrm v0 v1 v2)

/-- Model::loadBinarySTL (src/rendirt.cpp lines 391-449): reset the
geometry, skip the remainder of the 80-byte header, read the record
count, then read that many records; deduplicate on success. -/
def Model.loadBinarySTL (m : Model NormalV) (s : IStream) (useNormals : Bool)
    (skipped : ℕ) : Error × Model NormalV × IStream :=
  let st0 : LoadSt := ⟨[], [], m.boundingBox⟩
  let s1 := s.ignoreN (80 - skipped)
  let r := s1.readN 4
  if r.1.length < 4 then (Error.FileTruncated, ⟨[], [], m.boundingBox, []⟩, r.2)
  else
    let size := leU32 (r.1.getD 0 0) (r.1.getD 1 0) (r.1.getD 2 0) (r.1.getD 3 0)
    match binLoop useNormals size r.2 true st0 with
    | (Error.Ok, st, s2) =>
      let d := deduplicateVertices vecEqQ vecLtQ st.verts st.faces
      (Error.Ok, ⟨d.1, d.2, st.bbox, []⟩, s2)
    | (e, st, s2) => (e, ⟨st.verts, st.faces, st.bbox, []⟩, s2)

/-! ### Format auto-detection (Model::loadSTL, src/rendirt.cpp lines 451-478) -/

/-- Model::loadSTL: in Guess mode, skip up to 80 bytes of whitespace
(GuessFailed if whitespace exhausts the budget), read
min(6, 80 - skipped) signature bytes (FileTruncated on a short read),
select the text parser when six bytes spell the keyword solid followed
by one whitespace byte, fail with GuessFailed when fewer than six bytes
fit the budget and all match a prefix of the keyword, and otherwise
select the binary parser, which is told how many header bytes were
already consumed. -/
def Model.loadSTL (m : Model NormalV) (s : IStream) (useNormals : Bool) (mode : Mode) :
    Error × Model NormalV × IStream :=
  match mode with
  | Mode.Guess =>
    let r := skipWhitespace s 80
    let skipped := r.1
    if skipped = 80 then (Error.GuessFailed, m, r.2)
    else
      let available := min 6 (80 - skipped)
      let rd := r.2.readN available
      if rd.1.length < available then (Error.FileTruncated, m, rd.2)
      else
        let skipped1 := skipped + available
        if available = 6 ∧ rd.1.take 5 = kwSolid ∧ isspaceB (rd.1.getD 5 0) then
          m.loadTextSTL rd.2 useNormals (decide (0 < skipped1))
        else if available < 6 ∧ rd.1 = kwSolid.take available then
          (Error.GuessFailed, m, rd.2)
        else
          m.loadBinarySTL rd.2 useNormals skipped1
  | Mode.Text => m.loadTextSTL s useNormals false
  | Mode.Binary => m.loadBinarySTL s useNormals 0

/-! ### BVH construction (src/rendirt.cpp lines 60-186) -/

instance : Inhabited NormalV := ⟨NormalV.fileN default⟩

instance [Inhabited ν] : Inhabited (Face ν) := ⟨⟨0, 0, 0, default⟩⟩

/-- Helper object of the builder (struct BVHObject, src/rendirt.cpp
lines 63-67): original face index, face bounding box, box centroid. -/
structure BVHObject where
  face : ℕ
  bbox : AABB
  centroid : Vec3 ℚ
deriving DecidableEq, Repr

instance : Inhabited BVHObject := ⟨⟨0, default, default⟩⟩

/-- Split axis selection (src/rendirt.cpp lines 90-92): the axis of
largest extent of the box (0 is x, 1 is y, 2 is z). -/
def largestDir (bbox : AABB) : ℕ :=
  let diag := vabs (vsub bbox.hi bbox.lo)
  if diag.x < diag.y then (if diag.y < diag.z then 2 else 1)
  else (if diag.x < diag.z then 2 else 0)

/-- Sort order of the builder (src/rendirt.cpp lines 93-95): by centroid
coordinate along the chosen axis. std::sort may return any permutation
that is sorted for the strict key; the insertion sort below produces one
such permutation, and every property proved about the builder is
insensitive to the order of key ties. -/
def centLe (dir : ℕ) (l r : BVHObject) : Prop :=
  vcomp l.centroid dir ≤ vcomp r.centroid dir

instance (dir : ℕ) : DecidableRel (centLe dir) := by unfold centLe; infer_instance

/-- The split-point loop of buildBVHSide (src/rendirt.cpp lines 97-119):
starting from the second element, accumulate the growing child box,
remember its value when passing the median position, and stop at the
first element whose centroid exceeds the midpoint value on the split
axis; if the scan exhausts the range, fall back to the median split with
the remembered box. Returns the split offset and the left child box. -/
def splitScan (dir : ℕ) (midv : ℚ) (median : ℕ) :
    List BVHObject → ℕ → AABB → AABB → ℕ × AABB
  | [], _, _, medianBbox => (median, medianBbox)
  | o :: rest, i, childBbox, medianBbox =>
    let childBbox1 := aabbUnion childBbox o.bbox
    let medianBbox1 := if i = median then childBbox1 else medianBbox
    if midv < vcomp o.centroid dir then (i, childBbox1)
    else splitScan dir midv median rest (i + 1) childBbox1 medianBbox1

/-- buildBVHSide (src/rendirt.cpp lines 73-129), in store-passing form:
given the node box, the global offset of the range (base), the index at
which this node is stored (idx) and the objects of the range, produce
the nodes of this subtree in array order and the final permutation of
the range. A range of size at most target becomes a leaf; otherwise the
range is sorted along the largest axis, split, and both sides are built
recursively, the parent recording the array indices of its children.
Fuel bounds the recursion; the range length is always sufficient because
every split is strictly interior (theorem splitScan_bounds below). -/
def buildBVHAux (target : ℕ) :
    ℕ → AABB → ℕ → ℕ → List BVHObject → List BVHNode × List BVHObject
  | 0, _, _, _, objs => ([], objs)
  | fuel + 1, bbox, base, idx, objs =>
    let n := objs.length
    if n ≤ target then ([⟨bbox, true, base, base + n⟩], objs)
    else
      let dir := largestDir bbox
      let sorted := List.insertionSort (centLe dir) objs
      let midv := vcomp (vhalf (vadd bbox.lo bbox.hi)) dir
      match sorted with
      | [] => ([⟨bbox, true, base, base + n⟩], objs)
      | o0 :: rest =>
        let sc := splitScan dir midv (n / 2) rest 1 o0.bbox default
        let split := sc.1
        let left := buildBVHAux target fuel sc.2 base (idx + 1) (sorted.take split)
        let rightObjs := sorted.drop split
        let rightBbox :=
          match rightObjs with
          | [] => default
          | r0 :: rrest => rrest.foldl (fun b o => aabbUnion b o.bbox) r0.bbox
        let right := buildBVHAux target fuel rightBbox (base + split)
          (idx + 1 + left.1.length) rightObjs
        (⟨bbox, false, idx + 1, idx + 1 + left.1.length⟩ :: (left.1 ++ right.1),
         left.2 ++ right.2)

/-- Model::rebuildBVH (src/rendirt.cpp lines 132-186): clear the BVH and
return early on empty geometry; otherwise build one object per face (box
and centroid), run the recursive builder with target load
targetLoad + 1 over the cached bounding box, reorder the faces into the
final object permutation, and compact the vertex array to the vertices
referenced by the reordered faces in first-visit order, remapping face
indices accordingly. -/
structure RemapSt where
  remap : List (Option ℕ)
  sortedVertices : List (Vec3 ℚ)

/-- One vertex-index visit of the compaction loop (src/rendirt.cpp
lines 170-178): unseen indices are appended to the new vertex array and
recorded; every visit returns the remapped index. -/
def remapOne (verts : List (Vec3 ℚ)) (st : RemapSt) (v : ℕ) : RemapSt × ℕ :=
  match st.remap.getD v none with
  | none =>
      let idx := st.sortedVertices.length
      (⟨st.remap.set v (some idx), st.sortedVertices ++ [verts.getD v default]⟩, idx)
  | some idx => (st, idx)

/-- The three vertex visits of one face. -/
def remapFace (verts : List (Vec3 ℚ)) (st : RemapSt) (f : Face ν) : RemapSt × Face ν :=
  let r0 := remapOne verts st f.i0
  let r1 := remapOne verts r0.1 f.i1
  let r2 := remapOne verts r1.1 f.i2
  (r2.1, ⟨r0.2, r1.2, r2.2, f.normal⟩)

/-- The compaction loop over all faces. -/
def remapFaces (verts : List (Vec3 ℚ)) : RemapSt → List (Face ν) → RemapSt × List (Face ν)
  | st, [] => (st, [])
  | st, f :: fs =>
    let r := remapFace verts st f
    let rr := remapFaces verts r.1 fs
    (rr.1, r.2 :: rr.2)

/-- The object list of rebuildBVH (src/rendirt.cpp lines 138-149). -/
def bvhObjects (m : Model ν) : List BVHObject :=
  m.faces.enum.map (fun p =>
    let bbox := faceBBox m.vertices p.2
    ⟨p.1, bbox, vhalf (vadd bbox.lo bbox.hi)⟩)

/-- Model::rebuildBVH (src/rendirt.cpp lines 132-186). -/
def Model.rebuildBVH [Inhabited ν] (m : Model ν) (targetLoad : ℕ) : Model ν :=
  if m.faces.isEmpty ∨ m.vertices.isEmpty then { m with bvh := [] }
  else
    let objs := bvhObjects m
    let b := buildBVHAux (targetLoad + 1) objs.length m.boundingBox 0 0 objs
    let sortedFaces := b.2.map (fun o => m.faces.getD o.face default)
    let rm := remapFaces m.vertices ⟨List.replicate m.vertices.length none, []⟩ sortedFaces
    ⟨rm.1.sortedVertices, rm.2, m.boundingBox, b.1⟩

/-! ### Renderer (rendirt::render, src/rendirt.cpp lines 567-651)

Matrices are stored row-major here with entry names aRC for row R,
column C; glm stores column-major (m at col and row), the mathematical
object and the operations below are identical. -/

/-- Homogeneous 4-vector. -/
structure Vec4 where
  x : ℚ
  y : ℚ
  z : ℚ
  w : ℚ
deriving DecidableEq, Repr

/-- 4 by 4 rational matrix, row-major entries. -/
structure Mat4 where
  a00 : ℚ
  a01 : ℚ
  a02 : ℚ
  a03 : ℚ
  a10 : ℚ
  a11 : ℚ
  a12 : ℚ
  a13 : ℚ
  a20 : ℚ
  a21 : ℚ
  a22 : ℚ
  a23 : ℚ
  a30 : ℚ
  a31 : ℚ
  a32 : ℚ
  a33 : ℚ
deriving DecidableEq, Repr

/-- Matrix-vector product. -/
def Mat4.mulVec (m : Mat4) (v : Vec4) : Vec4 :=
  ⟨m.a00 * v.x + m.a01 * v.y + m.a02 * v.z + m.a03 * v.w,
   m.a10 * v.x + m.a11 * v.y + m.a12 * v.z + m.a13 * v.w,
   m.a20 * v.x + m.a21 * v.y + m.a22 * v.z + m.a23 * v.w,
   m.a30 * v.x + m.a31 * v.y + m.a32 * v.z + m.a33 * v.w⟩

/-- 3 by 3 determinant of the listed entries, row by row. -/
def det3 (a b c d e f g h i : ℚ) : ℚ :=
  a * (e * i - f * h) - b * (d * i - f * g) + c * (d * h - e * g)

/-- Determinant by cofactor expansion along the first row. -/
def Mat4.det (m : Mat4) : ℚ :=
    m.a00 * det3 m.a11 m.a12 m.a13 m.a21 m.a22 m.a23 m.a31 m.a32 m.a33
  - m.a01 * det3 m.a10 m.a12 m.a13 m.a20 m.a22 m.a23 m.a30 m.a32 m.a33
  + m.a02 * det3 m.a10 m.a11 m.a13 m.a20 m.a21 m.a23 m.a30 m.a31 m.a33
  - m.a03 * det3 m.a10 m.a11 m.a12 m.a20 m.a21 m.a22 m.a30 m.a31 m.a32

/-- Matrix inverse by the adjugate (glm::inverse computes the same
cofactor expansion; in exact arithmetic the results coincide). -/
def inverse4 (m : Mat4) : Mat4 :=
  let d := m.det
  ⟨  det3 m.a11 m.a12 m.a13 m.a21 m.a22 m.a23 m.a31 m.a32 m.a33 / d,
   -(det3 m.a01 m.a02 m.a03 m.a21 m.a22 m.a23 m.a31 m.a32 m.a33) / d,
     det3 m.a01 m.a02 m.a03 m.a11 m.a12 m.a13 m.a31 m.a32 m.a33 / d,
   -(det3 m.a01 m.a02 m.a03 m.a11 m.a12 m.a13 m.a21 m.a22 m.a23) / d,
   -(det3 m.a10 m.a12 m.a13 m.a20 m.a22 m.a23 m.a30 m.a32 m.a33) / d,
     det3 m.a00 m.a02 m.a03 m.a20 m.a22 m.a23 m.a30 m.a32 m.a33 / d,
   -(det3 m.a00 m.a02 m.a03 m.a10 m.a12 m.a13 m.a30 m.a32 m.a33) / d,
     det3 m.a00 m.a02 m.a03 m.a10 m.a12 m.a13 m.a20 m.a22 m.a23 / d,
     det3 m.a10 m.a11 m.a13 m.a20 m.a21 m.a23 m.a30 m.a31 m.a33 / d,
   -(det3 m.a00 m.a01 m.a03 m.a20 m.a21 m.a23 m.a30 m.a31 m.a33) / d,
     det3 m.a00 m.a01 m.a03 m.a10 m.a11 m.a13 m.a30 m.a31 m.a33 / d,
   -(det3 m.a00 m.a01 m.a03 m.a10 m.a11 m.a13 m.a20 m.a21 m.a23) / d,
   -(det3 m.a10 m.a11 m.a12 m.a20 m.a21 m.a22 m.a30 m.a31 m.a32) / d,
     det3 m.a00 m.a01 m.a02 m.a20 m.a21 m.a22 m.a30 m.a31 m.a32 / d,
   -(det3 m.a00 m.a01 m.a02 m.a10 m.a11 m.a12 m.a30 m.a31 m.a32) / d,
     det3 m.a00 m.a01 m.a02 m.a10 m.a11 m.a12 m.a20 m.a21 m.a22 / d⟩

/-- Perspective division of a homogeneous point. -/
def pdiv (v : Vec4) : Vec3 ℚ := ⟨v.x / v.w, v.y / v.w, v.z / v.w⟩

/-- Culling mode (src/rendirt.hpp lines 190-196). -/
inductive CullingMode where
  | CullNone
  | CullCW
  | CullCCW
deriving DecidableEq, Repr

/-! Ray setup of the renderer (src/rendirt.cpp lines 573-602), one
definition per quantity of the source. Image width w and height h are
naturals cast to rationals. The source labels the unprojection of the
plane z equal to plus one as Near and z equal to minus one as Far; the
definitions follow that convention. -/

/-- Horizontal sample step: 2 / width (src line 577). -/
def sampleStepX (w : ℕ) : ℚ := 2 / (w : ℚ)

/-- Vertical sample step: minus 2 / height (src line 577). -/
def sampleStepY (h : ℕ) : ℚ := -2 / (h : ℚ)

/-- Half-pixel offsets (src line 578). -/
def sampleOffX (w : ℕ) : ℚ := sampleStepX w / 2

def sampleOffY (h : ℕ) : ℚ := sampleStepY h / 2

/-- Normalized-device x coordinate of the sample of pixel column x. -/
def ndcX (w x : ℕ) : ℚ := -1 + sampleOffX w + (x : ℚ) * sampleStepX w

/-- Normalized-device y coordinate of the sample of pixel row y. -/
def ndcY (h y : ℕ) : ℚ := 1 + sampleOffY h + (y : ℚ) * sampleStepY h

/-- Unprojected ray origin at the top-left pixel (src lines 585-595). -/
def rayOrg0 (M : Mat4) (w h : ℕ) : Vec3 ℚ :=
  pdiv ((inverse4 M).mulVec ⟨ndcX w 0, ndcY h 0, 1, 1⟩)

/-- Unprojected ray direction at the top-left pixel (src line 596). -/
def rayDir0 (M : Mat4) (w h : ℕ) : Vec3 ℚ :=
  vsub (pdiv ((inverse4 M).mulVec ⟨ndcX w 0, ndcY h 0, -1, 1⟩)) (rayOrg0 M w h)

/-- Unprojected end-of-image origin, at normalized-device coordinates
one past the last pixel in both axes (src lines 590-598). -/
def rayOrgEnd (M : Mat4) (w h : ℕ) : Vec3 ℚ :=
  pdiv ((inverse4 M).mulVec ⟨1 + sampleOffX w, -1 + sampleOffY h, 1, 1⟩)

def rayDirEnd (M : Mat4) (w h : ℕ) : Vec3 ℚ :=
  vsub (pdiv ((inverse4 M).mulVec ⟨1 + sampleOffX w, -1 + sampleOffY h, -1, 1⟩))
    (rayOrgEnd M w h)

/-- Per-pixel origin steps (src line 601): only the x and y components
of the difference are kept (the step is a two-component vector), divided
component-wise by the image size. -/
def rayOrgStepX (M : Mat4) (w h : ℕ) : ℚ := ((rayOrgEnd M w h).x - (rayOrg0 M w h).x) / (w : ℚ)

def rayOrgStepY (M : Mat4) (w h : ℕ) : ℚ := ((rayOrgEnd M w h).y - (rayOrg0 M w h).y) / (h : ℚ)

/-- Per-pixel direction steps (src line 602). -/
def rayDirStepX (M : Mat4) (w h : ℕ) : ℚ := ((rayDirEnd M w h).x - (rayDir0 M w h).x) / (w : ℚ)

def rayDirStepY (M : Mat4) (w h : ℕ) : ℚ := ((rayDirEnd M w h).y - (rayDir0 M w h).y) / (h : ℚ)

/-- k-fold accumulation a plus s plus s plus ..., the exact-arithmetic
content of repeated compound addition in the pixel loops. -/
def iterAdd (a s : ℚ) : ℕ → ℚ
  | 0 => a
  | n + 1 => iterAdd a s n + s

/-- Value reached by the tiled accumulation at pixel index k along one
axis (src lines 607-648): one 32-times-step addition per completed tile
and one single-step addition per pixel inside the final tile. -/
def incrCoord (a s : ℚ) (k : ℕ) : ℚ := iterAdd (iterAdd a (32 * s) (k / 32)) s (k % 32)

/-- Value reached by an untiled row-major accumulation at pixel index k:
one single-step addition per pixel. -/
def incrCoordUntiled (a s : ℚ) (k : ℕ) : ℚ := iterAdd a s k

/-- Ray origin of pixel (x, y) as the tiled incremental loops compute it
(src lines 607-648): x and y accumulate their steps, the z component is
never stepped and stays at its top-left value. -/
def rayOrgIncr (M : Mat4) (w h x y : ℕ) : Vec3 ℚ :=
  ⟨incrCoord (rayOrg0 M w h).x (rayOrgStepX M w h) x,
   incrCoord (rayOrg0 M w h).y (rayOrgStepY M w h) y,
   (rayOrg0 M w h).z⟩

/-- Ray direction of pixel (x, y) as the tiled incremental loops
compute it. -/
def rayDirIncr (M : Mat4) (w h x y : ℕ) : Vec3 ℚ :=
  ⟨incrCoord (rayDir0 M w h).x (rayDirStepX M w h) x,
   incrCoord (rayDir0 M w h).y (rayDirStepY M w h) y,
   (rayDir0 M w h).z⟩

/-- Ray origin of pixel (x, y) by direct per-pixel unprojection of that
pixel's normalized-device sample through the inverse transform, with
the origin on the z equal plus one plane as in the source. -/
def rayOrgDirect (M : Mat4) (w h x y : ℕ) : Vec3 ℚ :=
  pdiv ((inverse4 M).mulVec ⟨ndcX w x, ndcY h y, 1, 1⟩)

/-- Ray direction of pixel (x, y) by direct per-pixel unprojection. -/
def rayDirDirect (M : Mat4) (w h x y : ℕ) : Vec3 ℚ :=
  vsub (pdiv ((inverse4 M).mulVec ⟨ndcX w x, ndcY h y, -1, 1⟩)) (rayOrgDirect M w h x y)

/-- Return value of rendirt::render (src/rendirt.cpp lines 567-651).
The function has exactly two return statements: 0 when the model's BVH
is empty (lines 604-605) and 0 after the pixel loops complete (line
650); no counter exists in the function, and the shader and culling
mode parameters are never read. -/
def render (m : Model ν) (M : Mat4) (cull : CullingMode) (w h : ℕ) : ℕ :=
  if m.bvh.isEmpty then 0 else 0

/-- Modelled from the spec: the return-value contract of the rasterizer
(spec section 4.3, steps 1 to 3 and the return-value sentence), which is
not part of this source tree - the count of triangles that pass culling
and clipping. Per triangle: transform the vertices and divide by w;
compute the signed double area in screen space; skip when the culling
mode selects clockwise and the area is non-positive, or counter-
clockwise and the area is positive; reject when the depth range lies
entirely beyond the near or far plane; count the rest. -/
def specRasterCount (m : Model ν) (M : Mat4) (cull : CullingMode) : ℕ :=
  (m.faces.filter (fun f =>
    let p0 := pdiv (M.mulVec ⟨(m.vertices.getD f.i0 default).x,
      (m.vertices.getD f.i0 default).y, (m.vertices.getD f.i0 default).z, 1⟩)
    let p1 := pdiv (M.mulVec ⟨(m.vertices.getD f.i1 default).x,
      (m.vertices.getD f.i1 default).y, (m.vertices.getD f.i1 default).z, 1⟩)
    let p2 := pdiv (M.mulVec ⟨(m.vertices.getD f.i2 default).x,
      (m.vertices.getD f.i2 default).y, (m.vertices.getD f.i2 default).z, 1⟩)
    let area2 := (p1.x - p0.x) * (p2.y - p0.y) - (p2.x - p0.x) * (p1.y - p0.y)
    let culled :=
      match cull with
      | CullingMode.CullNone => false
      | CullingMode.CullCW => decide (area2 ≤ 0)
      | CullingMode.CullCCW => decide (0 < area2)
    let zlo := min p0.z (min p1.z p2.z)
    let zhi := max p0.z (max p1.z p2.z)
    let depthRejected := decide (1 ≤ zlo) || decide (zhi ≤ -1)
    !culled && !depthRejected)).length

/-! ### Auxiliary notions used by the statements and proofs -/

instance : Inhabited BVHNode := ⟨⟨default, true, 0, 0⟩⟩

/-- Geometric content of a face relative to a vertex array: the three
vertex coordinate triples and the normal. -/
def geomOf (vs : List (Vec3 ℚ)) {ν : Type} (f : Face ν) : Vec3 ℚ × Vec3 ℚ × Vec3 ℚ × ν :=
  (vs.getD f.i0 default, vs.getD f.i1 default, vs.getD f.i2 default, f.normal)

/-- Invariant of the vertex-compaction state: the remap table has one
entry per original vertex, and every established entry points at a slot
of the new vertex array holding that vertex's coordinates. -/
def RemapInv (verts : List (Vec3 ℚ)) (st : RemapSt) : Prop :=
  st.remap.length = verts.length ∧
  (∀ v p, st.remap.getD v none = some p →
    v < verts.length ∧ p < st.sortedVertices.length ∧
    st.sortedVertices.getD p default = verts.getD v default)

/-- Face indices spanned by the subtree of the node stored at index i of
the flat BVH array: a leaf contributes its own range, an internal node
the union of its children's spans. Fuel bounds the recursion; the array
length is always sufficient because child indices strictly increase. -/
def subtreeFaceIdxs (bvh : List BVHNode) : ℕ → ℕ → List ℕ
  | 0, _ => []
  | fuel + 1, i =>
    match bvh.get? i with
    | none => []
    | some nd =>
      if nd.leaf then
        List.range' nd.leftOrFirstFace (nd.rightOrLastFace - nd.leftOrFirstFace)
      else
        subtreeFaceIdxs bvh fuel nd.leftOrFirstFace ++
        subtreeFaceIdxs bvh fuel nd.rightOrLastFace

/-- Fold of box union over a list of boxes. -/
def foldUnion (cb : AABB) (l : List AABB) : AABB := l.foldl aabbUnion cb

/-- Structural well-formedness and containment facts of a node segment
produced by one builder invocation: nodes are indexed by their position
j in the segment, which is stored starting at array index idx and
describes the object range starting at global face offset base. A leaf
describes a sub-range of the objects whose boxes its own box contains;
an internal node points forward into the segment and its box contains
its children's boxes. -/
def NodesOK (nodes : List BVHNode) (idx base : ℕ) (objs : List BVHObject) : Prop :=
  ∀ j, j < nodes.length →
    let nd := nodes.getD j default
    if nd.leaf then
      base ≤ nd.leftOrFirstFace ∧ nd.leftOrFirstFace ≤ nd.rightOrLastFace ∧
      nd.rightOrLastFace ≤ base + objs.length ∧
      ∀ k, nd.leftOrFirstFace ≤ k → k < nd.rightOrLastFace →
        aabbContainsBox nd.bbox (objs.getD (k - base) default).bbox
    else
      idx + j < nd.leftOrFirstFace ∧ nd.leftOrFirstFace < nd.rightOrLastFace ∧
      nd.rightOrLastFace < idx + nodes.length ∧
      aabbContainsBox nd.bbox (nodes.getD (nd.leftOrFirstFace - idx) default).bbox ∧
      aabbContainsBox nd.bbox (nodes.getD (nd.rightOrLastFace - idx) default).bbox

/-! ### Concrete instances used by counterexamples and witnesses -/

/-- A freshly constructed empty model with a zero bounding box. -/
def emptyModel : Model NormalV := ⟨[], [], ⟨⟨0, 0, 0⟩, ⟨0, 0, 0⟩⟩, []⟩

/-- A model holding one pre-existing vertex and face, to observe whether
a load clears or keeps pre-call geometry. -/
def preModel : Model NormalV :=
  ⟨[⟨9, 9, 9⟩], [⟨0, 0, 0, default⟩], ⟨⟨0, 0, 0⟩, ⟨0, 0, 0⟩⟩, []⟩

/-- A text stream holding one complete well-formed facet followed by a
token that is neither facet nor endsolid. -/
def textOneFacetGarbage : String :=
  "solid t\nfacet normal 0 0 1\nouter loop\nvertex 0 0 0\nvertex 1 0 0\nvertex 0 1 0\nendloop\nendfacet\ngarbage"

/-- A text stream truncated immediately after the outer loop keywords. -/
def textTruncOuterLoop : String := "solid t\nfacet normal 0 0 1\nouter loop"

/-- Model with two separated triangles and a correct cached box. -/
def twoFaceModel : Model NormalV :=
  ⟨[⟨0, 0, 0⟩, ⟨1, 0, 0⟩, ⟨0, 1, 0⟩, ⟨5, 0, 0⟩, ⟨6, 0, 0⟩, ⟨5, 1, 0⟩],
   [⟨0, 1, 2, default⟩, ⟨3, 4, 5, default⟩],
   ⟨⟨0, 0, 0⟩, ⟨6, 1, 0⟩⟩, []⟩

/-- Model with four point-degenerate faces at x positions 1, 2, 3, 4 and
a stale cached bounding box centred at the origin, so that every face
centroid exceeds the box midpoint on the split axis. Such a state is
reachable because the vertex and face vectors are public and the cached
box is only updated by explicit calls. -/
def staleBoxModel : Model NormalV :=
  ⟨[⟨1, 0, 0⟩, ⟨2, 0, 0⟩, ⟨3, 0, 0⟩, ⟨4, 0, 0⟩],
   [⟨0, 0, 0, default⟩, ⟨1, 1, 1, default⟩, ⟨2, 2, 2, default⟩, ⟨3, 3, 3, default⟩],
   ⟨⟨-100, -100, -100⟩, ⟨100, 100, 100⟩⟩, []⟩

/-- A model with one vertex and no faces. -/
def zeroFacesModel : Model NormalV :=
  ⟨[⟨9, 9, 9⟩], [], ⟨⟨9, 9, 9⟩, ⟨9, 9, 9⟩⟩, []⟩

/-- One visible triangle with a one-leaf BVH, fully inside the device
cube under the identity transform. -/
def triModel : Model NormalV :=
  ⟨[⟨0, 0, 0⟩, ⟨1, 0, 0⟩, ⟨0, 1, 0⟩], [⟨0, 1, 2, default⟩],
   ⟨⟨0, 0, 0⟩, ⟨1, 1, 0⟩⟩, [⟨⟨⟨0, 0, 0⟩, ⟨1, 1, 0⟩⟩, true, 0, 1⟩]⟩

/-- Identity transform. -/
def idMat : Mat4 := ⟨1, 0, 0, 0, 0, 1, 0, 0, 0, 0, 1, 0, 0, 0, 0, 1⟩

/-- Rotation by a quarter turn about the y axis: a valid rigid
model-view-projection whose unprojection moves the z coordinate across
pixel columns. -/
def rotYMat : Mat4 := ⟨0, 0, 1, 0, 0, 1, 0, 0, -1, 0, 0, 0, 0, 0, 0, 1⟩

/-! ### Helper lemmas -/

/-- Closed form of k-fold accumulation. -/
theorem iterAdd_closed (a s : ℚ) (n : ℕ) : iterAdd a s n = a + n * s := by
  induction n with
  | zero => simp [iterAdd]
  | succ n ih => simp [iterAdd, ih]; ring

/-- Closed form of the tiled accumulation: in exact arithmetic the tile
structure dissolves and the value is affine in the pixel index. -/
theorem incrCoord_closed (a s : ℚ) (k : ℕ) : incrCoord a s k = a + k * s := by
  unfold incrCoord
  rw [iterAdd_closed, iterAdd_closed]
  have h : ((32 * (k / 32) + k % 32 : ℕ) : ℚ) = (k : ℚ) := by
    exact_mod_cast congrArg (Nat.cast (R := ℚ)) (Nat.div_add_mod k 32)
  push_cast at h
  linear_combination s * h

/-! ### Claim C4 -/

/-- C4 (code_bug evidence): rendirt::render returns 0 for every model,
transform, shader and culling mode - the ray-casting implementation has
no culling or clipping stage and no counter - while at the concrete
failing input (one visible triangle, identity transform, culling
disabled, with a non-empty BVH so pixels are written) the rasterizer
return-value contract of the spec counts 1 triangle as passing culling
and clipping. This contradicts the header documentation at
src/rendirt.hpp line 198 (Returns number of faces actually rendered)
and the bundled example, which prints the return value as the
rasterized face count. -/
theorem render_always_returns_zero :
    (∀ (ν : Type) (m : Model ν) (M : Mat4) (cull : CullingMode) (w h : ℕ),
      render m M cull w h = 0) ∧
    render triModel idMat CullingMode.CullNone 4 4 = 0 ∧
    specRasterCount triModel idMat CullingMode.CullNone = 1 := by
  refine ⟨fun ν m M cull w h => ?_, rfl, ?_⟩
  · unfold render
    split <;> rfl
  · norm_num [specRasterCount, pdiv, Mat4.mulVec, idMat, triModel, List.filter]

/-! ### Claim C8 -/

/-- C8 (amended): in exact arithmetic the tiled incremental per-pixel
ray setup of rendirt::render computes, at pixel (x, y), the origin
(org0.x plus x times stepX, org0.y plus y times stepY, org0.z) and the
analogous direction: tiling is equivalent to untiled incremental
stepping, and the incremental values agree with the direct per-pixel
unprojection at pixel (0, 0). They do not agree at every pixel for every
transform (see the counterexample): the incremental scheme is affine
per axis and never steps the z component, while direct unprojection is
projective. -/
theorem c8_incremental_ray_setup (M : Mat4) (w h x y : ℕ)
    (hx : x < w) (hy : y < h) :
    rayOrgIncr M w h x y =
      ⟨(rayOrg0 M w h).x + x * rayOrgStepX M w h,
       (rayOrg0 M w h).y + y * rayOrgStepY M w h,
       (rayOrg0 M w h).z⟩ ∧
    rayDirIncr M w h x y =
      ⟨(rayDir0 M w h).x + x * rayDirStepX M w h,
       (rayDir0 M w h).y + y * rayDirStepY M w h,
       (rayDir0 M w h).z⟩ ∧
    (∀ a s : ℚ, ∀ k : ℕ, incrCoord a s k = incrCoordUntiled a s k) ∧
    rayOrgIncr M w h 0 0 = rayOrgDirect M w h 0 0 ∧
    rayDirIncr M w h 0 0 = rayDirDirect M w h 0 0 := by
  refine ⟨?_, ?_, ?_, ?_, ?_⟩
  · unfold rayOrgIncr
    rw [incrCoord_closed, incrCoord_closed]
  · unfold rayDirIncr
    rw [incrCoord_closed, incrCoord_closed]
  · intro a s k
    rw [incrCoord_closed, incrCoordUntiled, iterAdd_closed]
  · unfold rayOrgIncr rayOrgDirect rayOrg0
    simp [incrCoord, iterAdd]
  · unfold rayDirIncr rayDirDirect rayDir0 rayOrg0 rayOrgDirect
    simp [incrCoord, iterAdd]

/-- Witness for c8_incremental_ray_setup at the identity transform on a
one-pixel image. -/
theorem c8_incremental_ray_setup_witness :
    rayOrgIncr idMat 1 1 0 0 = rayOrgDirect idMat 1 1 0 0 :=
  (c8_incremental_ray_setup idMat 1 1 0 0 (by decide) (by decide)).2.2.2.1

/-- C8 counterexample: under the quarter-turn transform rotYMat on a
2 by 1 image, the tiled incremental ray origin at pixel (1, 0) differs
from the directly unprojected origin (their z components are minus one
half and plus one half), so the incremental setup is not equivalent to
per-pixel unprojection even in exact arithmetic. -/
theorem c8_counterexample :
    rayOrgIncr rotYMat 2 1 1 0 ≠ rayOrgDirect rotYMat 2 1 1 0 := by
  intro hEq
  have hz := congrArg Vec3.z hEq
  have h1 : (rayOrgIncr rotYMat 2 1 1 0).z = -(1 / 2 : ℚ) := by
    norm_num [rayOrgIncr, rayOrg0, incrCoord, iterAdd, pdiv, Mat4.mulVec, inverse4,
      Mat4.det, det3, ndcX, ndcY, sampleOffX, sampleOffY, sampleStepX, sampleStepY, rotYMat]
  have h2 : (rayOrgDirect rotYMat 2 1 1 0).z = (1 / 2 : ℚ) := by
    norm_num [rayOrgDirect, pdiv, Mat4.mulVec, inverse4,
      Mat4.det, det3, ndcX, ndcY, sampleOffX, sampleOffY, sampleStepX, sampleStepY, rotYMat]
  rw [h1, h2] at hz
  norm_num at hz

/-! ### Claim C2 -/

/-- Every leaf emitted by buildBVHAux spans at most target faces. -/
theorem buildBVHAux_leaf_load (target : ℕ) :
    ∀ (fuel : ℕ) (bbox : AABB) (base idx : ℕ) (objs : List BVHObject),
      ∀ nd ∈ (buildBVHAux target fuel bbox base idx objs).1,
        nd.leaf = true → nd.rightOrLastFace - nd.leftOrFirstFace ≤ target := by
  intro fuel
  induction fuel with
  | zero =>
    intro bbox base idx objs nd hnd
    simp [buildBVHAux] at hnd
  | succ fuel ih =>
    intro bbox base idx objs nd hnd hleaf
    simp only [buildBVHAux] at hnd
    split at hnd
    · next hle =>
      simp only [List.mem_singleton] at hnd
      subst hnd
      simpa using hle
    · next hgt =>
      split at hnd
      · next hnil =>
        exfalso
        have hlen := List.length_insertionSort (centLe (largestDir bbox)) objs
        rw [hnil] at hlen
        simp at hlen
        omega
      · next o0 rest hcons =>
        simp only [List.mem_cons, List.mem_append] at hnd
        rcases hnd with hnd | hnd | hnd
        · subst hnd; simp at hleaf
        · exact ih _ _ _ _ nd hnd hleaf
        · exact ih _ _ _ _ nd hnd hleaf

/-- C2 (amended): for every model with at least one face and vertex and
every targetLeafLoad, every leaf of the BVH built by
Model::rebuildBVH(targetLeafLoad) spans at most targetLeafLoad plus one
faces, and a range is emitted as a leaf exactly when its size is at most
targetLeafLoad plus one: rebuildBVH passes targetLoad + 1 to
buildBVHSide (src/rendirt.cpp line 152), whose leaf test compares
against that value. -/
theorem c2_leaf_load {ν : Type} [Inhabited ν] (m : Model ν) (t : ℕ)
    (hf : m.faces ≠ []) (hv : m.vertices ≠ []) :
    (∀ nd ∈ (m.rebuildBVH t).bvh, nd.leaf = true → nd.load ≤ t + 1) ∧
    (∀ (fuel : ℕ) (bbox : AABB) (base idx : ℕ) (objs : List BVHObject),
      ∃ nd nodes, (buildBVHAux (t + 1) (fuel + 1) bbox base idx objs).1 = nd :: nodes ∧
        (nd.leaf = true ↔ objs.length ≤ t + 1)) := by
  constructor
  · intro nd hnd hleaf
    have hload : nd.load = nd.rightOrLastFace - nd.leftOrFirstFace := by
      simp [BVHNode.load, BVHNode.firstFace, BVHNode.lastFace, hleaf]
    rw [hload]
    have hmem : nd ∈ (buildBVHAux (t + 1) (bvhObjects m).length m.boundingBox 0 0
        (bvhObjects m)).1 := by
      unfold Model.rebuildBVH at hnd
      rw [if_neg] at hnd
      · exact hnd
      · simp [hf, hv]
    exact buildBVHAux_leaf_load (t + 1) _ _ _ _ _ nd hmem hleaf
  · intro fuel bbox base idx objs
    simp only [buildBVHAux]
    split
    · next hle => exact ⟨_, _, rfl, by simpa using hle⟩
    · next hgt =>
      split
      · next hnil =>
        exfalso
        have hlen := List.length_insertionSort (centLe (largestDir bbox)) objs
        rw [hnil] at hlen
        simp at hlen
        omega
      · next o0 rest hcons =>
        refine ⟨_, _, rfl, ?_⟩
        simpa using hgt

/-- Witness for c2_leaf_load on the two-face model with target load 1:
its single BVH node is a leaf within the corrected load bound. -/
theorem c2_leaf_load_witness :
    ((twoFaceModel.rebuildBVH 1).bvh.getD 0 default).leaf = true ∧
    ((twoFaceModel.rebuildBVH 1).bvh.getD 0 default).load ≤ 1 + 1 :=
  ⟨by decide,
   (c2_leaf_load twoFaceModel 1 (by decide) (by decide)).1 _ (by decide) (by decide)⟩

/-- C2 counterexample: rebuildBVH with targetLeafLoad 1 on a two-face
model produces a single leaf spanning 2 faces, so the claimed bound of
at most targetLeafLoad faces per leaf (here 1) is violated, as is the
claim that a range of size greater than targetLeafLoad is split. -/
theorem c2_counterexample :
    (twoFaceModel.rebuildBVH 1).bvh.map
      (fun nd => (nd.leaf, nd.leftOrFirstFace, nd.rightOrLastFace)) = [(true, 0, 2)] ∧
    twoFaceModel.faces.length = 2 ∧ ¬(2 ≤ 1) := by
  refine ⟨by decide, by decide, by decide⟩

/-! ### Claim C9 -/

/-- Outcome of the split-point scan: either it breaks at the first
scanned element (scanning starts at position i) whose centroid exceeds
the midpoint value, or no scanned element exceeds it and the fallback
median offset is returned. -/
theorem splitScan_result (dir : ℕ) (midv : ℚ) (median : ℕ) :
    ∀ (rest : List BVHObject) (i : ℕ) (cb mb : AABB),
      (∃ j, j < rest.length ∧ (splitScan dir midv median rest i cb mb).1 = i + j ∧
        midv < vcomp ((rest.getD j default).centroid) dir ∧
        ∀ j', j' < j → ¬ midv < vcomp ((rest.getD j' default).centroid) dir) ∨
      ((∀ o ∈ rest, ¬ midv < vcomp o.centroid dir) ∧
        (splitScan dir midv median rest i cb mb).1 = median) := by
  intro rest
  induction rest with
  | nil => intro i cb mb; right; simp [splitScan]
  | cons o rest ih =>
    intro i cb mb
    by_cases hex : midv < vcomp o.centroid dir
    · left
      refine ⟨0, by simp, ?_, by simpa using hex, by omega⟩
      simp [splitScan, hex]
    · have hstep : (splitScan dir midv median (o :: rest) i cb mb).1 =
          (splitScan dir midv median rest (i + 1) (aabbUnion cb o.bbox)
            (if i = median then aabbUnion cb o.bbox else mb)).1 := by
        simp [splitScan, hex]
      rcases ih (i + 1) (aabbUnion cb o.bbox)
          (if i = median then aabbUnion cb o.bbox else mb) with
        ⟨j, hj, heq, hexj, hmin⟩ | ⟨hall, heq⟩
      · left
        refine ⟨j + 1, by simpa using hj, ?_, by simpa using hexj, ?_⟩
        · rw [hstep, heq]; omega
        · intro j' hj'
          match j' with
          | 0 => simpa using hex
          | j' + 1 => simpa using hmin j' (by omega)
      · right
        refine ⟨?_, by rw [hstep, heq]⟩
        intro o' ho'
        rcases List.mem_cons.mp ho' with rfl | ho'
        · exact hex
        · exact hall o' ho'

/-- The chosen split offset is strictly interior whenever the range has
at least two elements: the scan can only break at positions 1 up to
size minus 1, and the median fallback size / 2 is also interior. -/
theorem splitScan_interior (dir : ℕ) (midv : ℚ) (o0 : BVHObject)
    (rest : List BVHObject) (cb mb : AABB) (hne : rest ≠ []) :
    1 ≤ (splitScan dir midv ((o0 :: rest).length / 2) rest 1 cb mb).1 ∧
    (splitScan dir midv ((o0 :: rest).length / 2) rest 1 cb mb).1 <
      (o0 :: rest).length := by
  have hlen : 1 ≤ rest.length := by
    cases rest with
    | nil => exact absurd rfl hne
    | cons a l => simp
  rcases splitScan_result dir midv ((o0 :: rest).length / 2) rest 1 cb mb with
    ⟨j, hj, heq, _, _⟩ | ⟨_, heq⟩
  · rw [heq]
    constructor
    · omega
    · simp only [List.length_cons]
      omega
  · rw [heq]
    simp only [List.length_cons]
    omega

/-- With an adequate fuel budget the fueled builder is independent of
the exact budget: this is the termination content of the recursion,
relying on every split being strictly interior; the target load is at
least 1 at every call site (rebuildBVH passes targetLoad + 1). -/
theorem buildBVHAux_fuel (target : ℕ) (htgt : 1 ≤ target) :
    ∀ (n fuel fuel' : ℕ) (bbox : AABB) (base idx : ℕ) (objs : List BVHObject),
      objs.length ≤ n → objs.length ≤ fuel → objs.length ≤ fuel' →
      0 < fuel → 0 < fuel' →
      buildBVHAux target fuel bbox base idx objs =
        buildBVHAux target fuel' bbox base idx objs := by
  intro n
  induction n with
  | zero =>
    intro fuel fuel' bbox base idx objs h0 h1 h2 h3 h4
    have hobj : objs = [] := List.length_eq_zero.mp (by omega)
    subst hobj
    obtain ⟨f, rfl⟩ := Nat.exists_eq_succ_of_ne_zero (Nat.pos_iff_ne_zero.mp h3)
    obtain ⟨f', rfl⟩ := Nat.exists_eq_succ_of_ne_zero (Nat.pos_iff_ne_zero.mp h4)
    simp [buildBVHAux]
  | succ n ih =>
    intro fuel fuel' bbox base idx objs hn h1 h2 h3 h4
    obtain ⟨f, rfl⟩ := Nat.exists_eq_succ_of_ne_zero (Nat.pos_iff_ne_zero.mp h3)
    obtain ⟨f', rfl⟩ := Nat.exists_eq_succ_of_ne_zero (Nat.pos_iff_ne_zero.mp h4)
    by_cases hle : objs.length ≤ target
    · simp [buildBVHAux, hle]
    · have hsorted_len : (List.insertionSort (centLe (largestDir bbox)) objs).length =
        objs.length := List.length_insertionSort _ _
      rcases hs : List.insertionSort (centLe (largestDir bbox)) objs with _ | ⟨o0, rest⟩
      · simp only [buildBVHAux, hle, if_neg, hs]
      · have hrest : rest ≠ [] := by
          intro h
          rw [h] at hs
          have := hsorted_len
          rw [hs] at this
          simp at this
          omega
        have hint := splitScan_interior (largestDir bbox)
          (vcomp (vhalf (vadd bbox.lo bbox.hi)) (largestDir bbox)) o0 rest
          o0.bbox default hrest
        have hcons_len : (o0 :: rest).length = objs.length := by rw [← hs]; exact hsorted_len
        rw [hcons_len] at hint
        obtain ⟨hsp1, hsp2⟩ := hint
        simp only [List.length_cons] at hcons_len
        simp only [buildBVHAux, if_neg hle]
        rw [hs]
        dsimp only
        have hL := ih f f' (splitScan (largestDir bbox)
            (vcomp (vhalf (vadd bbox.lo bbox.hi)) (largestDir bbox))
            (objs.length / 2) rest 1 o0.bbox default).2 base (idx + 1)
            (List.take (splitScan (largestDir bbox)
              (vcomp (vhalf (vadd bbox.lo bbox.hi)) (largestDir bbox))
              (objs.length / 2) rest 1 o0.bbox default).1 (o0 :: rest))
          (by simp only [List.length_take, List.length_cons]; omega)
          (by simp only [List.length_take, List.length_cons]; omega)
          (by simp only [List.length_take, List.length_cons]; omega)
          (by omega) (by omega)
        rw [hL]
        have hR := ih f f'
            (match List.drop (splitScan (largestDir bbox)
                (vcomp (vhalf (vadd bbox.lo bbox.hi)) (largestDir bbox))
                (objs.length / 2) rest 1 o0.bbox default).1 (o0 :: rest) with
             | [] => default
             | r0 :: rrest => rrest.foldl (fun b o => aabbUnion b o.bbox) r0.bbox)
            (base + (splitScan (largestDir bbox)
              (vcomp (vhalf (vadd bbox.lo bbox.hi)) (largestDir bbox))
              (objs.length / 2) rest 1 o0.bbox default).1)
            (idx + 1 + (buildBVHAux target f'
              (splitScan (largestDir bbox)
                (vcomp (vhalf (vadd bbox.lo bbox.hi)) (largestDir bbox))
                (objs.length / 2) rest 1 o0.bbox default).2 base (idx + 1)
              (List.take (splitScan (largestDir bbox)
                (vcomp (vhalf (vadd bbox.lo bbox.hi)) (largestDir bbox))
                (objs.length / 2) rest 1 o0.bbox default).1 (o0 :: rest))).1.length)
            (List.drop (splitScan (largestDir bbox)
              (vcomp (vhalf (vadd bbox.lo bbox.hi)) (largestDir bbox))
              (objs.length / 2) rest 1 o0.bbox default).1 (o0 :: rest))
          (by simp only [List.length_drop, List.length_cons]; omega)
          (by simp only [List.length_drop, List.length_cons]; omega)
          (by simp only [List.length_drop, List.length_cons]; omega)
          (by omega) (by omega)
        rw [hR]

/-- C9 (amended): the recursive BVH construction terminates. Whenever a
range is split, the chosen split point - the first scanned element
(scanning starts at the second element of the sorted range) whose
centroid exceeds the range box's midpoint on the split axis, or the
count-based median when the scan finds no such element - lies strictly
inside the range, so both sub-ranges are strictly smaller than their
parent and the fueled recursion is independent of the fuel once the
budget covers the range size (the target load is at least 1 at every
call site, since rebuildBVH passes targetLoad + 1). -/
theorem c9_split_interior_terminates :
    (∀ (dir : ℕ) (midv : ℚ) (o0 : BVHObject) (rest : List BVHObject) (cb mb : AABB),
      rest ≠ [] →
      1 ≤ (splitScan dir midv ((o0 :: rest).length / 2) rest 1 cb mb).1 ∧
      (splitScan dir midv ((o0 :: rest).length / 2) rest 1 cb mb).1 <
        (o0 :: rest).length) ∧
    (∀ (dir : ℕ) (midv : ℚ) (median : ℕ) (rest : List BVHObject) (i : ℕ) (cb mb : AABB),
      (∃ j, j < rest.length ∧ (splitScan dir midv median rest i cb mb).1 = i + j ∧
        midv < vcomp ((rest.getD j default).centroid) dir ∧
        ∀ j', j' < j → ¬ midv < vcomp ((rest.getD j' default).centroid) dir) ∨
      ((∀ o ∈ rest, ¬ midv < vcomp o.centroid dir) ∧
        (splitScan dir midv median rest i cb mb).1 = median)) ∧
    (∀ (target fuel fuel' : ℕ) (bbox : AABB) (base idx : ℕ) (objs : List BVHObject),
      1 ≤ target → objs.length ≤ fuel → objs.length ≤ fuel' → 0 < fuel → 0 < fuel' →
      buildBVHAux target fuel bbox base idx objs =
        buildBVHAux target fuel' bbox base idx objs) :=
  ⟨fun dir midv o0 rest cb mb hne => splitScan_interior dir midv o0 rest cb mb hne,
   fun dir midv median rest i cb mb => splitScan_result dir midv median rest i cb mb,
   fun target fuel fuel' bbox base idx objs htgt h1 h2 h3 h4 =>
     buildBVHAux_fuel target htgt objs.length fuel fuel' bbox base idx objs le_rfl h1 h2 h3 h4⟩

/-- Witness for c9_split_interior_terminates: a concrete two-element
range has its split strictly inside. -/
theorem c9_split_interior_terminates_witness :
    1 ≤ (splitScan 0 0 ((([default, default] : List BVHObject)).length / 2)
      [default] 1 default default).1 ∧
    (splitScan 0 0 ((([default, default] : List BVHObject)).length / 2)
      [default] 1 default default).1 < ([default, default] : List BVHObject).length :=
  c9_split_interior_terminates.1 0 0 default [default] default default (by decide)

/-- C9 counterexample: on the stale-box model every face centroid (x
values 1, 2, 3, 4) exceeds the midpoint (0) of the cached box on the
split axis (0), so the first element whose centroid exceeds the
midpoint is at position 0 - not strictly inside - and the count-based
median is 2; the code instead splits at 1 (the root's left child is a
leaf spanning one face), so the split point described by the claim is
not the one chosen, and all centroids being on one side does not
produce a median split. -/
theorem c9_counterexample :
    (staleBoxModel.rebuildBVH 2).bvh.map
      (fun nd => (nd.leaf, nd.leftOrFirstFace, nd.rightOrLastFace)) =
      [(false, 1, 2), (true, 0, 1), (true, 1, 4)] ∧
    (bvhObjects staleBoxModel).map (fun o => o.centroid.x) = [1, 2, 3, 4] ∧
    largestDir staleBoxModel.boundingBox = 0 ∧
    vcomp (vhalf (vadd staleBoxModel.boundingBox.lo staleBoxModel.boundingBox.hi)) 0 = 0 ∧
    staleBoxModel.faces.length / 2 = 2 := by
  refine ⟨?_, ?_, ?_, ?_, by decide⟩
  · norm_num [Model.rebuildBVH, buildBVHAux, bvhObjects, staleBoxModel, faceBBox,
      vmin, vmax, vhalf, vadd, vabs, vsub, vcomp, largestDir, centLe, splitScan,
      aabbUnion, List.insertionSort, List.orderedInsert, List.enum, List.enumFrom]
  · norm_num [bvhObjects, staleBoxModel, faceBBox, vmin, vmax, vhalf, vadd,
      List.enum, List.enumFrom]
  · norm_num [largestDir, vabs, vsub, staleBoxModel]
  · norm_num [vcomp, vhalf, vadd, staleBoxModel]

/-! ### Claim C5 -/

/-- C5 (amended): in Guess mode Model::loadSTL decides the format
exactly as the code does: skip leading whitespace up to the 80-byte
budget and return GuessFailed (stream state advanced, model untouched)
when whitespace alone exhausts it; otherwise read min(6, 80 - skipped)
further bytes - returning FileTruncated without running either parser
when the stream ends inside that read; if 6 bytes were read spelling
the keyword solid followed by one whitespace byte, run the text parser
in verified mode; if fewer than 6 bytes fit in the remaining budget and
all bytes read match a prefix of the keyword, return GuessFailed; and
otherwise run the binary parser, passing along how many header bytes
were consumed. -/
theorem c5_guess_dispatch (m : Model NormalV) (s : IStream) (u : Bool)
    (skipped : ℕ) (s1 : IStream) (hsw : skipWhitespace s 80 = (skipped, s1)) :
    (skipped = 80 → m.loadSTL s u Mode.Guess = (Error.GuessFailed, m, s1)) ∧
    (skipped < 80 →
      ∀ (sig : List ℕ) (s2 : IStream),
        s1.readN (min 6 (80 - skipped)) = (sig, s2) →
        (sig.length < min 6 (80 - skipped) →
          m.loadSTL s u Mode.Guess = (Error.FileTruncated, m, s2)) ∧
        (¬ sig.length < min 6 (80 - skipped) →
          min 6 (80 - skipped) = 6 → sig.take 5 = kwSolid →
          isspaceB (sig.getD 5 0) = true →
          m.loadSTL s u Mode.Guess = m.loadTextSTL s2 u true) ∧
        (min 6 (80 - skipped) < 6 → sig = kwSolid.take (min 6 (80 - skipped)) →
          ¬ sig.length < min 6 (80 - skipped) →
          m.loadSTL s u Mode.Guess = (Error.GuessFailed, m, s2)) ∧
        (¬ sig.length < min 6 (80 - skipped) →
          ¬ (min 6 (80 - skipped) = 6 ∧ sig.take 5 = kwSolid ∧
            isspaceB (sig.getD 5 0) = true) →
          ¬ (min 6 (80 - skipped) < 6 ∧ sig = kwSolid.take (min 6 (80 - skipped))) →
          m.loadSTL s u Mode.Guess =
            m.loadBinarySTL s2 u (skipped + min 6 (80 - skipped)))) := by
  constructor
  · intro h80
    simp [Model.loadSTL, hsw, h80]
  · intro hlt sig s2 hrd
    refine ⟨?_, ?_, ?_, ?_⟩
    · intro hshort
      simp [Model.loadSTL, hsw, hrd, Nat.ne_of_lt hlt, hshort]
    · intro hlen h6 htake hsp
      simp only [Model.loadSTL, hsw, hrd]
      rw [if_neg (Nat.ne_of_lt hlt)]
      simp only [if_neg hlen]
      rw [if_pos ⟨h6, htake, hsp⟩]
      have : (decide (0 < skipped + min 6 (80 - skipped))) = true := by
        rw [h6]; simp
      rw [this]
    · intro hle hpre hlen
      simp only [Model.loadSTL, hsw, hrd]
      rw [if_neg (Nat.ne_of_lt hlt)]
      simp only [if_neg hlen]
      rw [if_neg (fun hc => absurd hc.1 (by omega)), if_pos ⟨hle, hpre⟩]
    · intro hlen hnotText hnotPre
      simp only [Model.loadSTL, hsw, hrd]
      rw [if_neg (Nat.ne_of_lt hlt)]
      simp only [if_neg hlen]
      rw [if_neg hnotText, if_neg hnotPre]

/-- Witness for c5_guess_dispatch: an all-whitespace stream of exactly
80 bytes fails detection with the model untouched. -/
theorem c5_guess_dispatch_witness :
    emptyModel.loadSTL (mkStream (List.replicate 80 32)) false Mode.Guess =
      (Error.GuessFailed, emptyModel, ⟨[], true, false⟩) :=
  (c5_guess_dispatch emptyModel (mkStream (List.replicate 80 32)) false 80
    ⟨[], true, false⟩ (by decide)).1 (by decide)

/-- C5 counterexample: on the three-byte stream sol the claim's
decision procedure selects the binary parser (the budget allows six
bytes and the whitespace skip did not exhaust it), but the code returns
FileTruncated from the short signature read without running any parser:
observably different, because running the binary parser clears the
geometry while the code path leaves the pre-call face in place. -/
theorem c5_counterexample :
    (preModel.loadSTL (mkStream (bytes "sol")) false Mode.Guess).1 = Error.FileTruncated ∧
    (preModel.loadSTL (mkStream (bytes "sol")) false Mode.Guess).2.1.faces.length = 1 ∧
    ((mkStream (bytes "sol")).readN (min 6 (80 - 0))).2 = ⟨[], true, true⟩ ∧
    (preModel.loadBinarySTL ⟨[], true, true⟩ false 3).2.1.faces.length = 0 := by
  refine ⟨by decide, by decide, by decide, by decide⟩

/-! ### Claim C6 -/

/-- The whitespace skip is the identity on a stream whose next byte is
not whitespace. -/
theorem skipWSGo_nonspace (limit fuel count : ℕ) (s : IStream) (c : ℕ)
    (he : s.eofbit = false) (hf : s.failbit = false)
    (hd : s.data.head? = some c) (hc : isspaceB c = false) :
    skipWSGo limit fuel count s = (count, s) := by
  have hgood : s.good = true := by simp [IStream.good, he, hf]
  rcases s with ⟨data, eb, fb⟩
  cases data with
  | nil => simp at hd
  | cons b l =>
    simp only [List.head?_cons, Option.some.injEq] at hd
    subst hd
    cases fuel with
    | zero => simp [skipWSGo, IStream.peek, hgood]
    | succ fuel => simp [skipWSGo, IStream.peek, hgood, hc]

/-- Keyword sites of the text parser classify exactly per the taxonomy:
extraction failure is FileTruncated, a mismatching token is
UnexpectedToken, a match is no error. -/
theorem expectKw_classification (kword : List ℕ) (s : IStream) :
    ((expectKw kword s).1 = some Error.FileTruncated ↔ (s.extractToken).1 = none) ∧
    ((expectKw kword s).1 = some Error.UnexpectedToken ↔
      ∃ t, (s.extractToken).1 = some t ∧ t ≠ kword) ∧
    ((expectKw kword s).1 = none ↔ (s.extractToken).1 = some kword) := by
  rcases h : s.extractToken with ⟨t?, s1⟩
  cases t? with
  | none => simp [expectKw, h]
  | some t =>
    by_cases ht : t = kword
    · subst ht
      simp [expectKw, h]
    · simp [expectKw, h, ht]

/-- Number sites of the text parser classify exactly per the taxonomy:
stream exhaustion is FileTruncated, a remaining failure (non-numeric
input) is InvalidToken. -/
theorem classifyVec3_classification (r : Option (Vec3 ℚ) × IStream) :
    (r.2.eofbit = true → classifyVec3 r = .error Error.FileTruncated) ∧
    (r.2.eofbit = false → r.2.failbit = true →
      classifyVec3 r = .error Error.InvalidToken) := by
  constructor
  · intro h1
    simp [classifyVec3, h1]
  · intro h1 h2
    simp [classifyVec3, h1, h2]

/-- The loop-exit check of the text parser: where the model-end keyword
is expected, an empty trailing token yields FileTruncated, any other
mismatch yields UnexpectedToken, and the exact keyword ends the load
successfully with deduplicated vertices. -/
theorem textLoop_endcheck (u : Bool) (fuel : ℕ) (tok : List ℕ) (s : IStream)
    (first : Bool) (st : LoadSt) :
    (tok ≠ kwFacet → tok ≠ kwEndsolid → tok = [] →
      textLoop u (fuel + 1) tok s first st = (Error.FileTruncated, st, s)) ∧
    (tok ≠ kwFacet → tok ≠ kwEndsolid → tok ≠ [] →
      textLoop u (fuel + 1) tok s first st = (Error.UnexpectedToken, st, s)) ∧
    (tok = kwEndsolid → textLoop u (fuel + 1) tok s first st =
      (Error.Ok, ⟨(deduplicateVertices vecEqQ vecLtQ st.verts st.faces).1,
        (deduplicateVertices vecEqQ vecLtQ st.verts st.faces).2, st.bbox⟩, s)) := by
  refine ⟨?_, ?_, ?_⟩
  · intro h1 h2 h3
    rw [textLoop, if_neg h1, if_neg h2, if_pos h3]
  · intro h1 h2 h3
    rw [textLoop, if_neg h1, if_neg h2, if_neg h3]
  · intro h
    subst h
    rw [textLoop, if_neg (by decide), if_pos rfl]

/-- A stream starting with the six bytes solidX dispatches, under
auto-detection, to the binary parser with six header bytes consumed. -/
theorem loadSTL_solidX_binary (rest : List ℕ) (m : Model NormalV) (u : Bool) :
    m.loadSTL ⟨bytes "solidX" ++ rest, false, false⟩ u Mode.Guess =
      m.loadBinarySTL ⟨rest, false, false⟩ u 6 := by
  have hsw : skipWhitespace (⟨bytes "solidX" ++ rest, false, false⟩ : IStream) 80 =
      (0, ⟨bytes "solidX" ++ rest, false, false⟩) := by
    unfold skipWhitespace
    exact skipWSGo_nonspace 80 80 0 _ 115 rfl rfl (by simp [bytes]) (by decide)
  have hlen : (bytes "solidX").length = 6 := by decide
  have hrd : (⟨bytes "solidX" ++ rest, false, false⟩ : IStream).readN (min 6 (80 - 0)) =
      (bytes "solidX", ⟨rest, false, false⟩) := by
    simp only [IStream.readN, Nat.sub_zero]
    rw [if_pos (by simp [IStream.good])]
    rw [if_pos (by simp [List.length_append, hlen])]
    rw [show (min 6 80 : ℕ) = 6 from rfl]
    rw [List.take_left' hlen, List.drop_left' hlen]
  have h4 := ((c5_guess_dispatch m ⟨bytes "solidX" ++ rest, false, false⟩ u 0
      ⟨bytes "solidX" ++ rest, false, false⟩ hsw).2 (by omega)
      (bytes "solidX") ⟨rest, false, false⟩ hrd).2.2.2
  rw [h4 (by decide) (by decide) (by decide)]
  rfl

/-- C6 (amended): the text parser classifies malformed streams per the
error taxonomy. Any keyword site maps extraction failure to
FileTruncated and a token mismatch to UnexpectedToken; any number site
maps stream exhaustion to FileTruncated and a remaining (non-numeric)
failure to InvalidToken; where endsolid is expected, an empty trailing
token at true end of stream yields FileTruncated rather than
UnexpectedToken; a stream truncated immediately after outer loop yields
FileTruncated; and a stream starting with solidX yields UnexpectedToken
in Text mode but under auto-detect selects the binary parser (not
GuessFailed; on the concrete short stream that ends in FileTruncated,
see the counterexample). -/
theorem c6_text_error_taxonomy :
    (∀ (kword : List ℕ) (s : IStream),
      ((expectKw kword s).1 = some Error.FileTruncated ↔ (s.extractToken).1 = none) ∧
      ((expectKw kword s).1 = some Error.UnexpectedToken ↔
        ∃ t, (s.extractToken).1 = some t ∧ t ≠ kword) ∧
      ((expectKw kword s).1 = none ↔ (s.extractToken).1 = some kword)) ∧
    (∀ r : Option (Vec3 ℚ) × IStream,
      (r.2.eofbit = true → classifyVec3 r = .error Error.FileTruncated) ∧
      (r.2.eofbit = false → r.2.failbit = true →
        classifyVec3 r = .error Error.InvalidToken)) ∧
    (∀ (u : Bool) (fuel : ℕ) (tok : List ℕ) (s : IStream) (first : Bool) (st : LoadSt),
      (tok ≠ kwFacet → tok ≠ kwEndsolid → tok = [] →
        textLoop u (fuel + 1) tok s first st = (Error.FileTruncated, st, s)) ∧
      (tok ≠ kwFacet → tok ≠ kwEndsolid → tok ≠ [] →
        textLoop u (fuel + 1) tok s first st = (Error.UnexpectedToken, st, s))) ∧
    (emptyModel.loadSTL (mkStream (bytes textTruncOuterLoop)) false Mode.Text).1 =
      Error.FileTruncated ∧
    (emptyModel.loadSTL (mkStream (bytes "solidX foo")) false Mode.Text).1 =
      Error.UnexpectedToken ∧
    (∀ (rest : List ℕ) (m : Model NormalV) (u : Bool),
      m.loadSTL ⟨bytes "solidX" ++ rest, false, false⟩ u Mode.Guess =
        m.loadBinarySTL ⟨rest, false, false⟩ u 6) :=
  ⟨expectKw_classification,
   classifyVec3_classification,
   fun u fuel tok s first st =>
     ⟨(textLoop_endcheck u fuel tok s first st).1,
      (textLoop_endcheck u fuel tok s first st).2.1⟩,
   by decide,
   by decide,
   loadSTL_solidX_binary⟩

/-- Witness for c6_text_error_taxonomy: the loop-exit check on a
concrete empty trailing token yields FileTruncated. -/
theorem c6_text_error_taxonomy_witness :
    textLoop false 1 [] (mkStream []) true ⟨[], [], default⟩ =
      (Error.FileTruncated, ⟨[], [], default⟩, mkStream []) :=
  (c6_text_error_taxonomy.2.2.1 false 0 [] (mkStream []) true ⟨[], [], default⟩).1
    (by decide) (by decide) rfl

/-- C6 counterexample: under auto-detection a stream starting with the
keyword solidX does not yield GuessFailed as claimed; the binary parser
runs and, on this short stream, reports FileTruncated. -/
theorem c6_counterexample :
    (emptyModel.loadSTL (mkStream (bytes "solidX\n")) false Mode.Guess).1 =
      Error.FileTruncated ∧
    Error.FileTruncated ≠ Error.GuessFailed := by
  refine ⟨by decide, by decide⟩

/-! ### Claim C1 -/

/-- Keyword sites produce only FileTruncated or UnexpectedToken. -/
theorem expectKw_errs (kword : List ℕ) (s : IStream) (e : Error) (s1 : IStream)
    (h : expectKw kword s = (some e, s1)) :
    e = Error.FileTruncated ∨ e = Error.UnexpectedToken := by
  unfold expectKw at h
  split at h
  · simp at h
    exact Or.inl h.1.symm
  · split at h
    · simp at h
    · simp at h
      exact Or.inr h.1.symm

theorem classifyVec3_errs (r : Option (Vec3 ℚ) × IStream) (e : Error)
    (h : classifyVec3 r = .error e) :
    e = Error.FileTruncated ∨ e = Error.InvalidToken := by
  unfold classifyVec3 at h
  split at h
  · simp at h; exact Or.inl h.symm
  · split at h
    · simp at h; exact Or.inr h.symm
    · split at h
      · simp at h
      · simp at h; exact Or.inr h.symm

theorem parseFacetBody_errs (s : IStream) (e : Error) (s1 : IStream)
    (h : parseFacetBody s = .error (e, s1)) : e ≠ Error.GuessFailed := by
  unfold parseFacetBody at h
  repeat' split at h
  all_goals simp_all
  all_goals first
    | (next heq =>
        rcases expectKw_errs _ _ _ _ heq with rfl | rfl <;> simp_all)
    | (next heq =>
        rcases classifyVec3_errs _ _ heq with rfl | rfl <;> simp_all)

theorem textLoop_no_guess (u : Bool) :
    ∀ (fuel : ℕ) (tok : List ℕ) (s : IStream) (first : Bool) (st : LoadSt),
      (textLoop u fuel tok s first st).1 ≠ Error.GuessFailed := by
  intro fuel
  induction fuel with
  | zero => intro tok s first st; simp [textLoop]
  | succ fuel ih =>
    intro tok s first st
    rw [textLoop]
    split
    · split
      · next e s1 heq =>
        intro hc
        simp at hc
        exact parseFacetBody_errs _ _ _ heq (by simp [hc])
      · next heq =>
        split
        · simp
        · next tok1 s2 heq2 => exact ih tok1 s2 false _
    · split
      · simp
      · split <;> simp

theorem loadTextSTL_bvh (m : Model NormalV) (s : IStream) (u v : Bool) :
    (Model.loadTextSTL m s u v).2.1.bvh = [] := by
  unfold Model.loadTextSTL
  dsimp only
  repeat' split
  all_goals rfl

theorem binLoop_errs (u : Bool) :
    ∀ (count : ℕ) (s : IStream) (first : Bool) (st : LoadSt)
      (e : Error) (st1 : LoadSt) (s1 : IStream),
      binLoop u count s first st = (e, st1, s1) →
      e = Error.Ok ∨ e = Error.FileTruncated := by
  intro count
  induction count with
  | zero =>
    intro s first st e st1 s1 h
    simp [binLoop] at h
    exact Or.inl h.1.symm
  | succ count ih =>
    intro s first st e st1 s1 h
    rw [binLoop] at h
    split at h
    · simp at h
      exact Or.inr h.1.symm
    · exact ih _ _ _ _ _ _ h

theorem loadBinarySTL_bvh (m : Model NormalV) (s : IStream) (u : Bool) (k : ℕ) :
    (Model.loadBinarySTL m s u k).2.1.bvh = [] := by
  unfold Model.loadBinarySTL
  dsimp only
  repeat' split
  all_goals rfl

theorem loadTextSTL_state (s : IStream) (u v : Bool) (m1 m2 : Model NormalV)
    (hb : m1.boundingBox = m2.boundingBox) :
    m1.loadTextSTL s u v = m2.loadTextSTL s u v := by
  unfold Model.loadTextSTL
  rw [hb]

theorem loadBinarySTL_state (s : IStream) (u : Bool) (k : ℕ) (m1 m2 : Model NormalV)
    (hb : m1.boundingBox = m2.boundingBox) :
    m1.loadBinarySTL s u k = m2.loadBinarySTL s u k := by
  unfold Model.loadBinarySTL
  rw [hb]

theorem loadTextSTL_no_guess (m : Model NormalV) (s : IStream) (u v : Bool) :
    (Model.loadTextSTL m s u v).1 ≠ Error.GuessFailed := by
  unfold Model.loadTextSTL
  dsimp only
  repeat' split
  all_goals simp
  all_goals exact textLoop_no_guess u _ _ _ _ _

theorem loadBinarySTL_no_guess (m : Model NormalV) (s : IStream) (u : Bool) (k : ℕ) :
    (Model.loadBinarySTL m s u k).1 ≠ Error.GuessFailed := by
  unfold Model.loadBinarySTL
  dsimp only
  split
  · simp
  · split
    · simp
    · next e st s2 hne heq =>
      rcases binLoop_errs u _ _ _ _ _ _ _ heq with rfl | rfl
      · simp
      · simp

theorem loadSTL_guessfailed_unchanged (m : Model NormalV) (s : IStream) (u : Bool)
    (mode : Mode) (h : (Model.loadSTL m s u mode).1 = Error.GuessFailed) :
    (Model.loadSTL m s u mode).2.1 = m := by
  cases mode with
  | Text => exact absurd h (loadTextSTL_no_guess m s u false)
  | Binary => exact absurd h (loadBinarySTL_no_guess m s u 0)
  | Guess =>
    unfold Model.loadSTL at h ⊢
    dsimp only at h ⊢
    split at h
    · next hc => rw [if_pos hc]
    · next hc =>
      rw [if_neg hc]
      split at h
      · next hc2 => rw [if_pos hc2]
      · next hc2 =>
        rw [if_neg hc2]
        split at h
        · next hc3 =>
          exact absurd h (loadTextSTL_no_guess m _ u _)
        · next hc3 =>
          rw [if_neg hc3]
          split at h
          · next hc4 => rw [if_pos hc4]
          · next hc4 =>
            exact absurd h (loadBinarySTL_no_guess m _ u _)

/-- C1 (amended): a failed load does not expose the pre-call geometry,
but it may expose partially parsed facets. Both parsers reset the
geometry at entry, so the resulting error, vertices, faces and stream
are independent of the pre-call vertices, faces and BVH (the cached
bounding box held fixed); the BVH is empty after every parser run; and
whenever loadSTL fails during format detection with GuessFailed the
model is completely unchanged. -/
theorem c1_failed_load_state :
    (∀ (s : IStream) (u v : Bool) (m1 m2 : Model NormalV),
      m1.boundingBox = m2.boundingBox →
      m1.loadTextSTL s u v = m2.loadTextSTL s u v) ∧
    (∀ (s : IStream) (u : Bool) (k : ℕ) (m1 m2 : Model NormalV),
      m1.boundingBox = m2.boundingBox →
      m1.loadBinarySTL s u k = m2.loadBinarySTL s u k) ∧
    (∀ (s : IStream) (u v : Bool) (m : Model NormalV),
      (Model.loadTextSTL m s u v).2.1.bvh = []) ∧
    (∀ (s : IStream) (u : Bool) (k : ℕ) (m : Model NormalV),
      (Model.loadBinarySTL m s u k).2.1.bvh = []) ∧
    (∀ (s : IStream) (u : Bool) (mode : Mode) (m : Model NormalV),
      (Model.loadSTL m s u mode).1 = Error.GuessFailed →
      (Model.loadSTL m s u mode).2.1 = m) :=
  ⟨fun s u v m1 m2 hb => loadTextSTL_state s u v m1 m2 hb,
   fun s u k m1 m2 hb => loadBinarySTL_state s u k m1 m2 hb,
   fun s u v m => loadTextSTL_bvh m s u v,
   fun s u k m => loadBinarySTL_bvh m s u k,
   fun s u mode m h => loadSTL_guessfailed_unchanged m s u mode h⟩

/-- Witness for c1_failed_load_state at a concrete stream and models. -/
theorem c1_failed_load_state_witness :
    emptyModel.loadTextSTL (mkStream (bytes textOneFacetGarbage)) false false =
      (⟨[], [], ⟨⟨0, 0, 0⟩, ⟨0, 0, 0⟩⟩, []⟩ : Model NormalV).loadTextSTL
        (mkStream (bytes textOneFacetGarbage)) false false :=
  c1_failed_load_state.1 (mkStream (bytes textOneFacetGarbage)) false false
    emptyModel ⟨[], [], ⟨⟨0, 0, 0⟩, ⟨0, 0, 0⟩⟩, []⟩ rfl

/-- C1 counterexample: loading a text stream holding one well-formed
facet followed by a stray token fails with UnexpectedToken, yet the
model's face vector holds the one parsed facet afterwards: it is
neither empty nor equal to its (empty) pre-call contents, so partial
geometry from the failed load is exposed. -/
theorem c1_counterexample :
    (emptyModel.loadSTL (mkStream (bytes textOneFacetGarbage)) false Mode.Text).1 =
      Error.UnexpectedToken ∧
    (emptyModel.loadSTL (mkStream (bytes textOneFacetGarbage)) false
      Mode.Text).2.1.faces.length = 1 ∧
    emptyModel.faces = [] := by
  refine ⟨by decide, by decide, rfl⟩

/-! ### Claim C10 -/

/-- The builder returns a permutation of its object range. -/
theorem buildBVHAux_perm (target : ℕ) :
    ∀ (fuel : ℕ) (bbox : AABB) (base idx : ℕ) (objs : List BVHObject),
      ((buildBVHAux target fuel bbox base idx objs).2).Perm objs := by
  intro fuel
  induction fuel with
  | zero => intro bbox base idx objs; simp [buildBVHAux]
  | succ fuel ih =>
    intro bbox base idx objs
    simp only [buildBVHAux]
    split
    · simp
    · next hgt =>
      split
      · simp
      · next o0 rest hs =>
        rw [hs]
        have hperm : (List.insertionSort (centLe (largestDir bbox)) objs).Perm objs :=
          List.perm_insertionSort _ _
        rw [hs] at hperm
        refine List.Perm.trans ?_ hperm
        have hL := ih (splitScan (largestDir bbox)
          (vcomp (vhalf (vadd bbox.lo bbox.hi)) (largestDir bbox)) (objs.length / 2)
          rest 1 o0.bbox default).2 base (idx + 1)
          (List.take (splitScan (largestDir bbox)
            (vcomp (vhalf (vadd bbox.lo bbox.hi)) (largestDir bbox)) (objs.length / 2)
            rest 1 o0.bbox default).1 (o0 :: rest))
        have hR := ih
            (match List.drop (splitScan (largestDir bbox)
                (vcomp (vhalf (vadd bbox.lo bbox.hi)) (largestDir bbox))
                (objs.length / 2) rest 1 o0.bbox default).1 (o0 :: rest) with
             | [] => default
             | r0 :: rrest => rrest.foldl (fun b o => aabbUnion b o.bbox) r0.bbox)
            (base + (splitScan (largestDir bbox)
              (vcomp (vhalf (vadd bbox.lo bbox.hi)) (largestDir bbox))
              (objs.length / 2) rest 1 o0.bbox default).1)
            (idx + 1 + (buildBVHAux target fuel
              (splitScan (largestDir bbox)
                (vcomp (vhalf (vadd bbox.lo bbox.hi)) (largestDir bbox))
                (objs.length / 2) rest 1 o0.bbox default).2 base (idx + 1)
              (List.take (splitScan (largestDir bbox)
                (vcomp (vhalf (vadd bbox.lo bbox.hi)) (largestDir bbox))
                (objs.length / 2) rest 1 o0.bbox default).1 (o0 :: rest))).1.length)
            (List.drop (splitScan (largestDir bbox)
              (vcomp (vhalf (vadd bbox.lo bbox.hi)) (largestDir bbox))
              (objs.length / 2) rest 1 o0.bbox default).1 (o0 :: rest))
        have happ := List.Perm.append hL hR
        rw [List.take_append_drop] at happ
        dsimp only
        exact happ

theorem map_getD_range (l : List α) (d : α) :
    (List.range l.length).map (fun i => l.getD i d) = l := by
  apply List.ext_getElem
  · simp
  · intro n h1 h2
    simp only [List.getElem_map, List.getElem_range]
    exact (List.getD_eq_getElem l d (by simpa using h2)).symm ▸ rfl

theorem enum_map_getD {α : Type} [Inhabited α] (l : List α) :
    l.enum.map (fun p => l.getD p.1 default) = l := by
  apply List.ext_getElem
  · simp
  · intro n h1 h2
    simp only [List.getElem_map, List.getElem_enum]
    exact List.getD_eq_getElem l default (by simpa using h2)

theorem remapOne_spec (verts : List (Vec3 ℚ)) (st : RemapSt) (v : ℕ)
    (hInv : RemapInv verts st) (hv : v < verts.length) :
    RemapInv verts (remapOne verts st v).1 ∧
    st.sortedVertices.length ≤ (remapOne verts st v).1.sortedVertices.length ∧
    (∀ p, p < st.sortedVertices.length →
      (remapOne verts st v).1.sortedVertices.getD p default =
        st.sortedVertices.getD p default) ∧
    (remapOne verts st v).2 < (remapOne verts st v).1.sortedVertices.length ∧
    (remapOne verts st v).1.sortedVertices.getD (remapOne verts st v).2 default =
      verts.getD v default ∧
    (∀ p, st.sortedVertices.length ≤ p →
      p < (remapOne verts st v).1.sortedVertices.length → p = (remapOne verts st v).2) := by
  obtain ⟨hlen, hpt⟩ := hInv
  unfold remapOne
  split
  · next hnone =>
    dsimp only
    refine ⟨⟨by simpa using hlen, ?_⟩, by simp, ?_, ?_, ?_, ?_⟩
    · intro v' p hp
      rw [List.getD_eq_getElem?_getD, List.getElem?_set] at hp
      by_cases hvv : v = v'
      · subst hvv
        rw [if_pos rfl, if_pos (by omega)] at hp
        simp only [Option.getD_some] at hp
        injection hp with hp
        subst hp
        refine ⟨hv, by simp, ?_⟩
        rw [List.getD_append_right _ _ _ _ le_rfl]
        simp
      · rw [if_neg hvv] at hp
        rw [← List.getD_eq_getElem?_getD] at hp
        obtain ⟨h1, h2, h3⟩ := hpt v' p hp
        refine ⟨h1, by simp; omega, ?_⟩
        rw [List.getD_append _ _ _ _ h2]
        exact h3
    · intro p hp
      exact List.getD_append _ _ _ _ hp
    · simp
    · rw [List.getD_append_right _ _ _ _ le_rfl]
      simp
    · intro p h1 h2
      simp at h2
      omega
  · next p hp =>
    dsimp only
    obtain ⟨h1, h2, h3⟩ := hpt v p hp
    exact ⟨⟨hlen, hpt⟩, le_rfl, fun _ _ => rfl, h2, h3, fun q hq1 hq2 => absurd hq2 (by omega)⟩

theorem remapFace_spec {ν : Type} (verts : List (Vec3 ℚ)) (st : RemapSt) (f : Face ν)
    (hInv : RemapInv verts st)
    (h0 : f.i0 < verts.length) (h1 : f.i1 < verts.length) (h2 : f.i2 < verts.length) :
    RemapInv verts (remapFace verts st f).1 ∧
    st.sortedVertices.length ≤ (remapFace verts st f).1.sortedVertices.length ∧
    (∀ p, p < st.sortedVertices.length →
      (remapFace verts st f).1.sortedVertices.getD p default =
        st.sortedVertices.getD p default) ∧
    (remapFace verts st f).2.normal = f.normal ∧
    (remapFace verts st f).2.i0 < (remapFace verts st f).1.sortedVertices.length ∧
    (remapFace verts st f).2.i1 < (remapFace verts st f).1.sortedVertices.length ∧
    (remapFace verts st f).2.i2 < (remapFace verts st f).1.sortedVertices.length ∧
    (remapFace verts st f).1.sortedVertices.getD (remapFace verts st f).2.i0 default =
      verts.getD f.i0 default ∧
    (remapFace verts st f).1.sortedVertices.getD (remapFace verts st f).2.i1 default =
      verts.getD f.i1 default ∧
    (remapFace verts st f).1.sortedVertices.getD (remapFace verts st f).2.i2 default =
      verts.getD f.i2 default ∧
    (∀ p, st.sortedVertices.length ≤ p →
      p < (remapFace verts st f).1.sortedVertices.length →
      p = (remapFace verts st f).2.i0 ∨ p = (remapFace verts st f).2.i1 ∨
        p = (remapFace verts st f).2.i2) := by
  obtain ⟨hI0, hm0, hs0, hb0, hv0, hw0⟩ := remapOne_spec verts st f.i0 hInv h0
  obtain ⟨hI1, hm1, hs1, hb1, hv1, hw1⟩ :=
    remapOne_spec verts (remapOne verts st f.i0).1 f.i1 hI0 h1
  obtain ⟨hI2, hm2, hs2, hb2, hv2, hw2⟩ :=
    remapOne_spec verts (remapOne verts (remapOne verts st f.i0).1 f.i1).1 f.i2 hI1 h2
  have hrf : remapFace verts st f =
      ((remapOne verts (remapOne verts (remapOne verts st f.i0).1 f.i1).1 f.i2).1,
       ⟨(remapOne verts st f.i0).2, (remapOne verts (remapOne verts st f.i0).1 f.i1).2,
        (remapOne verts (remapOne verts (remapOne verts st f.i0).1 f.i1).1 f.i2).2,
        f.normal⟩) := rfl
  rw [hrf]
  dsimp only
  refine ⟨hI2, le_trans hm0 (le_trans hm1 hm2), ?_, rfl, ?_, ?_, hb2, ?_, ?_, hv2, ?_⟩
  · intro p hp
    rw [hs2 p (by omega), hs1 p (by omega), hs0 p hp]
  · omega
  · omega
  · rw [hs2 _ (by omega), hs1 _ hb0]
    exact hv0
  · rw [hs2 _ hb1]
    exact hv1
  · intro p hp1 hp2
    by_cases hc0 : p < (remapOne verts st f.i0).1.sortedVertices.length
    · exact Or.inl (hw0 p hp1 hc0)
    · by_cases hc1 : p < (remapOne verts (remapOne verts st f.i0).1 f.i1).1.sortedVertices.length
      · exact Or.inr (Or.inl (hw1 p (by omega) hc1))
      · exact Or.inr (Or.inr (hw2 p (by omega) hp2))

theorem remapFaces_spec {ν : Type} [Inhabited ν] (verts : List (Vec3 ℚ)) :
    ∀ (FS : List (Face ν)) (st : RemapSt),
      RemapInv verts st →
      (∀ f ∈ FS, f.i0 < verts.length ∧ f.i1 < verts.length ∧ f.i2 < verts.length) →
      RemapInv verts (remapFaces verts st FS).1 ∧
      st.sortedVertices.length ≤ (remapFaces verts st FS).1.sortedVertices.length ∧
      (∀ p, p < st.sortedVertices.length →
        (remapFaces verts st FS).1.sortedVertices.getD p default =
          st.sortedVertices.getD p default) ∧
      (remapFaces verts st FS).2.length = FS.length ∧
      (∀ k, k < FS.length →
        ((remapFaces verts st FS).2.getD k default).normal = (FS.getD k default).normal ∧
        ((remapFaces verts st FS).2.getD k default).i0 <
          (remapFaces verts st FS).1.sortedVertices.length ∧
        ((remapFaces verts st FS).2.getD k default).i1 <
          (remapFaces verts st FS).1.sortedVertices.length ∧
        ((remapFaces verts st FS).2.getD k default).i2 <
          (remapFaces verts st FS).1.sortedVertices.length ∧
        (remapFaces verts st FS).1.sortedVertices.getD
            ((remapFaces verts st FS).2.getD k default).i0 default =
          verts.getD (FS.getD k default).i0 default ∧
        (remapFaces verts st FS).1.sortedVertices.getD
            ((remapFaces verts st FS).2.getD k default).i1 default =
          verts.getD (FS.getD k default).i1 default ∧
        (remapFaces verts st FS).1.sortedVertices.getD
            ((remapFaces verts st FS).2.getD k default).i2 default =
          verts.getD (FS.getD k default).i2 default) ∧
      (∀ p, st.sortedVertices.length ≤ p →
        p < (remapFaces verts st FS).1.sortedVertices.length →
        ∃ g ∈ (remapFaces verts st FS).2, p = g.i0 ∨ p = g.i1 ∨ p = g.i2) := by
  intro FS
  induction FS with
  | nil =>
    intro st hInv hin
    refine ⟨hInv, le_rfl, fun _ _ => rfl, rfl, ?_, ?_⟩
    · intro k hk
      simp at hk
    · intro p h1 h2
      exact absurd h2 (by simp [remapFaces]; omega)
  | cons f fs ih =>
    intro st hInv hin
    obtain ⟨hf0, hf1, hf2⟩ := hin f (List.mem_cons_self f fs)
    obtain ⟨rI, rm, rs, rn, rb0, rb1, rb2, rv0, rv1, rv2, rw⟩ :=
      remapFace_spec verts st f hInv hf0 hf1 hf2
    obtain ⟨iI, im, is, ilen, iface, icov⟩ :=
      ih (remapFace verts st f).1 rI (fun g hg => hin g (List.mem_cons_of_mem f hg))
    have hrw : remapFaces verts st (f :: fs) =
        ((remapFaces verts (remapFace verts st f).1 fs).1,
         (remapFace verts st f).2 :: (remapFaces verts (remapFace verts st f).1 fs).2) := by
      rw [remapFaces]
    rw [hrw]
    dsimp only
    refine ⟨iI, le_trans rm im, ?_, by simpa using ilen, ?_, ?_⟩
    · intro p hp
      rw [is p (by omega), rs p hp]
    · intro k hk
      cases k with
      | zero =>
        simp only [List.getD_cons_zero]
        exact ⟨rn, by omega, by omega, by omega,
          by rw [is _ rb0]; exact rv0,
          by rw [is _ rb1]; exact rv1,
          by rw [is _ rb2]; exact rv2⟩
      | succ k =>
        simp only [List.getD_cons_succ]
        exact iface k (by simpa using hk)
    · intro p h1 h2
      by_cases hc : p < (remapFace verts st f).1.sortedVertices.length
      · exact ⟨(remapFace verts st f).2, List.mem_cons_self _ _, rw p h1 hc⟩
      · obtain ⟨g, hg, hor⟩ := icov p (by omega) h2
        exact ⟨g, List.mem_cons_of_mem _ hg, hor⟩

theorem c10_rebuild_preserves_content {ν : Type} [Inhabited ν] (m : Model ν) (t : ℕ)
    (hf : m.faces ≠ [])
    (hin : ∀ f ∈ m.faces, f.i0 < m.vertices.length ∧ f.i1 < m.vertices.length ∧
      f.i2 < m.vertices.length) :
    ((m.rebuildBVH t).faces.map (geomOf (m.rebuildBVH t).vertices)).Perm
      (m.faces.map (geomOf m.vertices)) ∧
    (∀ f ∈ (m.rebuildBVH t).faces,
      f.i0 < (m.rebuildBVH t).vertices.length ∧
      f.i1 < (m.rebuildBVH t).vertices.length ∧
      f.i2 < (m.rebuildBVH t).vertices.length) ∧
    (∀ p, p < (m.rebuildBVH t).vertices.length →
      ∃ g ∈ (m.rebuildBVH t).faces, p = g.i0 ∨ p = g.i1 ∨ p = g.i2) := by
  have hv : m.vertices ≠ [] := by
    obtain ⟨f0, hf0⟩ := List.exists_mem_of_ne_nil m.faces hf
    have := (hin f0 hf0).1
    intro hc
    rw [hc] at this
    simp at this
  have hcond : ¬ (m.faces.isEmpty ∨ m.vertices.isEmpty) := by
    simp [hf, hv]
  have hre : m.rebuildBVH t =
      ⟨(remapFaces m.vertices ⟨List.replicate m.vertices.length none, []⟩
          (((buildBVHAux (t + 1) (bvhObjects m).length m.boundingBox 0 0
            (bvhObjects m)).2).map (fun o => m.faces.getD o.face default))).1.sortedVertices,
       (remapFaces m.vertices ⟨List.replicate m.vertices.length none, []⟩
          (((buildBVHAux (t + 1) (bvhObjects m).length m.boundingBox 0 0
            (bvhObjects m)).2).map (fun o => m.faces.getD o.face default))).2,
       m.boundingBox,
       (buildBVHAux (t + 1) (bvhObjects m).length m.boundingBox 0 0 (bvhObjects m)).1⟩ := by
    unfold Model.rebuildBVH
    rw [if_neg hcond]
  have hperm : ((((buildBVHAux (t + 1) (bvhObjects m).length m.boundingBox 0 0
      (bvhObjects m)).2).map (fun o => m.faces.getD o.face default))).Perm m.faces := by
    have h := (buildBVHAux_perm (t + 1) (bvhObjects m).length m.boundingBox 0 0
      (bvhObjects m)).map (fun o => m.faces.getD o.face default)
    refine h.trans ?_
    have hco : (bvhObjects m).map (fun o => m.faces.getD o.face default) =
        m.faces.enum.map (fun p => m.faces.getD p.1 default) := by
      unfold bvhObjects
      rw [List.map_map]
      rfl
    rw [hco, enum_map_getD]
  set SF := (((buildBVHAux (t + 1) (bvhObjects m).length m.boundingBox 0 0
    (bvhObjects m)).2).map (fun o => m.faces.getD o.face default)) with hSF
  have hinS : ∀ f ∈ SF, f.i0 < m.vertices.length ∧ f.i1 < m.vertices.length ∧
      f.i2 < m.vertices.length := by
    intro f hfS
    exact hin f (hperm.mem_iff.mp hfS)
  have hInv0 : RemapInv m.vertices
      ⟨List.replicate m.vertices.length none, []⟩ := by
    refine ⟨by simp, ?_⟩
    intro v p hp
    rw [List.getD_eq_getElem?_getD] at hp
    rcases Nat.lt_or_ge v m.vertices.length with h | h
    · rw [List.getElem?_replicate, if_pos (by simpa using h)] at hp
      simp at hp
    · rw [List.getElem?_eq_none (by simpa using h)] at hp
      simp at hp
  obtain ⟨fI, fm, fs, flen, fface, fcov⟩ := remapFaces_spec m.vertices SF
    ⟨List.replicate m.vertices.length none, []⟩ hInv0 hinS
  rw [hre]
  dsimp only
  refine ⟨?_, ?_, ?_⟩
  · have hmapeq : (remapFaces m.vertices ⟨List.replicate m.vertices.length none, []⟩
        SF).2.map (geomOf (remapFaces m.vertices
          ⟨List.replicate m.vertices.length none, []⟩ SF).1.sortedVertices) =
        SF.map (geomOf m.vertices) := by
      apply List.ext_getElem
      · simp [flen]
      · intro k hk1 hk2
        simp only [List.getElem_map]
        have hklt : k < SF.length := by simpa using hk2
        obtain ⟨gn, gb0, gb1, gb2, gv0, gv1, gv2⟩ := fface k hklt
        have he1 : (remapFaces m.vertices ⟨List.replicate m.vertices.length none, []⟩
            SF).2[k] = (remapFaces m.vertices ⟨List.replicate m.vertices.length none, []⟩
            SF).2.getD k default := by
          rw [List.getD_eq_getElem _ _ (by simp [flen]; exact hklt)]
        have he2 : SF[k] = SF.getD k default := by
          rw [List.getD_eq_getElem _ _ hklt]
        rw [he1, he2]
        unfold geomOf
        rw [gn, gv0, gv1, gv2]
    rw [hmapeq]
    exact hperm.map _
  · intro f hfm
    obtain ⟨k, hk, rfl⟩ := List.mem_iff_getElem.mp hfm
    have hklt : k < SF.length := by
      have := hk
      simp only [flen] at this ⊢
      omega
    obtain ⟨gn, gb0, gb1, gb2, gv0, gv1, gv2⟩ := fface k hklt
    have he1 : (remapFaces m.vertices ⟨List.replicate m.vertices.length none, []⟩
        SF).2[k] = (remapFaces m.vertices ⟨List.replicate m.vertices.length none, []⟩
        SF).2.getD k default := by
      rw [List.getD_eq_getElem _ _ hk]
    rw [he1]
    exact ⟨gb0, gb1, gb2⟩
  · intro p hp
    exact fcov p (by simp) hp

/-- Witness for c10_rebuild_preserves_content on the two-face model. -/
theorem c10_rebuild_preserves_content_witness :
    ((twoFaceModel.rebuildBVH 1).faces.map (geomOf (twoFaceModel.rebuildBVH 1).vertices)).Perm
      (twoFaceModel.faces.map (geomOf twoFaceModel.vertices)) :=
  (c10_rebuild_preserves_content twoFaceModel 1 (by decide) (by decide)).1

/-- C10 counterexample: on a model with one vertex and no faces - whose
(zero) faces all have in-range indices - rebuildBVH returns early and
leaves the unreferenced vertex in place, so the new vertex array does
not contain exactly the vertices referenced by at least one face. -/
theorem c10_counterexample :
    (zeroFacesModel.rebuildBVH 4).vertices.length = 1 ∧
    zeroFacesModel.faces = [] ∧
    (∀ f ∈ zeroFacesModel.faces, f.i0 < zeroFacesModel.vertices.length ∧
      f.i1 < zeroFacesModel.vertices.length ∧ f.i2 < zeroFacesModel.vertices.length) := by
  refine ⟨by decide, rfl, by decide⟩

/-! ### BVH containment (claim C3): box order, split boxes, builder invariant -/

theorem vle_refl (a : Vec3 ℚ) : vle a a := ⟨le_rfl, le_rfl, le_rfl⟩

theorem vle_trans {a b c : Vec3 ℚ} (h1 : vle a b) (h2 : vle b c) : vle a c :=
  ⟨le_trans h1.1 h2.1, le_trans h1.2.1 h2.2.1, le_trans h1.2.2 h2.2.2⟩

theorem aabbContainsBox_refl (b : AABB) : aabbContainsBox b b := ⟨vle_refl _, vle_refl _⟩

theorem aabbContainsBox_trans {a b c : AABB} (h1 : aabbContainsBox a b)
    (h2 : aabbContainsBox b c) : aabbContainsBox a c :=
  ⟨vle_trans h1.1 h2.1, vle_trans h2.2 h1.2⟩

theorem vle_min_left (a b : Vec3 ℚ) : vle (vmin a b) a :=
  ⟨min_le_left _ _, min_le_left _ _, min_le_left _ _⟩

theorem vle_min_right (a b : Vec3 ℚ) : vle (vmin a b) b :=
  ⟨min_le_right _ _, min_le_right _ _, min_le_right _ _⟩

theorem vle_max_left (a b : Vec3 ℚ) : vle a (vmax a b) :=
  ⟨le_max_left _ _, le_max_left _ _, le_max_left _ _⟩

theorem vle_max_right (a b : Vec3 ℚ) : vle b (vmax a b) :=
  ⟨le_max_right _ _, le_max_right _ _, le_max_right _ _⟩

theorem vle_min_glb {a b c : Vec3 ℚ} (h1 : vle c a) (h2 : vle c b) : vle c (vmin a b) :=
  ⟨le_min h1.1 h2.1, le_min h1.2.1 h2.2.1, le_min h1.2.2 h2.2.2⟩

theorem vle_max_lub {a b c : Vec3 ℚ} (h1 : vle a c) (h2 : vle b c) : vle (vmax a b) c :=
  ⟨max_le h1.1 h2.1, max_le h1.2.1 h2.2.1, max_le h1.2.2 h2.2.2⟩

theorem aabbUnion_left (a b : AABB) : aabbContainsBox (aabbUnion a b) a :=
  ⟨vle_min_left _ _, vle_max_left _ _⟩

theorem aabbUnion_right (a b : AABB) : aabbContainsBox (aabbUnion a b) b :=
  ⟨vle_min_right _ _, vle_max_right _ _⟩

theorem aabbUnion_lub {a b c : AABB} (h1 : aabbContainsBox c a)
    (h2 : aabbContainsBox c b) : aabbContainsBox c (aabbUnion a b) :=
  ⟨vle_min_glb h1.1 h2.1, vle_max_lub h1.2 h2.2⟩

theorem foldUnion_base (cb : AABB) (l : List AABB) :
    aabbContainsBox (foldUnion cb l) cb := by
  induction l generalizing cb with
  | nil => exact aabbContainsBox_refl _
  | cons x l ih =>
    exact aabbContainsBox_trans (ih (aabbUnion cb x)) (aabbUnion_left _ _)

theorem foldUnion_mem (cb : AABB) (l : List AABB) :
    ∀ x ∈ l, aabbContainsBox (foldUnion cb l) x := by
  induction l generalizing cb with
  | nil => intro x hx; simp at hx
  | cons y l ih =>
    intro x hx
    rcases List.mem_cons.mp hx with rfl | hx
    · exact aabbContainsBox_trans (foldUnion_base (aabbUnion cb x) l) (aabbUnion_right _ _)
    · exact ih (aabbUnion cb y) x hx

theorem foldUnion_lub {C cb : AABB} {l : List AABB} (hcb : aabbContainsBox C cb)
    (hl : ∀ x ∈ l, aabbContainsBox C x) : aabbContainsBox C (foldUnion cb l) := by
  induction l generalizing cb with
  | nil => exact hcb
  | cons x l ih =>
    exact ih (aabbUnion_lub hcb (hl x (List.mem_cons_self _ _)))
      (fun y hy => hl y (List.mem_cons_of_mem _ hy))

theorem mem_take_mono {α : Type} {l : List α} {m n : ℕ} (h : m ≤ n) :
    ∀ a ∈ l.take m, a ∈ l.take n := by
  intro a ha
  rw [List.mem_take_iff_getElem] at ha ⊢
  obtain ⟨i, hi, rfl⟩ := ha
  exact ⟨i, by omega, rfl⟩

theorem splitScan_boxes (dir : ℕ) (midv : ℚ) (median : ℕ) :
    ∀ (rest : List BVHObject) (i : ℕ) (cb mb : AABB),
      (∃ j, j < rest.length ∧ splitScan dir midv median rest i cb mb =
        (i + j, foldUnion cb ((rest.take (j + 1)).map (fun o => o.bbox)))) ∨
      ((splitScan dir midv median rest i cb mb).1 = median ∧
        (i ≤ median → median - i < rest.length →
          (splitScan dir midv median rest i cb mb).2 =
            foldUnion cb ((rest.take (median - i + 1)).map (fun o => o.bbox))) ∧
        (median < i → (splitScan dir midv median rest i cb mb).2 = mb)) := by
  intro rest
  induction rest with
  | nil =>
    intro i cb mb
    right
    refine ⟨rfl, ?_, fun _ => rfl⟩
    intro h1 h2
    simp at h2
  | cons o rest ih =>
    intro i cb mb
    by_cases hex : midv < vcomp o.centroid dir
    · left
      refine ⟨0, by simp, ?_⟩
      simp [splitScan, hex, foldUnion]
    · have hstep : splitScan dir midv median (o :: rest) i cb mb =
          splitScan dir midv median rest (i + 1) (aabbUnion cb o.bbox)
            (if i = median then aabbUnion cb o.bbox else mb) := by
        simp [splitScan, hex]
      rcases ih (i + 1) (aabbUnion cb o.bbox)
          (if i = median then aabbUnion cb o.bbox else mb) with
        ⟨j, hj, heq⟩ | ⟨h1, h2, h3⟩
      · left
        refine ⟨j + 1, by simpa using hj, ?_⟩
        rw [hstep, heq]
        have : i + 1 + j = i + (j + 1) := by omega
        rw [this]
        rfl
      · right
        rw [hstep]
        refine ⟨h1, ?_, ?_⟩
        · intro hi1 hi2
          rcases Nat.lt_or_ge i median with hlt | hge
          · rw [h2 (by omega) (by simp at hi2; omega)]
            have harith : median - (i + 1) + 1 = median - i := by omega
            rw [harith]
            rfl
          · have hieq : i = median := by omega
            subst hieq
            rw [h3 (by omega), if_pos rfl]
            have : i - i + 1 = 1 := by omega
            rw [this]
            simp [foldUnion]
        · intro hlt
          rw [h3 (by omega), if_neg (by omega)]

theorem buildBVHAux_len2 (target fuel : ℕ) (bbox : AABB) (base idx : ℕ)
    (objs : List BVHObject) :
    ((buildBVHAux target fuel bbox base idx objs).2).length = objs.length :=
  (buildBVHAux_perm target fuel bbox base idx objs).length_eq

theorem buildBVHAux_head (target fuel : ℕ) (bbox : AABB) (base idx : ℕ)
    (objs : List BVHObject) (hfuel : 0 < fuel) :
    0 < (buildBVHAux target fuel bbox base idx objs).1.length ∧
    ((buildBVHAux target fuel bbox base idx objs).1.getD 0 default).bbox = bbox := by
  obtain ⟨f, rfl⟩ := Nat.exists_eq_succ_of_ne_zero (Nat.pos_iff_ne_zero.mp hfuel)
  simp only [buildBVHAux]
  split
  · simp
  · split
    · simp
    · simp

theorem NodesOK_compose (bbox : AABB) (idx base split : ℕ)
    (L R : List BVHNode) (OL OR : List BVHObject)
    (hLlen : 0 < L.length) (hRlen : 0 < R.length)
    (hOL : OL.length = split)
    (hLok : NodesOK L (idx + 1) base OL)
    (hRok : NodesOK R (idx + 1 + L.length) (base + split) OR)
    (hLbox : aabbContainsBox bbox (L.getD 0 default).bbox)
    (hRbox : aabbContainsBox bbox (R.getD 0 default).bbox) :
    NodesOK ((⟨bbox, false, idx + 1, idx + 1 + L.length⟩ : BVHNode) :: (L ++ R))
      idx base (OL ++ OR) := by
  unfold NodesOK
  intro j hj
  simp only [List.length_cons, List.length_append] at hj
  cases j with
  | zero =>
    simp only [List.getD_cons_zero]
    rw [if_neg (by simp)]
    refine ⟨by omega, by omega,
      by simp only [List.length_cons, List.length_append]; omega, ?_, ?_⟩
    · have h1 : ((⟨bbox, false, idx + 1, idx + 1 + L.length⟩ : BVHNode) :: (L ++ R)).getD
          (idx + 1 - idx) default = L.getD 0 default := by
        have he : idx + 1 - idx = 1 := by omega
        rw [he, List.getD_cons_succ, List.getD_append _ _ _ _ hLlen]
      rw [h1]
      exact hLbox
    · have h2 : ((⟨bbox, false, idx + 1, idx + 1 + L.length⟩ : BVHNode) :: (L ++ R)).getD
          (idx + 1 + L.length - idx) default = R.getD 0 default := by
        have he : idx + 1 + L.length - idx = L.length + 1 := by omega
        rw [he, List.getD_cons_succ, List.getD_append_right _ _ _ _ (by omega)]
        simp
      rw [h2]
      exact hRbox
  | succ j =>
    simp only [List.getD_cons_succ]
    rcases Nat.lt_or_ge j L.length with hjL | hjL
    · -- node from the left segment
      rw [List.getD_append _ _ _ _ hjL]
      have hok := hLok j hjL
      dsimp only at hok ⊢
      split at hok
      · next hleaf =>
        rw [if_pos hleaf]
        obtain ⟨a1, a2, a3, a4⟩ := hok
        refine ⟨a1, a2, by simp only [List.length_append]; omega, ?_⟩
        intro k hk1 hk2
        have hidx : k - base < OL.length := by omega
        rw [List.getD_append _ _ _ _ hidx]
        exact a4 k hk1 hk2
      · next hleaf =>
        rw [if_neg hleaf]
        obtain ⟨a1, a2, a3, a4, a5⟩ := hok
        have hlo : (L.getD j default).leftOrFirstFace - (idx + 1) < L.length := by omega
        have hhi : (L.getD j default).rightOrLastFace - (idx + 1) < L.length := by omega
        refine ⟨by omega, a2, by simp only [List.length_cons, List.length_append]; omega,
          ?_, ?_⟩
        · have h1 : ((⟨bbox, false, idx + 1, idx + 1 + L.length⟩ : BVHNode) :: (L ++ R)).getD
              ((L.getD j default).leftOrFirstFace - idx) default =
              L.getD ((L.getD j default).leftOrFirstFace - (idx + 1)) default := by
            have harith : (L.getD j default).leftOrFirstFace - idx =
                ((L.getD j default).leftOrFirstFace - (idx + 1)) + 1 := by omega
            rw [harith, List.getD_cons_succ, List.getD_append _ _ _ _ hlo]
          rw [h1]
          exact a4
        · have h2 : ((⟨bbox, false, idx + 1, idx + 1 + L.length⟩ : BVHNode) :: (L ++ R)).getD
              ((L.getD j default).rightOrLastFace - idx) default =
              L.getD ((L.getD j default).rightOrLastFace - (idx + 1)) default := by
            have harith : (L.getD j default).rightOrLastFace - idx =
                ((L.getD j default).rightOrLastFace - (idx + 1)) + 1 := by omega
            rw [harith, List.getD_cons_succ, List.getD_append _ _ _ _ hhi]
          rw [h2]
          exact a5
    · -- node from the right segment
      have hjR : j - L.length < R.length := by omega
      rw [List.getD_append_right _ _ _ _ hjL]
      have hok := hRok (j - L.length) hjR
      dsimp only at hok ⊢
      split at hok
      · next hleaf =>
        rw [if_pos hleaf]
        obtain ⟨a1, a2, a3, a4⟩ := hok
        refine ⟨by omega, a2, by simp only [List.length_append]; omega, ?_⟩
        intro k hk1 hk2
        have hkge : OL.length ≤ k - base := by omega
        rw [List.getD_append_right _ _ _ _ hkge]
        have harith : k - base - OL.length = k - (base + split) := by omega
        rw [harith]
        exact a4 k (by omega) hk2
      · next hleaf =>
        rw [if_neg hleaf]
        obtain ⟨a1, a2, a3, a4, a5⟩ := hok
        have hlo : L.length ≤ (R.getD (j - L.length) default).leftOrFirstFace - (idx + 1) := by
          omega
        have hlo2 : (R.getD (j - L.length) default).leftOrFirstFace - (idx + 1) - L.length <
            R.length := by omega
        have hhi : L.length ≤ (R.getD (j - L.length) default).rightOrLastFace - (idx + 1) := by
          omega
        have hhi2 : (R.getD (j - L.length) default).rightOrLastFace - (idx + 1) - L.length <
            R.length := by omega
        refine ⟨by omega, a2, by simp only [List.length_cons, List.length_append]; omega,
          ?_, ?_⟩
        · have h1 : ((⟨bbox, false, idx + 1, idx + 1 + L.length⟩ : BVHNode) :: (L ++ R)).getD
              ((R.getD (j - L.length) default).leftOrFirstFace - idx) default =
              R.getD ((R.getD (j - L.length) default).leftOrFirstFace -
                (idx + 1 + L.length)) default := by
            have harith : (R.getD (j - L.length) default).leftOrFirstFace - idx =
                ((R.getD (j - L.length) default).leftOrFirstFace - (idx + 1)) + 1 := by omega
            rw [harith, List.getD_cons_succ, List.getD_append_right _ _ _ _ hlo]
            have harith2 : (R.getD (j - L.length) default).leftOrFirstFace - (idx + 1) -
                L.length = (R.getD (j - L.length) default).leftOrFirstFace -
                (idx + 1 + L.length) := by omega
            rw [harith2]
          rw [h1]
          exact a4
        · have h2 : ((⟨bbox, false, idx + 1, idx + 1 + L.length⟩ : BVHNode) :: (L ++ R)).getD
              ((R.getD (j - L.length) default).rightOrLastFace - idx) default =
              R.getD ((R.getD (j - L.length) default).rightOrLastFace -
                (idx + 1 + L.length)) default := by
            have harith : (R.getD (j - L.length) default).rightOrLastFace - idx =
                ((R.getD (j - L.length) default).rightOrLastFace - (idx + 1)) + 1 := by omega
            rw [harith, List.getD_cons_succ, List.getD_append_right _ _ _ _ hhi]
            have harith2 : (R.getD (j - L.length) default).rightOrLastFace - (idx + 1) -
                L.length = (R.getD (j - L.length) default).rightOrLastFace -
                (idx + 1 + L.length) := by omega
            rw [harith2]
          rw [h2]
          exact a5

theorem splitScan_left_box (dir : ℕ) (midv : ℚ) (o0 : BVHObject)
    (rest : List BVHObject) (m : ℕ) (hm1 : 1 ≤ m) (hm2 : m ≤ rest.length) :
    ∀ o ∈ (o0 :: rest).take (splitScan dir midv m rest 1 o0.bbox default).1,
      aabbContainsBox (splitScan dir midv m rest 1 o0.bbox default).2 o.bbox := by
  rcases splitScan_boxes dir midv m rest 1 o0.bbox default with
    ⟨j, hj, heq⟩ | ⟨h1, h2, h3⟩
  · rw [heq]
    intro o ho
    have h1j : 1 + j = j + 1 := by omega
    rw [h1j, List.take_succ_cons] at ho
    rcases List.mem_cons.mp ho with rfl | ho'
    · exact foldUnion_base _ _
    · exact foldUnion_mem _ _ _
        (List.mem_map_of_mem _ (mem_take_mono (by omega) _ ho'))
  · rw [h1, h2 (by omega) (by omega)]
    intro o ho
    have hm : m = (m - 1) + 1 := by omega
    rw [hm, List.take_succ_cons] at ho
    rcases List.mem_cons.mp ho with rfl | ho'
    · exact foldUnion_base _ _
    · exact foldUnion_mem _ _ _
        (List.mem_map_of_mem _ (mem_take_mono (by omega) _ ho'))

theorem splitScan_box_sub (dir : ℕ) (midv : ℚ) (o0 : BVHObject)
    (rest : List BVHObject) (m : ℕ) (C : AABB)
    (hC : ∀ o ∈ o0 :: rest, aabbContainsBox C o.bbox)
    (hm1 : 1 ≤ m) (hm2 : m ≤ rest.length) :
    aabbContainsBox C (splitScan dir midv m rest 1 o0.bbox default).2 := by
  rcases splitScan_boxes dir midv m rest 1 o0.bbox default with
    ⟨j, hj, heq⟩ | ⟨h1, h2, h3⟩
  · rw [heq]
    apply foldUnion_lub (hC o0 (List.mem_cons_self _ _))
    intro x hx
    obtain ⟨o, hoin, rfl⟩ := List.mem_map.mp hx
    exact hC o (List.mem_cons_of_mem _ (List.take_subset _ _ hoin))
  · rw [h2 (by omega) (by omega)]
    apply foldUnion_lub (hC o0 (List.mem_cons_self _ _))
    intro x hx
    obtain ⟨o, hoin, rfl⟩ := List.mem_map.mp hx
    exact hC o (List.mem_cons_of_mem _ (List.take_subset _ _ hoin))

theorem buildBVHAux_nodesOK (target : ℕ) (htgt : 1 ≤ target) :
    ∀ (fuel : ℕ) (bbox : AABB) (base idx : ℕ) (objs : List BVHObject),
      objs.length ≤ fuel →
      (∀ o ∈ objs, aabbContainsBox bbox o.bbox) →
      NodesOK (buildBVHAux target fuel bbox base idx objs).1 idx base
        (buildBVHAux target fuel bbox base idx objs).2 := by
  intro fuel
  induction fuel with
  | zero =>
    intro bbox base idx objs hle hbox
    unfold NodesOK
    intro j hj
    simp [buildBVHAux] at hj
  | succ fuel ih =>
    intro bbox base idx objs hle hbox
    simp only [buildBVHAux]
    split
    · next hsmall =>
      dsimp only
      unfold NodesOK
      intro j hj
      simp only [List.length_cons, List.length_nil] at hj
      have hj0 : j = 0 := by omega
      subst hj0
      simp only [List.getD_cons_zero]
      rw [if_pos trivial]
      refine ⟨le_rfl, Nat.le_add_right _ _, le_rfl, ?_⟩
      intro k hk1 hk2
      have hlt : k - base < objs.length := by omega
      rw [List.getD_eq_getElem _ _ hlt]
      exact hbox _ (List.getElem_mem _)
    · next hgt =>
      split
      · next hs =>
        dsimp only
        unfold NodesOK
        intro j hj
        simp only [List.length_cons, List.length_nil] at hj
        have hj0 : j = 0 := by omega
        subst hj0
        simp only [List.getD_cons_zero]
        rw [if_pos trivial]
        refine ⟨le_rfl, Nat.le_add_right _ _, le_rfl, ?_⟩
        intro k hk1 hk2
        have hlt : k - base < objs.length := by omega
        rw [List.getD_eq_getElem _ _ hlt]
        exact hbox _ (List.getElem_mem _)
      · next o0 rest hs =>
        rw [hs]
        dsimp only
        set dir := largestDir bbox with hdir
        set midv := vcomp (vhalf (vadd bbox.lo bbox.hi)) dir with hmidv
        set sc := splitScan dir midv (objs.length / 2) rest 1 o0.bbox default with hsc
        have hconsn : (o0 :: rest).length = objs.length := by
          rw [← hs]
          exact List.length_insertionSort _ _
        have hn2 : 2 ≤ objs.length := by omega
        have hmemsorted : ∀ o ∈ o0 :: rest, aabbContainsBox bbox o.bbox := by
          intro o ho
          have hmem : o ∈ List.insertionSort (centLe dir) objs := by rw [hs]; exact ho
          exact hbox o ((List.perm_insertionSort (centLe dir) objs).mem_iff.mp hmem)
        have hrest : rest ≠ [] := by
          intro h
          subst h
          simp only [List.length_cons, List.length_nil] at hconsn
          omega
        have hsp := splitScan_interior dir midv o0 rest o0.bbox default hrest
        rw [hconsn] at hsp
        rw [← hsc] at hsp
        obtain ⟨hsp1, hsp2⟩ := hsp
        have hconsn2 : rest.length + 1 = objs.length := by
          simpa using hconsn
        have hm1 : 1 ≤ objs.length / 2 := by omega
        have hmle : objs.length / 2 ≤ rest.length := by omega
        have hleftmem := splitScan_left_box dir midv o0 rest (objs.length / 2) hm1 hmle
        rw [← hsc] at hleftmem
        have hscbox := splitScan_box_sub dir midv o0 rest (objs.length / 2) bbox
          hmemsorted hm1 hmle
        rw [← hsc] at hscbox
        have hdropne : (o0 :: rest).drop sc.1 ≠ [] := by
          intro h
          have hlen := congrArg List.length h
          simp only [List.length_drop, List.length_nil] at hlen
          omega
        obtain ⟨r0, rrest, hrcons⟩ := List.exists_cons_of_ne_nil hdropne
        rw [hrcons]
        dsimp only
        set rB := rrest.foldl (fun b o => aabbUnion b o.bbox) r0.bbox with hrB
        have hrB2 : rB = foldUnion r0.bbox (rrest.map (fun o => o.bbox)) := by
          rw [hrB, foldUnion, List.foldl_map]
        have hsubR : ∀ o ∈ r0 :: rrest, o ∈ o0 :: rest := by
          intro o ho
          rw [← hrcons] at ho
          exact List.drop_subset _ _ ho
        have hrightmem : ∀ o ∈ r0 :: rrest, aabbContainsBox rB o.bbox := by
          intro o ho
          rw [hrB2]
          rcases List.mem_cons.mp ho with rfl | ho'
          · exact foldUnion_base _ _
          · exact foldUnion_mem _ _ _ (List.mem_map_of_mem _ ho')
        have hrbox : aabbContainsBox bbox rB := by
          rw [hrB2]
          apply foldUnion_lub (hmemsorted r0 (hsubR r0 (List.mem_cons_self _ _)))
          intro x hx
          obtain ⟨o, hoin, rfl⟩ := List.mem_map.mp hx
          exact hmemsorted o (hsubR o (List.mem_cons_of_mem _ hoin))
        have hfpos : 0 < fuel := by omega
        have hfuelL : ((o0 :: rest).take sc.1).length ≤ fuel := by
          simp only [List.length_take, List.length_cons]
          omega
        have hihL := ih sc.2 base (idx + 1) ((o0 :: rest).take sc.1) hfuelL hleftmem
        set L := buildBVHAux target fuel sc.2 base (idx + 1) ((o0 :: rest).take sc.1)
          with hL
        have hdroplen : (r0 :: rrest).length ≤ fuel := by
          have hlen := congrArg List.length hrcons
          simp only [List.length_drop, List.length_cons] at hlen ⊢
          omega
        have hihR := ih rB (base + sc.1) (idx + 1 + L.1.length) (r0 :: rrest)
          hdroplen hrightmem
        set R := buildBVHAux target fuel rB (base + sc.1) (idx + 1 + L.1.length)
          (r0 :: rrest) with hR
        have hLhead := buildBVHAux_head target fuel sc.2 base (idx + 1)
          ((o0 :: rest).take sc.1) hfpos
        rw [← hL] at hLhead
        obtain ⟨hLlen, hLheadbox⟩ := hLhead
        have hRhead := buildBVHAux_head target fuel rB (base + sc.1)
          (idx + 1 + L.1.length) (r0 :: rrest) hfpos
        rw [← hR] at hRhead
        obtain ⟨hRlen, hRheadbox⟩ := hRhead
        have hLbox : aabbContainsBox bbox (L.1.getD 0 default).bbox := by
          rw [hLheadbox]
          exact hscbox
        have hRbox : aabbContainsBox bbox (R.1.getD 0 default).bbox := by
          rw [hRheadbox]
          exact hrbox
        have hOLlen : L.2.length = sc.1 := by
          have hlen2 := buildBVHAux_len2 target fuel sc.2 base (idx + 1)
            ((o0 :: rest).take sc.1)
          rw [← hL] at hlen2
          rw [hlen2, List.length_take, List.length_cons]
          omega
        exact NodesOK_compose bbox idx base sc.1 L.1 R.1 L.2 R.2 hLlen hRlen hOLlen
          hihL hihR hLbox hRbox

theorem subtree_contained (bvh : List BVHNode) (objs : List BVHObject)
    (hok : NodesOK bvh 0 0 objs) :
    ∀ (fuel i : ℕ), i < bvh.length →
      ∀ k ∈ subtreeFaceIdxs bvh fuel i,
        k < objs.length ∧
        aabbContainsBox (bvh.getD i default).bbox (objs.getD k default).bbox := by
  intro fuel
  induction fuel with
  | zero =>
    intro i hi k hk
    simp [subtreeFaceIdxs] at hk
  | succ fuel ih =>
    intro i hi k hk
    have hget : bvh.get? i = some (bvh.getD i default) := by
      rw [List.getD_eq_getElem _ _ hi, List.get?_eq_getElem?, List.getElem?_eq_getElem hi]
    have hnode := hok i hi
    dsimp only at hnode
    simp only [subtreeFaceIdxs, hget] at hk
    by_cases hleaf : (bvh.getD i default).leaf = true
    · rw [if_pos hleaf] at hk hnode
      obtain ⟨a1, a2, a3, a4⟩ := hnode
      rw [List.mem_range'_1] at hk
      obtain ⟨hk1, hk2⟩ := hk
      have hk2b : k < (bvh.getD i default).rightOrLastFace := by omega
      refine ⟨by omega, ?_⟩
      have hc := a4 k hk1 hk2b
      simpa using hc
    · rw [if_neg hleaf] at hk hnode
      obtain ⟨a1, a2, a3, a4, a5⟩ := hnode
      simp only [Nat.zero_add] at a3
      rw [List.mem_append] at hk
      rcases hk with hk | hk
      · have hlo : (bvh.getD i default).leftOrFirstFace < bvh.length := by omega
        obtain ⟨hkl, hcont⟩ := ih (bvh.getD i default).leftOrFirstFace hlo k hk
        refine ⟨hkl, aabbContainsBox_trans ?_ hcont⟩
        simpa using a4
      · have hhi : (bvh.getD i default).rightOrLastFace < bvh.length := by omega
        obtain ⟨hkl, hcont⟩ := ih (bvh.getD i default).rightOrLastFace hhi k hk
        refine ⟨hkl, aabbContainsBox_trans ?_ hcont⟩
        simpa using a5

theorem contains_faceBBox {ν : Type} (C : AABB) (verts : List (Vec3 ℚ)) (f : Face ν)
    (h0 : aabbContainsPoint C (verts.getD f.i0 default))
    (h1 : aabbContainsPoint C (verts.getD f.i1 default))
    (h2 : aabbContainsPoint C (verts.getD f.i2 default)) :
    aabbContainsBox C (faceBBox verts f) :=
  ⟨vle_min_glb h0.1 (vle_min_glb h1.1 h2.1), vle_max_lub h0.2 (vle_max_lub h1.2 h2.2)⟩

theorem bvhObjects_mem {ν : Type} [Inhabited ν] (m : Model ν) :
    ∀ o ∈ bvhObjects m, o.face < m.faces.length ∧
      o.bbox = faceBBox m.vertices (m.faces.getD o.face default) := by
  intro o ho
  rw [List.mem_iff_getElem] at ho
  obtain ⟨j, hj, rfl⟩ := ho
  have hjlen : j < m.faces.length := by
    simpa [bvhObjects] using hj
  simp only [bvhObjects, List.getElem_map, List.getElem_enum]
  refine ⟨hjlen, ?_⟩
  dsimp only
  rw [List.getD_eq_getElem _ _ hjlen]

theorem bvhObjects_contained {ν : Type} [Inhabited ν] (m : Model ν)
    (hin : ∀ f ∈ m.faces, f.i0 < m.vertices.length ∧ f.i1 < m.vertices.length ∧
      f.i2 < m.vertices.length)
    (hv : ∀ v ∈ m.vertices, aabbContainsPoint m.boundingBox v) :
    ∀ o ∈ bvhObjects m, aabbContainsBox m.boundingBox o.bbox := by
  intro o ho
  obtain ⟨hface, hbb⟩ := bvhObjects_mem m o ho
  rw [hbb]
  have hmem : m.faces.getD o.face default ∈ m.faces := by
    rw [List.getD_eq_getElem _ _ hface]
    exact List.getElem_mem _
  obtain ⟨h0, h1, h2⟩ := hin _ hmem
  apply contains_faceBBox
  · exact hv _ (by rw [List.getD_eq_getElem _ _ h0]; exact List.getElem_mem _)
  · exact hv _ (by rw [List.getD_eq_getElem _ _ h1]; exact List.getElem_mem _)
  · exact hv _ (by rw [List.getD_eq_getElem _ _ h2]; exact List.getElem_mem _)

/-- C3: for every BVH produced by rebuildBVH on a model whose cached
bounding box contains all its vertices (and whose face indices are in
range), every node's box contains the bounding box of every face of the
node's subtree, leaves covering their own face range and internal nodes
every descendant leaf's range. -/
theorem c3_bvh_containment {ν : Type} [Inhabited ν] (m : Model ν) (targetLoad : ℕ)
    (hin : ∀ f ∈ m.faces, f.i0 < m.vertices.length ∧ f.i1 < m.vertices.length ∧
      f.i2 < m.vertices.length)
    (hv : ∀ v ∈ m.vertices, aabbContainsPoint m.boundingBox v) :
    ∀ fuel i, i < (m.rebuildBVH targetLoad).bvh.length →
      ∀ k ∈ subtreeFaceIdxs (m.rebuildBVH targetLoad).bvh fuel i,
        k < (m.rebuildBVH targetLoad).faces.length ∧
        aabbContainsBox ((m.rebuildBVH targetLoad).bvh.getD i default).bbox
          (faceBBox (m.rebuildBVH targetLoad).vertices
            ((m.rebuildBVH targetLoad).faces.getD k default)) := by
  by_cases hcond : (m.faces.isEmpty ∨ m.vertices.isEmpty)
  · intro fuel i hi
    unfold Model.rebuildBVH at hi
    rw [if_pos hcond] at hi
    simp at hi
  · have hre : m.rebuildBVH targetLoad =
        ⟨(remapFaces m.vertices ⟨List.replicate m.vertices.length none, []⟩
            (((buildBVHAux (targetLoad + 1) (bvhObjects m).length m.boundingBox 0 0
              (bvhObjects m)).2).map (fun o => m.faces.getD o.face default))).1.sortedVertices,
         (remapFaces m.vertices ⟨List.replicate m.vertices.length none, []⟩
            (((buildBVHAux (targetLoad + 1) (bvhObjects m).length m.boundingBox 0 0
              (bvhObjects m)).2).map (fun o => m.faces.getD o.face default))).2,
         m.boundingBox,
         (buildBVHAux (targetLoad + 1) (bvhObjects m).length m.boundingBox 0 0
           (bvhObjects m)).1⟩ := by
      unfold Model.rebuildBVH
      rw [if_neg hcond]
    rw [hre]
    dsimp only
    set A := buildBVHAux (targetLoad + 1) (bvhObjects m).length m.boundingBox 0 0
      (bvhObjects m) with hA
    set SF := A.2.map (fun o => m.faces.getD o.face default) with hSF
    set RM := remapFaces m.vertices ⟨List.replicate m.vertices.length none, []⟩ SF with hRM
    intro fuel i hi k hk
    have hok := buildBVHAux_nodesOK (targetLoad + 1) (by omega) (bvhObjects m).length
      m.boundingBox 0 0 (bvhObjects m) le_rfl (bvhObjects_contained m hin hv)
    rw [← hA] at hok
    obtain ⟨hklt, hcont⟩ := subtree_contained A.1 A.2 hok fuel i hi k hk
    have hperm2 : A.2.Perm (bvhObjects m) := by
      have h := buildBVHAux_perm (targetLoad + 1) (bvhObjects m).length m.boundingBox 0 0
        (bvhObjects m)
      rw [← hA] at h
      exact h
    have homem : A.2.getD k default ∈ bvhObjects m := by
      apply hperm2.mem_iff.mp
      rw [List.getD_eq_getElem _ _ hklt]
      exact List.getElem_mem _
    obtain ⟨hface, hbb⟩ := bvhObjects_mem m _ homem
    have hSFlen : SF.length = A.2.length := by rw [hSF]; simp
    have hkS : k < SF.length := by rw [hSFlen]; exact hklt
    have hSFk : SF.getD k default = m.faces.getD ((A.2.getD k default).face) default := by
      rw [List.getD_eq_getElem _ _ hkS, List.getD_eq_getElem A.2 _ hklt]
      simp only [hSF, List.getElem_map]
    have hinS : ∀ f ∈ SF, f.i0 < m.vertices.length ∧ f.i1 < m.vertices.length ∧
        f.i2 < m.vertices.length := by
      intro f hf
      rw [hSF] at hf
      obtain ⟨o, hoA, rfl⟩ := List.mem_map.mp hf
      have homem2 : o ∈ bvhObjects m := hperm2.mem_iff.mp hoA
      obtain ⟨hof, _⟩ := bvhObjects_mem m o homem2
      apply hin
      rw [List.getD_eq_getElem _ _ hof]
      exact List.getElem_mem _
    have hInv0 : RemapInv m.vertices
        ⟨List.replicate m.vertices.length none, []⟩ := by
      refine ⟨by simp, ?_⟩
      intro v p hp
      rw [List.getD_eq_getElem?_getD] at hp
      rcases Nat.lt_or_ge v m.vertices.length with h | h
      · rw [List.getElem?_replicate, if_pos (by simpa using h)] at hp
        simp at hp
      · rw [List.getElem?_eq_none (by simpa using h)] at hp
        simp at hp
    obtain ⟨fI, fm, fs, flen, fface, fcov⟩ := remapFaces_spec m.vertices SF
      ⟨List.replicate m.vertices.length none, []⟩ hInv0 hinS
    rw [← hRM] at flen fface
    constructor
    · rw [flen, hSFlen]
      exact hklt
    · obtain ⟨gn, gb0, gb1, gb2, gv0, gv1, gv2⟩ := fface k hkS
      have hfb : faceBBox RM.1.sortedVertices (RM.2.getD k default) =
          faceBBox m.vertices (SF.getD k default) := by
        unfold faceBBox
        rw [gv0, gv1, gv2]
      rw [hfb, hSFk, ← hbb]
      exact hcont

/-- Witness for c3_bvh_containment: the two-face model rebuilt with
target load 1 has a nonempty BVH whose root subtree spans face 0, and
the root box contains that face's box. -/
theorem c3_bvh_containment_witness :
    0 < (twoFaceModel.rebuildBVH 1).bvh.length ∧
    0 ∈ subtreeFaceIdxs (twoFaceModel.rebuildBVH 1).bvh
      ((twoFaceModel.rebuildBVH 1).bvh.length) 0 ∧
    (0 < (twoFaceModel.rebuildBVH 1).faces.length ∧
     aabbContainsBox ((twoFaceModel.rebuildBVH 1).bvh.getD 0 default).bbox
       (faceBBox (twoFaceModel.rebuildBVH 1).vertices
         ((twoFaceModel.rebuildBVH 1).faces.getD 0 default))) :=
  ⟨by decide, by decide,
   c3_bvh_containment twoFaceModel 1 (by decide) (by decide)
     ((twoFaceModel.rebuildBVH 1).bvh.length) 0 (by decide) 0 (by decide)⟩

/-! ### Vertex deduplication invariants (claim C7) -/

theorem getD_set_ne {α : Type} (l : List α) (m n : ℕ) (a d : α) (h : m ≠ n) :
    (l.set m a).getD n d = l.getD n d := by
  rw [List.getD_eq_getElem?_getD, List.getD_eq_getElem?_getD, List.getElem?_set]
  simp [h]

theorem getD_set_self {α : Type} (l : List α) (m : ℕ) (a d : α) (h : m < l.length) :
    (l.set m a).getD m d = a := by
  rw [List.getD_eq_getElem?_getD, List.getElem?_set]
  simp [h]

theorem nodup_bounded_length (H : List ℕ) (n : ℕ) (hnd : H.Nodup)
    (hb : ∀ h ∈ H, h < n) : H.length ≤ n := by
  have hsub : H ⊆ List.range n := by intro x hx; simpa using hb x hx
  calc H.length = H.toFinset.card := (List.toFinset_card_of_nodup hnd).symm
    _ ≤ (List.range n).toFinset.card := Finset.card_le_card (by
        intro x hx; rw [List.mem_toFinset] at hx ⊢; exact hsub hx)
    _ ≤ (List.range n).length := List.toFinset_card_le _
    _ = n := List.length_range n

theorem buildRemap_spec {β κ : Type} [Inhabited β] [LinearOrder κ]
    (veq : β → β → Bool) (vs : List β) (k : ℕ → κ)
    (hveqk : ∀ i j, i < vs.length → j < vs.length →
      (veq (vs.getD i default) (vs.getD j default) = true ↔ k i = k j)) :
    ∀ (L : List ℕ) (cur : ℕ) (remap : List ℕ),
      remap.length = vs.length →
      cur < vs.length →
      (∀ x ∈ L, x < vs.length) →
      List.Pairwise (fun i j => k i < k j ∨ (k i = k j ∧ i ≤ j)) (cur :: L) →
      (cur :: L).Nodup →
      remap.getD cur 0 = cur →
      (∀ x ∈ L, remap.getD x 0 = x) →
      (buildRemap veq vs L cur remap).length = remap.length ∧
      (∀ i, i ∉ L → (buildRemap veq vs L cur remap).getD i 0 = remap.getD i 0) ∧
      (∀ x ∈ L,
        ((buildRemap veq vs L cur remap).getD x 0 = x ∧
          ∀ y ∈ cur :: L, k y = k x → x ≤ y) ∨
        ((buildRemap veq vs L cur remap).getD x 0 < x ∧
          k ((buildRemap veq vs L cur remap).getD x 0) = k x ∧
          (buildRemap veq vs L cur remap).getD
            ((buildRemap veq vs L cur remap).getD x 0) 0 =
            (buildRemap veq vs L cur remap).getD x 0 ∧
          (buildRemap veq vs L cur remap).getD x 0 ∈ cur :: L)) := by
  intro L
  induction L with
  | nil =>
    intro cur remap hlen hcur hbnd hsort hnd hch hcl
    exact ⟨rfl, fun i _ => rfl, fun x hx => absurd hx (List.not_mem_nil x)⟩
  | cons it rest ih =>
    intro cur remap hlen hcur hbnd hsort hnd hch hcl
    have hit : it < vs.length := hbnd it (List.mem_cons_self _ _)
    have hrestbnd : ∀ x ∈ rest, x < vs.length :=
      fun x hx => hbnd x (List.mem_cons_of_mem _ hx)
    rw [List.pairwise_cons] at hsort
    obtain ⟨hcur_all, hsort'⟩ := hsort
    rw [List.nodup_cons] at hnd
    obtain ⟨hcur_nin, hnd'⟩ := hnd
    have hit_nin_rest : it ∉ rest := (List.nodup_cons.mp hnd').1
    have hne_cur_it : cur ≠ it :=
      fun he => hcur_nin (by rw [he]; exact List.mem_cons_self _ _)
    by_cases hveqb : veq (vs.getD it default) (vs.getD cur default) = true
    · -- it continues the run headed by cur
      have hkeq : k it = k cur := (hveqk it cur hit hcur).mp hveqb
      have hcurlt_it : cur < it := by
        rcases hcur_all it (List.mem_cons_self _ _) with h | ⟨h1, h2⟩
        · rw [hkeq] at h; exact absurd h (lt_irrefl _)
        · exact lt_of_le_of_ne h2 hne_cur_it
      have hlen' : (remap.set it cur).length = vs.length := by
        rw [List.length_set]; exact hlen
      have hch' : (remap.set it cur).getD cur 0 = cur := by
        rw [getD_set_ne _ _ _ _ _ (Ne.symm hne_cur_it)]; exact hch
      have hcl' : ∀ x ∈ rest, (remap.set it cur).getD x 0 = x := by
        intro x hx
        rw [getD_set_ne _ _ _ _ _ (fun he => hit_nin_rest (by rw [he]; exact hx))]
        exact hcl x (List.mem_cons_of_mem _ hx)
      have hsortrec : List.Pairwise (fun i j => k i < k j ∨ (k i = k j ∧ i ≤ j))
          (cur :: rest) := by
        rw [List.pairwise_cons]
        exact ⟨fun y hy => hcur_all y (List.mem_cons_of_mem _ hy),
          (List.pairwise_cons.mp hsort').2⟩
      have hndrec : (cur :: rest).Nodup := by
        rw [List.nodup_cons]
        exact ⟨fun hc => hcur_nin (List.mem_cons_of_mem _ hc),
          (List.nodup_cons.mp hnd').2⟩
      obtain ⟨r1, r2, r3⟩ := ih cur (remap.set it cur) hlen' hcur hrestbnd hsortrec
        hndrec hch' hcl'
      have hstep : buildRemap veq vs (it :: rest) cur remap =
          buildRemap veq vs rest cur (remap.set it cur) := by
        rw [buildRemap, if_pos hveqb]
      rw [hstep]
      refine ⟨by rw [r1, List.length_set], ?_, ?_⟩
      · intro i hi
        have hi_rest : i ∉ rest := fun hc => hi (List.mem_cons_of_mem _ hc)
        have hi_ne_it : i ≠ it := fun he => hi (by rw [he]; exact List.mem_cons_self _ _)
        rw [r2 i hi_rest, getD_set_ne _ _ _ _ _ (Ne.symm hi_ne_it)]
      · intro x hx
        rcases List.mem_cons.mp hx with rfl | hx'
        · right
          have hval : (buildRemap veq vs rest cur (remap.set x cur)).getD x 0 = cur := by
            rw [r2 x hit_nin_rest, getD_set_self _ _ _ _ (by rw [hlen]; exact hit)]
          rw [hval]
          refine ⟨hcurlt_it, hkeq.symm, ?_, List.mem_cons_self _ _⟩
          rw [r2 cur (fun hc => hcur_nin (List.mem_cons_of_mem _ hc))]
          exact hch'
        · rcases r3 x hx' with ⟨h1, h2⟩ | ⟨h1, h2, h3, h4⟩
          · left
            refine ⟨h1, ?_⟩
            intro y hy hky
            rcases List.mem_cons.mp hy with rfl | hy'
            · exact h2 y (List.mem_cons_self _ _) hky
            · rcases List.mem_cons.mp hy' with rfl | hy''
              · exfalso
                have hkcx : k cur = k x := by rw [← hkeq]; exact hky
                have ha : x ≤ cur := h2 cur (List.mem_cons_self _ _) hkcx
                have hb : cur ≤ x := by
                  rcases hcur_all x (List.mem_cons_of_mem _ hx') with h | ⟨_, h⟩
                  · exact absurd hkcx (ne_of_lt h)
                  · exact h
                have hcx : cur = x := le_antisymm hb ha
                exact hcur_nin (by rw [hcx]; exact List.mem_cons_of_mem _ hx')
              · exact h2 y (List.mem_cons_of_mem _ hy'') hky
          · right
            refine ⟨h1, h2, h3, ?_⟩
            rcases List.mem_cons.mp h4 with he | hh
            · rw [he]; exact List.mem_cons_self _ _
            · exact List.mem_cons_of_mem _ (List.mem_cons_of_mem _ hh)
    · -- it opens a new run
      have hkne : k it ≠ k cur := fun he => hveqb ((hveqk it cur hit hcur).mpr he)
      have hstep : buildRemap veq vs (it :: rest) cur remap =
          buildRemap veq vs rest it remap := by
        rw [buildRemap, if_neg hveqb]
      rw [hstep]
      obtain ⟨r1, r2, r3⟩ := ih it remap hlen hit hrestbnd hsort' hnd'
        (hcl it (List.mem_cons_self _ _))
        (fun x hx => hcl x (List.mem_cons_of_mem _ hx))
      refine ⟨r1, ?_, ?_⟩
      · intro i hi
        exact r2 i (fun hc => hi (List.mem_cons_of_mem _ hc))
      · intro x hx
        rcases List.mem_cons.mp hx with rfl | hx'
        · left
          have hval : (buildRemap veq vs rest x remap).getD x 0 = x := by
            rw [r2 x hit_nin_rest]; exact hcl x (List.mem_cons_self _ _)
          refine ⟨hval, ?_⟩
          intro y hy hky
          rcases List.mem_cons.mp hy with rfl | hy'
          · exact absurd hky.symm hkne
          · rcases List.mem_cons.mp hy' with rfl | hy''
            · exact le_rfl
            · rcases (List.pairwise_cons.mp hsort').1 y hy'' with h | ⟨_, h⟩
              · exact absurd hky (ne_of_gt h)
              · exact h
        · rcases r3 x hx' with ⟨h1, h2⟩ | ⟨h1, h2, h3, h4⟩
          · left
            refine ⟨h1, ?_⟩
            intro y hy hky
            rcases List.mem_cons.mp hy with rfl | hy'
            · exfalso
              have hcit : k y < k it := by
                rcases hcur_all it (List.mem_cons_self _ _) with h | ⟨he, _⟩
                · exact h
                · exact absurd he.symm hkne
              have hitx : k it ≤ k x := by
                rcases (List.pairwise_cons.mp hsort').1 x hx' with h | ⟨he, _⟩
                · exact le_of_lt h
                · exact le_of_eq he
              rw [hky] at hcit
              exact absurd (lt_of_lt_of_le hcit hitx) (lt_irrefl _)
            · exact h2 y hy' hky
          · right
            exact ⟨h1, h2, h3, List.mem_cons_of_mem _ h4⟩


theorem relocStep_inv {β : Type} [Inhabited β] (vs : List β) (remap1 : List ℕ)
    (hlen1 : remap1.length = vs.length)
    (hQ : ∀ i, i < vs.length → remap1.getD i 0 ≤ i ∧
      remap1.getD (remap1.getD i 0) 0 = remap1.getD i 0)
    (st : RelocSt β) (pos : ℕ) (H : List ℕ)
    (hpos : pos < vs.length)
    (hinv : RelocInv vs remap1 st pos H) :
    ∃ H', RelocInv vs remap1 (relocStep st pos) (pos + 1) H' := by
  obtain ⟨c1, c2, c3, c4, c5, c6, c7, c8, c9, c10, c11⟩ := hinv
  have hrpos : st.remap.getD pos 0 = remap1.getD pos 0 := c5 pos le_rfl
  by_cases hh : remap1.getD pos 0 = pos
  · -- pos is a run head: compact it
    have hcond : st.remap.getD pos 0 = pos := by rw [hrpos]; exact hh
    rw [relocStep, if_pos hcond]
    by_cases hc : ¬ st.cur + 1 = pos
    · rw [if_pos hc]
      refine ⟨H ++ [pos], ?_⟩
      have hcurlt : st.cur + 1 < pos := lt_of_le_of_ne (by omega) hc
      refine ⟨?_, ?_, ?_, ?_, ?_, ?_, ?_, ?_, ?_, ?_, ?_⟩
      · dsimp only; rw [List.length_set]; exact c1
      · dsimp only; rw [List.length_set]; exact c2
      · dsimp only; rw [List.length_append, ← c3]; rfl
      · dsimp only; omega
      · intro i hi
        dsimp only
        rw [getD_set_ne _ _ _ _ _ (by omega)]
        exact c5 i (by omega)
      · intro i hi
        dsimp only at hi ⊢
        rw [getD_set_ne _ _ _ _ _ (by omega)]
        exact c6 i (by omega)
      · rw [List.pairwise_append]
        exact ⟨c7, List.pairwise_singleton _ _,
          fun a ha b hb => by
            rw [List.mem_singleton] at hb
            subst hb
            exact (c8 a ha).1⟩
      · intro h hmem
        rcases List.mem_append.mp hmem with hmem | hmem
        · exact ⟨by have := (c8 h hmem).1; omega, (c8 h hmem).2⟩
        · rw [List.mem_singleton] at hmem
          subst hmem
          exact ⟨by omega, hh⟩
      · intro h h1 h2
        rcases Nat.lt_or_ge h pos with hlt | hge
        · exact List.mem_append.mpr (Or.inl (c9 h hlt h2))
        · have : h = pos := by omega
          subst this
          exact List.mem_append.mpr (Or.inr (List.mem_singleton.mpr rfl))
      · intro t ht
        dsimp only
        rw [List.length_append, List.length_singleton] at ht
        rcases Nat.lt_or_ge t H.length with hlt | hge
        · rw [getD_set_ne _ _ _ _ _ (by omega), List.getD_append _ _ _ _ hlt]
          exact c10 t hlt
        · have hteq : t = H.length := by omega
          subst hteq
          have hslot : H.length = st.cur + 1 := by omega
          rw [List.getD_append_right _ _ _ _ le_rfl, Nat.sub_self]
          simp only [List.getD_cons_zero]
          rw [hslot, getD_set_self _ _ _ _ (by omega)]
          exact c6 pos (by omega)
      · intro i hi
        rcases Nat.lt_or_ge i pos with hlt | hge
        · obtain ⟨t, ht1, ht2, ht3⟩ := c11 i hlt
          refine ⟨t, ?_, ?_, ?_⟩
          · rw [List.length_append, List.length_singleton]; omega
          · rw [List.getD_append _ _ _ _ ht1]; exact ht2
          · dsimp only; rw [getD_set_ne _ _ _ _ _ (by omega)]; exact ht3
        · have hieq : i = pos := by omega
          subst hieq
          refine ⟨st.cur + 1, ?_, ?_, ?_⟩
          · rw [List.length_append, List.length_singleton]; omega
          · rw [List.getD_append_right _ _ _ _ (by omega)]
            have : st.cur + 1 - H.length = 0 := by omega
            rw [this]
            simp only [List.getD_cons_zero]
            exact hh.symm
          · dsimp only
            rw [getD_set_self _ _ _ _ (by rw [c1, hlen1]; exact hpos)]
    · rw [if_neg hc]
      push_neg at hc
      refine ⟨H ++ [pos], ?_⟩
      refine ⟨c1, c2, ?_, by dsimp only; omega, ?_, ?_, ?_, ?_, ?_, ?_, ?_⟩
      · dsimp only; rw [List.length_append, ← c3]; rfl
      · intro i hi
        exact c5 i (by omega)
      · intro i hi
        dsimp only at hi
        exact c6 i (by omega)
      · rw [List.pairwise_append]
        exact ⟨c7, List.pairwise_singleton _ _,
          fun a ha b hb => by
            rw [List.mem_singleton] at hb
            subst hb
            exact (c8 a ha).1⟩
      · intro h hmem
        rcases List.mem_append.mp hmem with hmem | hmem
        · exact ⟨by have := (c8 h hmem).1; omega, (c8 h hmem).2⟩
        · rw [List.mem_singleton] at hmem
          subst hmem
          exact ⟨by omega, hh⟩
      · intro h h1 h2
        rcases Nat.lt_or_ge h pos with hlt | hge
        · exact List.mem_append.mpr (Or.inl (c9 h hlt h2))
        · have : h = pos := by omega
          subst this
          exact List.mem_append.mpr (Or.inr (List.mem_singleton.mpr rfl))
      · intro t ht
        rw [List.length_append, List.length_singleton] at ht
        rcases Nat.lt_or_ge t H.length with hlt | hge
        · rw [List.getD_append _ _ _ _ hlt]
          exact c10 t hlt
        · have hteq : t = H.length := by omega
          subst hteq
          rw [List.getD_append_right _ _ _ _ le_rfl, Nat.sub_self]
          simp only [List.getD_cons_zero]
          have hteq2 : H.length = pos := by omega
          rw [hteq2]
          exact c6 pos (by omega)
      · intro i hi
        rcases Nat.lt_or_ge i pos with hlt | hge
        · obtain ⟨t, ht1, ht2, ht3⟩ := c11 i hlt
          refine ⟨t, ?_, ?_, ht3⟩
          · rw [List.length_append, List.length_singleton]; omega
          · rw [List.getD_append _ _ _ _ ht1]; exact ht2
        · have hieq : i = pos := by omega
          rw [hieq]
          refine ⟨pos, ?_, ?_, ?_⟩
          · rw [List.length_append, List.length_singleton]; omega
          · rw [List.getD_append_right _ _ _ _ (by omega)]
            have : pos - H.length = 0 := by omega
            rw [this]
            simp only [List.getD_cons_zero]
            exact hh.symm
          · rw [hrpos, hh]
  · -- pos is a duplicate: chase its representative
    have hcond : ¬ st.remap.getD pos 0 = pos := by rw [hrpos]; exact hh
    rw [relocStep, if_neg hcond]
    have hr := hQ pos hpos
    have hrlt : remap1.getD pos 0 < pos := lt_of_le_of_ne hr.1 hh
    obtain ⟨t, ht1, ht2, ht3⟩ := c11 (remap1.getD pos 0) hrlt
    refine ⟨H, ?_⟩
    refine ⟨by dsimp only; rw [List.length_set]; exact c1, c2, c3,
      by dsimp only; omega, ?_, c6, c7, ?_, ?_, c10, ?_⟩
    · intro i hi
      dsimp only
      rw [getD_set_ne _ _ _ _ _ (by omega)]
      exact c5 i (by omega)
    · intro h hmem
      exact ⟨by have := (c8 h hmem).1; omega, (c8 h hmem).2⟩
    · intro h h1 h2
      rcases Nat.lt_or_ge h pos with hlt | hge
      · exact c9 h hlt h2
      · exfalso
        have : h = pos := by omega
        subst this
        exact hh h2
    · intro i hi
      rcases Nat.lt_or_ge i pos with hlt | hge
      · obtain ⟨u, hu1, hu2, hu3⟩ := c11 i hlt
        refine ⟨u, hu1, hu2, ?_⟩
        dsimp only
        rw [getD_set_ne _ _ _ _ _ (by omega)]
        exact hu3
      · have hieq : i = pos := by omega
        subst hieq
        refine ⟨t, ht1, ?_, ?_⟩
        · rw [ht2, hr.2]
        · dsimp only
          rw [getD_set_self _ _ _ _ (by rw [c1, hlen1]; exact hpos)]
          rw [hrpos, ht3]

theorem relocLoop_inv {β : Type} [Inhabited β] (vs : List β) (remap1 : List ℕ)
    (hlen1 : remap1.length = vs.length)
    (hQ : ∀ i, i < vs.length → remap1.getD i 0 ≤ i ∧
      remap1.getD (remap1.getD i 0) 0 = remap1.getD i 0) :
    ∀ (steps : ℕ) (st : RelocSt β) (pos : ℕ) (H : List ℕ),
      pos + steps = vs.length →
      RelocInv vs remap1 st pos H →
      ∃ H', RelocInv vs remap1 (relocLoop st pos steps) vs.length H' := by
  intro steps
  induction steps with
  | zero =>
    intro st pos H htot hinv
    have hpe : pos = vs.length := by omega
    rw [relocLoop]
    exact ⟨H, hpe ▸ hinv⟩
  | succ steps ih =>
    intro st pos H htot hinv
    have hpos : pos < vs.length := by omega
    obtain ⟨H1, h1⟩ := relocStep_inv vs remap1 hlen1 hQ st pos H hpos hinv
    rw [relocLoop]
    exact ih (relocStep st pos) (pos + 1) H1 (by omega) h1

theorem getD_take {α : Type} (l : List α) (m t : ℕ) (d : α) (h : t < m) :
    (l.take m).getD t d = l.getD t d := by
  rw [List.getD_eq_getElem?_getD, List.getD_eq_getElem?_getD, List.getElem?_take]
  simp [h]

theorem deduplicateVertices_spec {β κ ν : Type} [Inhabited β] [LinearOrder κ] [Inhabited ν]
    (veq vlt : β → β → Bool) (Key : β → κ) (vs : List β) (faces : List (Face ν))
    (hveq : ∀ a b : β, (a ∈ vs ∨ a = default) → (b ∈ vs ∨ b = default) →
      veq a b = decide (Key a = Key b))
    (hvlt : ∀ a b : β, (a ∈ vs ∨ a = default) → (b ∈ vs ∨ b = default) →
      vlt a b = decide (Key a < Key b))
    (hfin : ∀ f ∈ faces, f.i0 < vs.length ∧ f.i1 < vs.length ∧ f.i2 < vs.length) :
    (∀ p q, p < (deduplicateVertices veq vlt vs faces).1.length →
      q < (deduplicateVertices veq vlt vs faces).1.length → p ≠ q →
      veq ((deduplicateVertices veq vlt vs faces).1.getD p default)
        ((deduplicateVertices veq vlt vs faces).1.getD q default) = false) ∧
    (∀ v ∈ (deduplicateVertices veq vlt vs faces).1, v ∈ vs) ∧
    (deduplicateVertices veq vlt vs faces).2.length = faces.length ∧
    (∀ j, j < faces.length →
      ((deduplicateVertices veq vlt vs faces).2.getD j default).normal =
        (faces.getD j default).normal ∧
      ((deduplicateVertices veq vlt vs faces).2.getD j default).i0 <
        (deduplicateVertices veq vlt vs faces).1.length ∧
      ((deduplicateVertices veq vlt vs faces).2.getD j default).i1 <
        (deduplicateVertices veq vlt vs faces).1.length ∧
      ((deduplicateVertices veq vlt vs faces).2.getD j default).i2 <
        (deduplicateVertices veq vlt vs faces).1.length ∧
      veq ((deduplicateVertices veq vlt vs faces).1.getD
          ((deduplicateVertices veq vlt vs faces).2.getD j default).i0 default)
        (vs.getD (faces.getD j default).i0 default) = true ∧
      veq ((deduplicateVertices veq vlt vs faces).1.getD
          ((deduplicateVertices veq vlt vs faces).2.getD j default).i1 default)
        (vs.getD (faces.getD j default).i1 default) = true ∧
      veq ((deduplicateVertices veq vlt vs faces).1.getD
          ((deduplicateVertices veq vlt vs faces).2.getD j default).i2 default)
        (vs.getD (faces.getD j default).i2 default) = true) := by
  have hGood : ∀ i : ℕ, vs.getD i default ∈ vs ∨ vs.getD i default = default := by
    intro i
    rcases Nat.lt_or_ge i vs.length with h | h
    · left
      rw [List.getD_eq_getElem _ _ h]
      exact List.getElem_mem _
    · right
      exact List.getD_eq_default _ _ h
  have hveqs : ∀ i j : ℕ, veq (vs.getD i default) (vs.getD j default) = true ↔
      Key (vs.getD i default) = Key (vs.getD j default) := by
    intro i j
    rw [hveq _ _ (hGood i) (hGood j)]
    exact ⟨of_decide_eq_true, fun h => decide_eq_true h⟩
  by_cases hsmall : vs.length < 2
  · unfold deduplicateVertices
    rw [if_pos hsmall]
    dsimp only
    refine ⟨?_, fun v hv => hv, rfl, ?_⟩
    · intro p q hp hq hne
      exfalso
      omega
    · intro j hj
      have hmem : faces.getD j default ∈ faces := by
        rw [List.getD_eq_getElem _ _ hj]
        exact List.getElem_mem _
      obtain ⟨h0, h1, h2⟩ := hfin _ hmem
      refine ⟨rfl, h0, h1, h2, ?_, ?_, ?_⟩ <;>
        exact (hveqs _ _).mpr rfl
  · unfold deduplicateVertices
    rw [if_neg hsmall]
    have hchar : ∀ i j : ℕ, idxLe vlt vs i j ↔
        (Key (vs.getD i default) < Key (vs.getD j default) ∨
         (Key (vs.getD i default) = Key (vs.getD j default) ∧ i ≤ j)) := by
      intro i j
      unfold idxLe
      rw [hvlt _ _ (hGood i) (hGood j), hvlt _ _ (hGood j) (hGood i)]
      constructor
      · rintro (h | ⟨h1, h2⟩)
        · exact Or.inl (of_decide_eq_true h)
        · have hle : Key (vs.getD i default) ≤ Key (vs.getD j default) := by
            have := of_decide_eq_false h1
            exact le_of_not_lt this
          rcases lt_or_eq_of_le hle with h | h
          · exact Or.inl h
          · exact Or.inr ⟨h, h2⟩
      · rintro (h | ⟨h1, h2⟩)
        · exact Or.inl (decide_eq_true h)
        · refine Or.inr ⟨decide_eq_false (by rw [h1]; exact lt_irrefl _), h2⟩
    haveI htot : IsTotal ℕ (idxLe vlt vs) := by
      constructor
      intro i j
      rw [hchar, hchar]
      rcases lt_trichotomy (Key (vs.getD i default)) (Key (vs.getD j default)) with h | h | h
      · exact Or.inl (Or.inl h)
      · rcases Nat.le_total i j with hij | hij
        · exact Or.inl (Or.inr ⟨h, hij⟩)
        · exact Or.inr (Or.inr ⟨h.symm, hij⟩)
      · exact Or.inr (Or.inl h)
    haveI htr : IsTrans ℕ (idxLe vlt vs) := by
      constructor
      intro a b c hab hbc
      rw [hchar] at hab hbc ⊢
      rcases hab with hab | ⟨hab1, hab2⟩ <;> rcases hbc with hbc | ⟨hbc1, hbc2⟩
      · exact Or.inl (lt_trans hab hbc)
      · exact Or.inl (hbc1 ▸ hab)
      · exact Or.inl (hab1 ▸ hbc)
      · exact Or.inr ⟨hab1.trans hbc1, le_trans hab2 hbc2⟩
    have hsorted := List.sorted_insertionSort (idxLe vlt vs) (List.range vs.length)
    have hperm0 := List.perm_insertionSort (idxLe vlt vs) (List.range vs.length)
    cases hs : List.insertionSort (idxLe vlt vs) (List.range vs.length) with
    | nil =>
      exfalso
      have hlen := List.length_insertionSort (idxLe vlt vs) (List.range vs.length)
      rw [hs] at hlen
      simp at hlen
      omega
    | cons c0 rest =>
      rw [hs] at hsorted hperm0
      dsimp only
      have hmemS : ∀ x ∈ c0 :: rest, x < vs.length := by
        intro x hx
        have := hperm0.mem_iff.mp hx
        simpa using this
      have hallS : ∀ x, x < vs.length → x ∈ c0 :: rest := by
        intro x hx
        exact hperm0.mem_iff.mpr (by simpa using hx)
      have hnodupS : (c0 :: rest).Nodup := hperm0.nodup_iff.mpr (List.nodup_range _)
      have hc0 : c0 < vs.length := hmemS c0 (List.mem_cons_self _ _)
      have hsortk : List.Pairwise (fun i j =>
          Key (vs.getD i default) < Key (vs.getD j default) ∨
          (Key (vs.getD i default) = Key (vs.getD j default) ∧ i ≤ j)) (c0 :: rest) :=
        hsorted.imp (fun hab => (hchar _ _).mp hab)
      have hrange_getD : ∀ x : ℕ, x < vs.length →
          (List.range vs.length).getD x 0 = x := by
        intro x hx
        rw [List.getD_eq_getElem _ _ (by simpa using hx)]
        simp
      obtain ⟨b1, b2, b3⟩ := buildRemap_spec veq vs
        (fun i => Key (vs.getD i default)) (fun i j hi hj => hveqs i j)
        rest c0 (List.range vs.length) (by simp) hc0
        (fun x hx => hmemS x (List.mem_cons_of_mem _ hx)) hsortk hnodupS
        (hrange_getD c0 hc0)
        (fun x hx => hrange_getD x (hmemS x (List.mem_cons_of_mem _ hx)))
      set remap1 := buildRemap veq vs rest c0 (List.range vs.length) with hremap1
      have hc0_nin : c0 ∉ rest := (List.nodup_cons.mp hnodupS).1
      have hr1c0 : remap1.getD c0 0 = c0 := by
        rw [b2 c0 hc0_nin]
        exact hrange_getD c0 hc0
      have hQlen : remap1.length = vs.length := by rw [b1]; simp
      have hQ2 : ∀ i, i < vs.length → remap1.getD i 0 ≤ i ∧
          Key (vs.getD (remap1.getD i 0) default) = Key (vs.getD i default) ∧
          remap1.getD (remap1.getD i 0) 0 = remap1.getD i 0 ∧
          remap1.getD i 0 < vs.length := by
        intro i hi
        rcases List.mem_cons.mp (hallS i hi) with rfl | hirest
        · rw [hr1c0]
          exact ⟨le_rfl, rfl, hr1c0, hi⟩
        · rcases b3 i hirest with ⟨h1, _⟩ | ⟨h1, h2, h3, h4⟩
          · rw [h1]
            exact ⟨le_rfl, rfl, h1, hi⟩
          · exact ⟨le_of_lt h1, h2, h3, hmemS _ h4⟩
      have hQ3head : ∀ i, i < vs.length → remap1.getD i 0 = i →
          ∀ j, j < vs.length →
            Key (vs.getD j default) = Key (vs.getD i default) → i ≤ j := by
        intro i hi hhead j hj hkj
        rcases List.mem_cons.mp (hallS i hi) with rfl | hirest
        · rcases List.mem_cons.mp (hallS j hj) with rfl | hjrest
          · exact le_rfl
          · rcases (List.pairwise_cons.mp hsortk).1 j hjrest with h | ⟨_, h⟩
            · exact absurd hkj (ne_of_gt h)
            · exact h
        · rcases b3 i hirest with ⟨_, h2⟩ | ⟨h1, _⟩
          · exact h2 j (hallS j hj) hkj
          · rw [hhead] at h1
            exact absurd h1 (lt_irrefl _)
      have hQ3min : ∀ i, i < vs.length →
          (∀ j, j < i → Key (vs.getD j default) ≠ Key (vs.getD i default)) →
          remap1.getD i 0 = i := by
        intro i hi hmin
        rcases List.mem_cons.mp (hallS i hi) with rfl | hirest
        · exact hr1c0
        · rcases b3 i hirest with ⟨h1, _⟩ | ⟨h1, h2, _, _⟩
          · exact h1
          · exact absurd h2 (hmin _ h1)
      -- the relocation loop
      have hbase : RelocInv vs remap1 (⟨remap1, vs, 0⟩ : RelocSt β) 1 [0] := by
        refine ⟨rfl, rfl, rfl, Nat.zero_lt_one, fun i _ => rfl, fun i _ => rfl,
          List.pairwise_singleton _ _, ?_, ?_, ?_, ?_⟩
        · intro h hm
          rw [List.mem_singleton] at hm
          subst hm
          refine ⟨Nat.zero_lt_one, ?_⟩
          have := (hQ2 0 (by omega)).1
          omega
        · intro h h1 h2
          have : h = 0 := by omega
          rw [this]
          exact List.mem_singleton.mpr rfl
        · intro t ht
          rw [List.length_singleton] at ht
          have : t = 0 := by omega
          subst this
          simp only [List.getD_cons_zero]
        · intro i hi
          have : i = 0 := by omega
          subst this
          refine ⟨0, by simp, ?_, ?_⟩
          · simp only [List.getD_cons_zero]
            have h0 := (hQ2 0 (by omega)).1
            omega
          · show remap1.getD 0 0 = 0
            have h0 := (hQ2 0 (by omega)).1
            omega
      obtain ⟨H, hinv⟩ := relocLoop_inv vs remap1 hQlen
        (fun i hi => ⟨(hQ2 i hi).1, (hQ2 i hi).2.2.1⟩)
        (vs.length - 1) (⟨remap1, vs, 0⟩ : RelocSt β) 1 [0] (by omega) hbase
      set res := relocLoop (⟨remap1, vs, 0⟩ : RelocSt β) 1 (vs.length - 1) with hres
      obtain ⟨d1, d2, d3, d4, d5, d6, d7, d8, d9, d10, d11⟩ := hinv
      have hHnodup : H.Nodup := d7.imp (fun h => ne_of_lt h)
      have hHbnd : ∀ h ∈ H, h < vs.length := fun h hm => (d8 h hm).1
      have hHle : H.length ≤ vs.length := nodup_bounded_length H vs.length hHnodup hHbnd
      have hRVlen : (res.verts.take (res.cur + 1)).length = H.length := by
        rw [List.length_take, d2, d3]
        omega
      have hHgetmem : ∀ t, t < H.length → H.getD t 0 ∈ H := by
        intro t ht
        rw [List.getD_eq_getElem _ _ ht]
        exact List.getElem_mem _
      have hRVget : ∀ t, t < H.length →
          (res.verts.take (res.cur + 1)).getD t default =
            vs.getD (H.getD t 0) default := by
        intro t ht
        rw [getD_take _ _ _ _ (by omega)]
        exact d10 t ht
      refine ⟨?_, ?_, by simp, ?_⟩
      · -- pairwise non-equal
        intro p q hp hq hne
        rw [hRVlen] at hp hq
        rw [hRVget p hp, hRVget q hq]
        have hpq : H.getD p 0 ≠ H.getD q 0 := by
          intro he
          rcases Nat.lt_trichotomy p q with h | h | h
          · have := List.pairwise_iff_getElem.mp d7 p q hp hq h
            rw [List.getD_eq_getElem _ _ hp, List.getD_eq_getElem _ _ hq] at he
            omega
          · exact hne h
          · have := List.pairwise_iff_getElem.mp d7 q p hq hp h
            rw [List.getD_eq_getElem _ _ hp, List.getD_eq_getElem _ _ hq] at he
            omega
        have hkne : Key (vs.getD (H.getD p 0) default) ≠
            Key (vs.getD (H.getD q 0) default) := by
          intro hke
          have hhp := d8 _ (hHgetmem p hp)
          have hhq := d8 _ (hHgetmem q hq)
          have h1 : H.getD p 0 ≤ H.getD q 0 :=
            hQ3head _ hhp.1 hhp.2 _ hhq.1 hke.symm
          have h2 : H.getD q 0 ≤ H.getD p 0 :=
            hQ3head _ hhq.1 hhq.2 _ hhp.1 hke
          exact hpq (le_antisymm h1 h2)
        rw [hveq _ _ (hGood _) (hGood _)]
        exact decide_eq_false hkne
      · -- result vertices come from the input
        intro v hv
        obtain ⟨t, ht, rfl⟩ := List.mem_iff_getElem.mp hv
        have ht' : t < H.length := by rw [← hRVlen]; exact ht
        rw [← List.getD_eq_getElem _ default ht, hRVget t ht']
        have hb := hHbnd _ (hHgetmem t ht')
        rw [List.getD_eq_getElem _ _ hb]
        exact List.getElem_mem _
      · -- faces
        intro j hj
        have hmem : faces.getD j default ∈ faces := by
          rw [List.getD_eq_getElem _ _ hj]
          exact List.getElem_mem _
        obtain ⟨h0, h1, h2⟩ := hfin _ hmem
        have hmaplen : (faces.map (fun f =>
            (⟨res.remap.getD f.i0 0, res.remap.getD f.i1 0,
              res.remap.getD f.i2 0, f.normal⟩ : Face ν))).length = faces.length := by
          simp
        have hmapget : (faces.map (fun f =>
            (⟨res.remap.getD f.i0 0, res.remap.getD f.i1 0,
              res.remap.getD f.i2 0, f.normal⟩ : Face ν))).getD j default =
            ⟨res.remap.getD (faces.getD j default).i0 0,
             res.remap.getD (faces.getD j default).i1 0,
             res.remap.getD (faces.getD j default).i2 0,
             (faces.getD j default).normal⟩ := by
          rw [List.getD_eq_getElem _ _ (by rw [hmaplen]; exact hj), List.getElem_map,
            List.getD_eq_getElem _ _ hj]
        rw [hmapget]
        obtain ⟨t0, ht0, ht0H, ht0r⟩ := d11 _ h0
        obtain ⟨t1, ht1, ht1H, ht1r⟩ := d11 _ h1
        obtain ⟨t2, ht2, ht2H, ht2r⟩ := d11 _ h2
        refine ⟨rfl, ?_, ?_, ?_, ?_, ?_, ?_⟩
        · rw [ht0r, hRVlen]; exact ht0
        · rw [ht1r, hRVlen]; exact ht1
        · rw [ht2r, hRVlen]; exact ht2
        · rw [ht0r, hRVget t0 ht0, ht0H]
          exact (hveqs _ _).mpr ((hQ2 _ h0).2.1)
        · rw [ht1r, hRVget t1 ht1, ht1H]
          exact (hveqs _ _).mpr ((hQ2 _ h1).2.1)
        · rw [ht2r, hRVget t2 ht2, ht2H]
          exact (hveqs _ _).mpr ((hQ2 _ h2).2.1)

theorem f32eq_key (p q : ℕ) (hp : f32isNaN p = false) (hq : f32isNaN q = false) :
    f32eq p q = decide (f32key p = f32key q) := by
  unfold f32eq
  rw [hp, hq]
  simp

theorem f32lt_key (p q : ℕ) (hp : f32isNaN p = false) (hq : f32isNaN q = false) :
    f32lt p q = decide (f32key p < f32key q) := by
  unfold f32lt
  rw [hp, hq]
  simp

theorem vecEqF32_key (a b : Vec3 ℕ)
    (ha : f32isNaN a.x = false ∧ f32isNaN a.y = false ∧ f32isNaN a.z = false)
    (hb : f32isNaN b.x = false ∧ f32isNaN b.y = false ∧ f32isNaN b.z = false) :
    vecEqF32 a b = decide
      ((toLex (f32key a.x, toLex (f32key a.y, f32key a.z)) : ℤ ×ₗ (ℤ ×ₗ ℤ)) =
       toLex (f32key b.x, toLex (f32key b.y, f32key b.z))) := by
  have hiff : ((toLex (f32key a.x, toLex (f32key a.y, f32key a.z)) : ℤ ×ₗ (ℤ ×ₗ ℤ)) =
      toLex (f32key b.x, toLex (f32key b.y, f32key b.z))) ↔
      (f32key a.x = f32key b.x ∧ (f32key a.y = f32key b.y ∧ f32key a.z = f32key b.z)) := by
    rw [toLex_inj, Prod.ext_iff]
    simp only [toLex_inj, Prod.ext_iff]
  unfold vecEqF32
  rw [f32eq_key _ _ ha.1 hb.1, f32eq_key _ _ ha.2.1 hb.2.1, f32eq_key _ _ ha.2.2 hb.2.2,
    decide_eq_decide.mpr hiff]
  · simp [Bool.and_assoc]
  · infer_instance

theorem vecLtF32_key (a b : Vec3 ℕ)
    (ha : f32isNaN a.x = false ∧ f32isNaN a.y = false ∧ f32isNaN a.z = false)
    (hb : f32isNaN b.x = false ∧ f32isNaN b.y = false ∧ f32isNaN b.z = false) :
    vecLtF32 a b = decide
      ((toLex (f32key a.x, toLex (f32key a.y, f32key a.z)) : ℤ ×ₗ (ℤ ×ₗ ℤ)) <
       toLex (f32key b.x, toLex (f32key b.y, f32key b.z))) := by
  have hlt : ((toLex (f32key a.x, toLex (f32key a.y, f32key a.z)) : ℤ ×ₗ (ℤ ×ₗ ℤ)) <
      toLex (f32key b.x, toLex (f32key b.y, f32key b.z))) ↔
      (f32key a.x < f32key b.x ∨ (f32key a.x = f32key b.x ∧
        (f32key a.y < f32key b.y ∨
          (f32key a.y = f32key b.y ∧ f32key a.z < f32key b.z)))) := by
    rw [Prod.Lex.lt_iff]
    simp only [Prod.Lex.lt_iff, toLex_inj]
  unfold vecLtF32
  rw [f32lt_key _ _ ha.1 hb.1, f32eq_key _ _ ha.1 hb.1, f32lt_key _ _ ha.2.1 hb.2.1,
    f32eq_key _ _ ha.2.1 hb.2.1, f32lt_key _ _ ha.2.2 hb.2.2,
    decide_eq_decide.mpr hlt]
  · by_cases h1 : f32key a.x < f32key b.x
    · simp [h1]
    · by_cases h2 : f32key a.x = f32key b.x
      · by_cases h3 : f32key a.y < f32key b.y
        · simp [h1, h2, h3]
        · by_cases h4 : f32key a.y = f32key b.y
          · simp [h1, h2, h3, h4]
          · simp [h1, h2, h3, h4]
      · simp [h1, h2]
  · infer_instance

/-- C7: after parsing, deduplication merges exactly the vertices that
compare equal under the float comparison operator (on NaN-free inputs):
the surviving vertices are pairwise float-distinct and drawn from the
input, and every face keeps its normal and points at vertices
float-equal to its original corner coordinates, at valid indices. -/
theorem c7_dedup_float_equal {ν : Type} [Inhabited ν]
    (vs : List (Vec3 ℕ)) (faces : List (Face ν))
    (hnan : ∀ v ∈ vs, f32isNaN v.x = false ∧ f32isNaN v.y = false ∧ f32isNaN v.z = false)
    (hfin : ∀ f ∈ faces, f.i0 < vs.length ∧ f.i1 < vs.length ∧ f.i2 < vs.length) :
    (∀ p q, p < (deduplicateVertices vecEqF32 vecLtF32 vs faces).1.length →
      q < (deduplicateVertices vecEqF32 vecLtF32 vs faces).1.length → p ≠ q →
      vecEqF32 ((deduplicateVertices vecEqF32 vecLtF32 vs faces).1.getD p default)
        ((deduplicateVertices vecEqF32 vecLtF32 vs faces).1.getD q default) = false) ∧
    (∀ v ∈ (deduplicateVertices vecEqF32 vecLtF32 vs faces).1, v ∈ vs) ∧
    (deduplicateVertices vecEqF32 vecLtF32 vs faces).2.length = faces.length ∧
    (∀ j, j < faces.length →
      ((deduplicateVertices vecEqF32 vecLtF32 vs faces).2.getD j default).normal =
        (faces.getD j default).normal ∧
      ((deduplicateVertices vecEqF32 vecLtF32 vs faces).2.getD j default).i0 <
        (deduplicateVertices vecEqF32 vecLtF32 vs faces).1.length ∧
      ((deduplicateVertices vecEqF32 vecLtF32 vs faces).2.getD j default).i1 <
        (deduplicateVertices vecEqF32 vecLtF32 vs faces).1.length ∧
      ((deduplicateVertices vecEqF32 vecLtF32 vs faces).2.getD j default).i2 <
        (deduplicateVertices vecEqF32 vecLtF32 vs faces).1.length ∧
      vecEqF32 ((deduplicateVertices vecEqF32 vecLtF32 vs faces).1.getD
          ((deduplicateVertices vecEqF32 vecLtF32 vs faces).2.getD j default).i0 default)
        (vs.getD (faces.getD j default).i0 default) = true ∧
      vecEqF32 ((deduplicateVertices vecEqF32 vecLtF32 vs faces).1.getD
          ((deduplicateVertices vecEqF32 vecLtF32 vs faces).2.getD j default).i1 default)
        (vs.getD (faces.getD j default).i1 default) = true ∧
      vecEqF32 ((deduplicateVertices vecEqF32 vecLtF32 vs faces).1.getD
          ((deduplicateVertices vecEqF32 vecLtF32 vs faces).2.getD j default).i2 default)
        (vs.getD (faces.getD j default).i2 default) = true) := by
  have hgood : ∀ a : Vec3 ℕ, (a ∈ vs ∨ a = default) →
      f32isNaN a.x = false ∧ f32isNaN a.y = false ∧ f32isNaN a.z = false := by
    intro a ha
    rcases ha with ha | ha
    · exact hnan a ha
    · subst ha
      exact ⟨rfl, rfl, rfl⟩
  exact deduplicateVertices_spec vecEqF32 vecLtF32
    (fun v => (toLex (f32key v.x, toLex (f32key v.y, f32key v.z)) : ℤ ×ₗ (ℤ ×ₗ ℤ)))
    vs faces
    (fun a b hga hgb => vecEqF32_key a b (hgood a hga) (hgood b hgb))
    (fun a b hga hgb => vecLtF32_key a b (hgood a hga) (hgood b hgb))
    hfin

/-- Witness for c7_dedup_float_equal: a three-vertex list whose first and
third vertices share the bit pattern of 0.0f collapses to two faces
entries over the deduplicated array. -/
theorem c7_dedup_float_equal_witness :
    (deduplicateVertices vecEqF32 vecLtF32
      [(⟨0, 0, 0⟩ : Vec3 ℕ), ⟨1065353216, 0, 0⟩, ⟨0, 0, 0⟩]
      [(⟨0, 2, 1, (default : NormalV)⟩ : Face NormalV)]).2.length = 1 :=
  (c7_dedup_float_equal
    [(⟨0, 0, 0⟩ : Vec3 ℕ), ⟨1065353216, 0, 0⟩, ⟨0, 0, 0⟩]
    [(⟨0, 2, 1, (default : NormalV)⟩ : Face NormalV)]
    (by decide) (by decide)).2.2.1

/-- C7 counterexample: the bit patterns 0x00000000 (+0.0f) and
0x80000000 (-0.0f) differ in a single bit (the sign bit), are not NaN,
yet float operator equal identifies them, so deduplicateVertices merges
the two vertices into one: vertices that differ in a single bit do NOT
always remain distinct. -/
theorem c7_counterexample :
    (deduplicateVertices vecEqF32 vecLtF32
      [(⟨0, 0, 0⟩ : Vec3 ℕ), ⟨2147483648, 0, 0⟩] ([] : List (Face NormalV))).1.length = 1 ∧
    (⟨0, 0, 0⟩ : Vec3 ℕ) ≠ ⟨2147483648, 0, 0⟩ ∧
    f32isNaN 0 = false ∧ f32isNaN 2147483648 = false := by decide

end rendirt
